import Mathlib

/-!
# DragonBallChain ledger core: balance ledger and CDP arithmetic

A shallow embedding of `src/entities/account.cpp` (the multi-bucket balance
ledger `CAccount::OperateBalance` and the delegate-vote bookkeeping
`CAccount::ProcessCandidateVotes`) and of the arithmetic of `src/tx/cdptx.cpp`
(collateral ratio, interest, redeem clamping, liquidation tiers).

Machine integers are natural numbers; `uint64_t` arithmetic is written with an
explicit reduction modulo `2 ^ 64`. The `double` expressions of `cdptx.cpp` are
evaluated in an exact model of binary64 rounding. The first part of the file
holds the definitions, the second the theorems.
-/

namespace DBC

/-! ## Machine arithmetic -/

/-- Number of values of a `uint64_t`. -/
def U64 : Nat := 2 ^ 64

/-- Unsigned 64-bit addition `a + b` (wraps modulo `2 ^ 64`). -/
def add64 (a b : Nat) : Nat := (a + b) % U64

/-- Unsigned 64-bit subtraction `a - b` (wraps modulo `2 ^ 64`). -/
def sub64 (a b : Nat) : Nat := (a + U64 - b % U64) % U64

/-! ## Data model (`entities/account.h`, as used by `account.cpp`) -/

abbrev TokenSymbol := String

/-- The reason code of a receipt: the codes named in `account.cpp`, in the forced
liquidation of `blockpricemediantx.cpp` and in the manual liquidation of `cdptx.cpp`, and
`code n` for every other member of the `ReceiptType` enumeration. -/
inductive ReceiptType where
  | DELEGATE_ADD_VOTE
  | DELEGATE_SUB_VOTE
  | DELEGATE_VOTE_INTEREST
  | CDP_TOTAL_CLOSEOUT_SCOIN_FROM_RESERVE
  | CDP_TOTAL_ASSET_TO_RESERVE
  | CDP_TOTAL_INFLATE_FCOIN_TO_RESERVE
  | CDP_SCOIN_FROM_LIQUIDATOR
  | CDP_ASSET_TO_LIQUIDATOR
  | CDP_LIQUIDATED_ASSET_TO_OWNER
  | CDP_PENALTY_TO_RESERVE
  | CDP_PENALTY_BUY_DEFLATE_FCOINS
  | code (n : Nat)
  deriving DecidableEq, Repr

/-- The five buckets of one token held by one account. `CAccountToken()` is all zero. -/
structure CAccountToken where
  free_amount : Nat := 0
  staked_amount : Nat := 0
  frozen_amount : Nat := 0
  voted_amount : Nat := 0
  pledged_amount : Nat := 0
  deriving DecidableEq, Repr

/-- The operation codes switched on by `OperateBalance`; `NULL_OP` stands for every
code that reaches the `default:` branch. -/
inductive BalanceOpType where
  | NULL_OP | ADD_FREE | SUB_FREE | STAKE | UNSTAKE | FREEZE | UNFREEZE
  | VOTE | UNVOTE | PLEDGE | UNPLEDGE | DEX_DEAL
  deriving DecidableEq, Repr

/-- The identity variant `CUserID`: `CNullID()`, a key id, a registration id or a public key. -/
inductive CUserID where
  | null
  | keyid (k : Nat)
  | regid (r : Nat)
  | pubkey (p : Nat)
  deriving DecidableEq, Repr

/-- A `CReceipt`: constructed from `(receiptType, opType)`, completed by `SetInfo`. -/
structure CReceipt where
  code : ReceiptType
  op_type : BalanceOpType
  from_uid : CUserID
  to_uid : CUserID
  coin_symbol : TokenSymbol
  coin_amount : Nat
  deriving DecidableEq, Repr

abbrev ReceiptList := List CReceipt

/-- The part of `CAccount` read or written by the ledger and vote code. `tokens` is the
`std::map<TokenSymbol, CAccountToken>`: `none` where the map has no entry. -/
structure CAccount where
  keyid : Nat
  regid : Nat := 0
  owner_pubkey : Nat := 0
  tokens : TokenSymbol → Option CAccountToken := fun _ => none
  received_votes : Nat := 0
  last_vote_height : Nat := 0
  last_vote_epoch : Nat := 0

/-- `CAccount::GetToken`: the entry, or a fresh `CAccountToken()` when there is none. -/
def CAccount.GetToken (a : CAccount) (tokenSymbol : TokenSymbol) : CAccountToken :=
  match a.tokens tokenSymbol with
  | some t => t
  | none => {}

/-- `CAccount::SetToken`: `tokens[tokenSymbol] = accountToken`. -/
def CAccount.SetToken (a : CAccount) (tokenSymbol : TokenSymbol) (accountToken : CAccountToken) :
    CAccount :=
  { a with tokens := fun s => if s = tokenSymbol then some accountToken else a.tokens s }

/-- The effect of evaluating `tokens[tokenSymbol]` on the map: a default entry is inserted
when there is none. -/
def CAccount.touch (a : CAccount) (tokenSymbol : TokenSymbol) : CAccount :=
  a.SetToken tokenSymbol (a.GetToken tokenSymbol)

/-- The `CAccount *pOtherAccount` argument: `nullptr`, the very object the method is called
on (`this == pOtherAccount`), or a distinct account object. -/
inductive PeerRef where
  | null
  | self
  | other (acc : CAccount)

/-- The peer's token as read through `pOtherAccount->GetToken`, given the current state
of `this`. -/
def PeerRef.GetToken (p : PeerRef) (this : CAccount) (tokenSymbol : TokenSymbol) : CAccountToken :=
  match p with
  | .null => {}
  | .self => this.GetToken tokenSymbol
  | .other acc => acc.GetToken tokenSymbol

/-- The key id read through `pOtherAccount->keyid`. -/
def PeerRef.keyid (p : PeerRef) (this : CAccount) : Nat :=
  match p with
  | .null => 0
  | .self => this.keyid
  | .other acc => acc.keyid

/-- Outcome of one `OperateBalance` call: the returned flag and the state of everything
the call can write (`this`, the receipts list, the peer object). -/
structure OpResult where
  ok : Bool
  this : CAccount
  receipts : ReceiptList
  peer : PeerRef

/-- `pOtherAccount->SetToken(tokenSymbol, peerToken)` followed by the common tail of
`OperateBalance` (`receipt.SetInfo`, `receipts.push_back`, `return true`). -/
def finishWithPeer (this : CAccount) (p : PeerRef) (tokenSymbol : TokenSymbol)
    (peerToken : CAccountToken) (receipt : CReceipt) (receipts : ReceiptList) : OpResult :=
  match p with
  | .null => ⟨true, this, receipts ++ [receipt], .null⟩
  | .self => ⟨true, this.SetToken tokenSymbol peerToken, receipts ++ [receipt], .self⟩
  | .other acc => ⟨true, this, receipts ++ [receipt], .other (acc.SetToken tokenSymbol peerToken)⟩

/-- `CAccount::OperateBalance` (account.cpp:33-179). `accountToken` is a reference into
`this->tokens`, so each assignment to it is written back to `this` at once. -/
def OperateBalance (this : CAccount) (tokenSymbol : TokenSymbol) (opType : BalanceOpType)
    (value : Nat) (receiptType : ReceiptType) (receipts : ReceiptList) (pOtherAccount : PeerRef) :
    OpResult :=
  let this0 := this.touch tokenSymbol
  let accountToken := this0.GetToken tokenSymbol
  let fromUid := CUserID.keyid this.keyid
  let mk (f t : CUserID) : CReceipt := ⟨receiptType, opType, f, t, tokenSymbol, value⟩
  let done (a : CAccount) (f t : CUserID) : OpResult :=
    ⟨true, a, receipts ++ [mk f t], pOtherAccount⟩
  let fail (a : CAccount) : OpResult := ⟨false, a, receipts, pOtherAccount⟩
  let sameKeyDistinct : Bool :=
    match pOtherAccount with
    | .other acc => this.keyid == acc.keyid
    | _ => false
  if sameKeyDistinct then fail this0
  else
    match opType with
    | .ADD_FREE =>
      let this1 := this0.SetToken tokenSymbol
        { accountToken with free_amount := add64 accountToken.free_amount value }
      match pOtherAccount with
      | .null => done this1 CUserID.null fromUid
      | p =>
        let peerToken := p.GetToken this1 tokenSymbol
        if peerToken.free_amount < value then fail this1
        else
          finishWithPeer this1 p tokenSymbol
            { peerToken with free_amount := sub64 peerToken.free_amount value }
            (mk fromUid (CUserID.keyid (p.keyid this1))) receipts
    | .SUB_FREE =>
      if accountToken.free_amount < value then fail this0
      else
        let this1 := this0.SetToken tokenSymbol
          { accountToken with free_amount := sub64 accountToken.free_amount value }
        match pOtherAccount with
        | .null => done this1 fromUid CUserID.null
        | p =>
          let peerToken := p.GetToken this1 tokenSymbol
          finishWithPeer this1 p tokenSymbol
            { peerToken with free_amount := add64 peerToken.free_amount value }
            (mk fromUid (CUserID.keyid (p.keyid this1))) receipts
    | .STAKE =>
      if accountToken.free_amount < value then fail this0
      else
        done (this0.SetToken tokenSymbol
          { accountToken with
            free_amount := sub64 accountToken.free_amount value
            staked_amount := add64 accountToken.staked_amount value }) fromUid CUserID.null
    | .UNSTAKE =>
      if accountToken.staked_amount < value then fail this0
      else
        done (this0.SetToken tokenSymbol
          { accountToken with
            free_amount := add64 accountToken.free_amount value
            staked_amount := sub64 accountToken.staked_amount value }) fromUid CUserID.null
    | .FREEZE =>
      if accountToken.free_amount < value then fail this0
      else
        done (this0.SetToken tokenSymbol
          { accountToken with
            free_amount := sub64 accountToken.free_amount value
            frozen_amount := add64 accountToken.frozen_amount value }) fromUid CUserID.null
    | .UNFREEZE =>
      if accountToken.frozen_amount < value then fail this0
      else
        done (this0.SetToken tokenSymbol
          { accountToken with
            free_amount := add64 accountToken.free_amount value
            frozen_amount := sub64 accountToken.frozen_amount value }) fromUid CUserID.null
    | .VOTE =>
      if accountToken.free_amount < value then fail this0
      else
        done (this0.SetToken tokenSymbol
          { accountToken with
            free_amount := sub64 accountToken.free_amount value
            voted_amount := add64 accountToken.voted_amount value }) fromUid CUserID.null
    | .UNVOTE =>
      if accountToken.voted_amount < value then fail this0
      else
        done (this0.SetToken tokenSymbol
          { accountToken with
            free_amount := add64 accountToken.free_amount value
            voted_amount := sub64 accountToken.voted_amount value }) fromUid CUserID.null
    | .PLEDGE =>
      if accountToken.free_amount < value then fail this0
      else
        done (this0.SetToken tokenSymbol
          { accountToken with
            free_amount := sub64 accountToken.free_amount value
            pledged_amount := add64 accountToken.pledged_amount value }) fromUid CUserID.null
    | .UNPLEDGE =>
      if accountToken.pledged_amount < value then fail this0
      else
        done (this0.SetToken tokenSymbol
          { accountToken with
            free_amount := add64 accountToken.free_amount value
            pledged_amount := sub64 accountToken.pledged_amount value }) fromUid CUserID.null
    | .DEX_DEAL =>
      match pOtherAccount with
      | .null => fail this0
      | p =>
        if accountToken.frozen_amount < value then fail this0
        else
          let this1 := this0.SetToken tokenSymbol
            { accountToken with frozen_amount := sub64 accountToken.frozen_amount value }
          let peerToken := p.GetToken this1 tokenSymbol
          finishWithPeer this1 p tokenSymbol
            { peerToken with free_amount := add64 peerToken.free_amount value }
            (mk fromUid (CUserID.keyid (p.keyid this1))) receipts
    | .NULL_OP => fail this0

/-! ## Reading balances -/

/-- The bucket selector `BalanceType` switched on by `GetBalance` and `CheckBalance`. -/
inductive BalanceType where
  | NULL_TYPE | FREE_VALUE | STAKED_VALUE | FROZEN_VALUE | VOTED_VALUE | PLEDGED_VALUE
  deriving DecidableEq, Repr

/-- The bucket of a token named by a `BalanceType` (`none` for a selector that names no
bucket), as in the `switch` of `GetBalance`. -/
def CAccountToken.bucket (t : CAccountToken) : BalanceType → Option Nat
  | .FREE_VALUE => some t.free_amount
  | .STAKED_VALUE => some t.staked_amount
  | .FROZEN_VALUE => some t.frozen_amount
  | .VOTED_VALUE => some t.voted_amount
  | .PLEDGED_VALUE => some t.pledged_amount
  | .NULL_TYPE => none

/-- `CAccount::GetBalance` (account.cpp:14-31): `none` is `return false`, `some v` is
`value = v; return true`. -/
def CAccount.GetBalance (a : CAccount) (tokenSymbol : TokenSymbol) (balanceType : BalanceType) :
    Option Nat :=
  match a.tokens tokenSymbol with
  | none => none
  | some accountToken => accountToken.bucket balanceType

/-- The single-account moves as the specification words them: `STAKE` is free→staked,
`UNSTAKE` is staked→free, and so on; `(source, destination)`. -/
def specMove : BalanceOpType → Option (BalanceType × BalanceType)
  | .STAKE => some (.FREE_VALUE, .STAKED_VALUE)
  | .UNSTAKE => some (.STAKED_VALUE, .FREE_VALUE)
  | .FREEZE => some (.FREE_VALUE, .FROZEN_VALUE)
  | .UNFREEZE => some (.FROZEN_VALUE, .FREE_VALUE)
  | .VOTE => some (.FREE_VALUE, .VOTED_VALUE)
  | .UNVOTE => some (.VOTED_VALUE, .FREE_VALUE)
  | .PLEDGE => some (.FREE_VALUE, .PLEDGED_VALUE)
  | .UNPLEDGE => some (.PLEDGED_VALUE, .FREE_VALUE)
  | _ => none

/-! ## Well-formedness: every bucket is a `uint64_t` -/

/-- All five buckets fit in 64 bits. -/
def CAccountToken.WF (t : CAccountToken) : Prop :=
  t.free_amount < U64 ∧ t.staked_amount < U64 ∧ t.frozen_amount < U64 ∧
    t.voted_amount < U64 ∧ t.pledged_amount < U64

/-- Every token of the account fits in 64 bits. -/
def CAccount.WF (a : CAccount) : Prop := ∀ s, (a.GetToken s).WF

/-- The peer object, when there is a distinct one, is well formed. -/
def PeerRef.WF (p : PeerRef) : Prop :=
  match p with
  | .other acc => acc.WF
  | _ => True

/-! ## Guarded bucket changes -/

/-- One bucket changed from `old` to `new` in a call with amount `value`: it was left
alone, or `value` was added (64-bit addition), or `value` was subtracted after the
check `value ≤ old` (so the difference is exact, without wraparound). -/
def GuardedDelta (value old new : Nat) : Prop :=
  new = old ∨ new = add64 old value ∨ (value ≤ old ∧ new + value = old)

/-- Every bucket of a token changed by a guarded step. -/
def TokenGuarded (value : Nat) (t t' : CAccountToken) : Prop :=
  GuardedDelta value t.free_amount t'.free_amount ∧
  GuardedDelta value t.staked_amount t'.staked_amount ∧
  GuardedDelta value t.frozen_amount t'.frozen_amount ∧
  GuardedDelta value t.voted_amount t'.voted_amount ∧
  GuardedDelta value t.pledged_amount t'.pledged_amount

/-! ## Sequences of calls -/

/-- A store of account objects on which sequences of `OperateBalance` calls are run;
`accounts i` is the `i`-th account object. -/
structure Ledger where
  accounts : Nat → CAccount
  receipts : ReceiptList := []

/-- One `OperateBalance` call: the object it is called on, the optional peer object
(the same index means `this == pOtherAccount`) and the remaining arguments. -/
structure Call where
  account : Nat
  peer : Option Nat
  tokenSymbol : TokenSymbol
  opType : BalanceOpType
  value : Nat
  receiptType : ReceiptType := .code 0

/-- The `pOtherAccount` pointer of a call. -/
def Ledger.peerRef (w : Ledger) (c : Call) : PeerRef :=
  match c.peer with
  | none => .null
  | some j => if j = c.account then .self else .other (w.accounts j)

/-- Performs one call on the store; whatever the call wrote is kept, whether it
returned `true` or `false`. -/
def Ledger.apply (w : Ledger) (c : Call) : Ledger :=
  let r := OperateBalance (w.accounts c.account) c.tokenSymbol c.opType c.value c.receiptType
    w.receipts (w.peerRef c)
  { accounts := fun i =>
      if i = c.account then r.this
      else
        match r.peer with
        | .other acc => if c.peer = some i then acc else w.accounts i
        | _ => w.accounts i
    receipts := r.receipts }

/-- Performs a sequence of calls, first to last. -/
def Ledger.run (w : Ledger) (cs : List Call) : Ledger := cs.foldl Ledger.apply w

/-- Every account object of the store holds 64-bit buckets. -/
def Ledger.WF (w : Ledger) : Prop := ∀ i, (w.accounts i).WF

/-- Between two stores, every bucket of every account changed by a guarded step. -/
def StepGuarded (value : Nat) (w w' : Ledger) : Prop :=
  ∀ i s, TokenGuarded value ((w.accounts i).GetToken s) ((w'.accounts i).GetToken s)

/-- Every call of the sequence, run from `w`, changes every bucket by a guarded step. -/
def RunGuarded (w : Ledger) : List Call → Prop
  | [] => True
  | c :: cs => StepGuarded c.value w (w.apply c) ∧ RunGuarded (w.apply c) cs

/-! ## Delegate votes (`CAccount::ProcessCandidateVotes`, account.cpp:383-530) -/

/-- `SYMB::WICC`, the base coin symbol. -/
def SYMB.WICC : TokenSymbol := "WICC"

/-- `SYMB::WGRT`, the governance (fund) coin symbol. -/
def SYMB.WGRT : TokenSymbol := "WGRT"

/-- The feature-fork versions, in their order. -/
inductive FeatureForkVersionEnum where
  | MAJOR_VER_R1 | MAJOR_VER_R2 | MAJOR_VER_R3
  deriving DecidableEq, Repr

/-- Position of a version in the enumeration, for the `>=` and `<` comparisons of the code. -/
def FeatureForkVersionEnum.rank : FeatureForkVersionEnum → Nat
  | .MAJOR_VER_R1 => 1
  | .MAJOR_VER_R2 => 2
  | .MAJOR_VER_R3 => 3

/-- The vote operation of a `CCandidateVote`; `NULL_VOTE` stands for every code that is
neither `ADD_BCOIN` nor `MINUS_BCOIN`. -/
inductive VoteType where
  | NULL_VOTE | ADD_BCOIN | MINUS_BCOIN
  deriving DecidableEq, Repr

/-- One vote of a delegate-vote transaction. -/
structure CCandidateVote where
  vote_type : VoteType
  candidate_uid : CUserID
  voted_bcoins : Nat
  deriving DecidableEq, Repr

/-- One entry of an account's candidate-vote list. -/
structure CCandidateReceivedVote where
  candidate_uid : CUserID
  voted_bcoins : Nat
  deriving DecidableEq, Repr

/-- What the vote code reads from outside the account: configuration, the chain's fork
schedule, the account cache, and the values of the floating-point interest formulas. -/
structure VoteEnv where
  /-- `GetFeatureForkVersion(height)`. -/
  GetFeatureForkVersion : Nat → FeatureForkVersionEnum
  /-- `IniCfg().GetMaxVoteCandidateNum()`. -/
  GetMaxVoteCandidateNum : Nat
  /-- `CheckBaseCoinRange(amount)`, the maximum-supply bound. -/
  CheckBaseCoinRange : Nat → Bool
  /-- `accountCache.GetAccount(uid, account)`; `none` when the lookup fails. -/
  GetAccount : CUserID → Option CAccount
  /-- `SysCfg().NetworkID() == MAIN_NET`. -/
  isMainNet : Bool
  FCOIN_VOTEMINE_EPOCH_FROM : Nat
  FCOIN_VOTEMINE_EPOCH_TO : Nat
  /-- The value accumulated by the `long double` loop of `ComputeVoteBcoinInterest`
  for `(last_vote_height, lastVotedBcoins, currHeight)`. -/
  bcoinInterestFormula : Nat → Nat → Nat → Nat
  /-- The value of `lastVotedBcoins * (duration / 31536000.0)` converted to `uint64_t`. -/
  fcoinInterestFormula : Nat → Nat → Nat

/-- `std::find_if`: the position of the first element satisfying `p`. -/
def find_if {α : Type} (p : α → Bool) : List α → Option Nat
  | [] => none
  | x :: xs => if p x then some 0 else (find_if p xs).map (· + 1)

/-- `CUserID::is_same_type`: both identities are of the same variant. -/
def CUserID.is_same_type : CUserID → CUserID → Bool
  | .null, .null => true
  | .keyid _, .keyid _ => true
  | .regid _, .regid _ => true
  | .pubkey _, .pubkey _ => true
  | _, _ => false

/-- `uid.is<CRegID>()`. -/
def CUserID.isRegID : CUserID → Bool
  | .regid _ => true
  | _ => false

/-- The account left in `account` by `GetAccount(uid, account)`: the one found, or the
default-constructed `CAccount` when the lookup fails. -/
def VoteEnv.loadAccount (env : VoteEnv) (uid : CUserID) : CAccount :=
  match env.GetAccount uid with
  | some a => a
  | none => { keyid := 0 }

/-- The predicate passed to `find_if` (account.cpp:399-413): literal equality for
identities of the same variant, otherwise equality through the owner public key of the
account the registration id resolves to. -/
def candidateMatches (env : VoteEnv) (voteId : CUserID) (vote : CCandidateReceivedVote) : Bool :=
  if !(voteId.is_same_type vote.candidate_uid) then
    if voteId.isRegID then
      vote.candidate_uid == CUserID.pubkey (env.loadAccount voteId).owner_pubkey
    else
      CUserID.pubkey (env.loadAccount vote.candidate_uid).owner_pubkey == voteId
  else
    vote.candidate_uid == voteId

/-- `CAccount::IsBcoinWithinRange`. -/
def IsBcoinWithinRange (env : VoteEnv) (nAddMoney : Nat) : Bool :=
  env.CheckBaseCoinRange nAddMoney

/-- One iteration of the loop over `candidateVotesIn` (account.cpp:395-460): the flag is
`false` where the code returns an error, and the list is `candidateVotesInOut` as it
stands at that point. -/
def applyCandidateVote (env : VoteEnv) (candidateVotesInOut : List CCandidateReceivedVote)
    (vote : CCandidateVote) : Bool × List CCandidateReceivedVote :=
  let itVote := find_if (candidateMatches env vote.candidate_uid) candidateVotesInOut
  match vote.vote_type with
  | .ADD_BCOIN =>
    match itVote with
    | some i =>
      let currVotes := (candidateVotesInOut.getD i ⟨.null, 0⟩).voted_bcoins
      if !IsBcoinWithinRange env vote.voted_bcoins then (false, candidateVotesInOut)
      else
        let updated := candidateVotesInOut.modify
          (fun e => { e with voted_bcoins := add64 currVotes vote.voted_bcoins }) i
        if !IsBcoinWithinRange env (add64 currVotes vote.voted_bcoins) then (false, updated)
        else (true, updated)
    | none =>
      if candidateVotesInOut.length = env.GetMaxVoteCandidateNum then (false, candidateVotesInOut)
      else (true, candidateVotesInOut ++ [⟨vote.candidate_uid, vote.voted_bcoins⟩])
  | .MINUS_BCOIN =>
    match itVote with
    | some i =>
      let currVotes := (candidateVotesInOut.getD i ⟨.null, 0⟩).voted_bcoins
      if !IsBcoinWithinRange env vote.voted_bcoins then (false, candidateVotesInOut)
      else if currVotes < vote.voted_bcoins then (false, candidateVotesInOut)
      else
        let updated := candidateVotesInOut.modify
          (fun e => { e with voted_bcoins := sub64 currVotes vote.voted_bcoins }) i
        if sub64 currVotes vote.voted_bcoins = 0 then (true, updated.eraseIdx i)
        else (true, updated)
    | none => (false, candidateVotesInOut)
  | .NULL_VOTE => (false, candidateVotesInOut)

/-- The whole loop over `candidateVotesIn`, stopping at the first error. -/
def applyCandidateVotes (env : VoteEnv) (candidateVotesInOut : List CCandidateReceivedVote) :
    List CCandidateVote → Bool × List CCandidateReceivedVote
  | [] => (true, candidateVotesInOut)
  | vote :: rest =>
    match applyCandidateVote env candidateVotesInOut vote with
    | (true, next) => applyCandidateVotes env next rest
    | (false, next) => (false, next)

/-- The comparison given to `std::sort`, as a non-strict order: more votes first. -/
def votesDescending (vote1 vote2 : CCandidateReceivedVote) : Prop :=
  vote1.voted_bcoins ≥ vote2.voted_bcoins

instance : DecidableRel votesDescending := fun a b =>
  inferInstanceAs (Decidable (a.voted_bcoins ≥ b.voted_bcoins))

/-- `std::sort` of the candidate list, descending by votes (account.cpp:463-466). The
relative order of entries with equal votes, which `std::sort` leaves open, is the order of
insertion here. -/
def sortCandidateVotes (votes : List CCandidateReceivedVote) : List CCandidateReceivedVote :=
  votes.insertionSort votesDescending

/-- The `newTotalVotes` computed at account.cpp:468-477: the 64-bit running sum of all
entries from R2 on, the first entry of the sorted list at R1, 0 for an empty list. -/
def newTotalVotes (featureForkVersion : FeatureForkVersionEnum)
    (candidateVotes : List CCandidateReceivedVote) : Nat :=
  match candidateVotes with
  | [] => 0
  | first :: _ =>
    if featureForkVersion.rank ≥ FeatureForkVersionEnum.MAJOR_VER_R2.rank then
      candidateVotes.foldl (fun acc vote => add64 acc vote.voted_bcoins) 0
    else first.voted_bcoins

/-- `CAccount::ComputeVoteBcoinInterest` (account.cpp:181-218): 0 for the first vote,
otherwise the value of the `long double` formula. -/
def CAccount.ComputeVoteBcoinInterest (env : VoteEnv) (a : CAccount) (lastVotedBcoins : Nat)
    (currHeight : Nat) : Nat :=
  if lastVotedBcoins = 0 then 0
  else env.bcoinInterestFormula a.last_vote_height lastVotedBcoins currHeight

/-- `CAccount::ComputeVoteFcoinInterest` (account.cpp:220-254). The two epochs are held in
`uint32_t` locals (lines 224-225), so `last_vote_epoch` is read modulo `2^32`, and so are
the window's ends where they are assigned to the locals (lines 236, 239); the comparisons
with the window's ends are on the values as they are. `none` is a failed
`assert(epoch_curr_vote > epoch_last_vote)` (line 242). -/
def CAccount.ComputeVoteFcoinInterest (env : VoteEnv) (a : CAccount) (lastVotedBcoins : Nat)
    (currBlockTime : Nat) : Option Nat :=
  if lastVotedBcoins = 0 then some 0
  else
    let epoch_last_vote := a.last_vote_epoch % 2 ^ 32
    let epoch_curr_vote := currBlockTime % 2 ^ 32
    if epoch_last_vote ≥ epoch_curr_vote then some 0
    else if env.isMainNet then
      if epoch_curr_vote ≤ env.FCOIN_VOTEMINE_EPOCH_FROM ∨
          epoch_last_vote ≥ env.FCOIN_VOTEMINE_EPOCH_TO then some 0
      else
        let epoch_last_vote :=
          if epoch_last_vote < env.FCOIN_VOTEMINE_EPOCH_FROM then
            env.FCOIN_VOTEMINE_EPOCH_FROM % 2 ^ 32
          else epoch_last_vote
        let epoch_curr_vote :=
          if epoch_curr_vote > env.FCOIN_VOTEMINE_EPOCH_TO then
            env.FCOIN_VOTEMINE_EPOCH_TO % 2 ^ 32
          else epoch_curr_vote
        if epoch_curr_vote > epoch_last_vote then
          some (env.fcoinInterestFormula lastVotedBcoins (epoch_curr_vote - epoch_last_vote))
        else none
    else some (env.fcoinInterestFormula lastVotedBcoins (epoch_curr_vote - epoch_last_vote))

/-- Outcome of `ProcessCandidateVotes`: the returned flag, the account, the in-out
candidate list and the receipts. -/
structure VoteResult where
  ok : Bool
  this : CAccount
  candidateVotes : List CCandidateReceivedVote
  receipts : ReceiptList

/-- The tail of `ProcessCandidateVotes` after the balance update (account.cpp:496-529):
interest is credited, then the vote height and epoch are moved. -/
def collectVoteInterest (env : VoteEnv) (this : CAccount)
    (candidateVotes : List CCandidateReceivedVote) (lastTotalVotes currHeight currBlockTime : Nat)
    (receipts : ReceiptList) : Option VoteResult :=
  let finish (a : CAccount) (rs : ReceiptList) : Option VoteResult :=
    some ⟨true, { a with last_vote_height := currHeight, last_vote_epoch := currBlockTime },
      candidateVotes, rs⟩
  if (env.GetFeatureForkVersion currHeight).rank ≥ FeatureForkVersionEnum.MAJOR_VER_R2.rank then
    match this.ComputeVoteFcoinInterest env lastTotalVotes currBlockTime with
    | none => none
    | some fcoinAmountToInflate =>
      if fcoinAmountToInflate > 0 then
        let r := OperateBalance this SYMB.WGRT .ADD_FREE fcoinAmountToInflate
          .DELEGATE_VOTE_INTEREST receipts .null
        if !r.ok then some ⟨false, r.this, candidateVotes, r.receipts⟩
        else finish r.this r.receipts
      else finish this receipts
  else
    let bcoinAmountToInflate := this.ComputeVoteBcoinInterest env lastTotalVotes currHeight
    if !IsBcoinWithinRange env bcoinAmountToInflate then
      some ⟨false, this, candidateVotes, receipts⟩
    else
      let r := OperateBalance this SYMB.WICC .ADD_FREE bcoinAmountToInflate
        .DELEGATE_VOTE_INTEREST receipts .null
      if !r.ok then some ⟨false, r.this, candidateVotes, r.receipts⟩
      else finish r.this r.receipts

/-- `CAccount::ProcessCandidateVotes` (account.cpp:383-530); `none` is an aborted run
(failed assertion), `some r` a return with flag `r.ok`. -/
def ProcessCandidateVotes (env : VoteEnv) (this : CAccount)
    (candidateVotesIn : List CCandidateVote) (candidateVotesInOut : List CCandidateReceivedVote)
    (currHeight currBlockTime : Nat) (receipts : ReceiptList) : Option VoteResult :=
  if currHeight < this.last_vote_height then
    some ⟨false, this, candidateVotesInOut, receipts⟩
  else
    let featureForkVersion := env.GetFeatureForkVersion currHeight
    let lastTotalVotes := (this.GetToken SYMB.WICC).voted_amount
    match applyCandidateVotes env candidateVotesInOut candidateVotesIn with
    | (false, votes) => some ⟨false, this, votes, receipts⟩
    | (true, votes) =>
      let sorted := sortCandidateVotes votes
      let newTotal := newTotalVotes featureForkVersion sorted
      if newTotal > lastTotalVotes then
        let r := OperateBalance this SYMB.WICC .VOTE (newTotal - lastTotalVotes)
          .DELEGATE_ADD_VOTE receipts .null
        if !r.ok then some ⟨false, r.this, sorted, r.receipts⟩
        else collectVoteInterest env r.this sorted lastTotalVotes currHeight currBlockTime r.receipts
      else if newTotal < lastTotalVotes then
        let r := OperateBalance this SYMB.WICC .UNVOTE (lastTotalVotes - newTotal)
          .DELEGATE_SUB_VOTE receipts .null
        if !r.ok then some ⟨false, r.this, sorted, r.receipts⟩
        else collectVoteInterest env r.this sorted lastTotalVotes currHeight currBlockTime r.receipts
      else collectVoteInterest env this sorted lastTotalVotes currHeight currBlockTime receipts

/-! ## `double` arithmetic

The CDP formulas of `cdptx.cpp` are evaluated in IEEE-754 binary64. A nonnegative finite
`double` is kept as the exact fraction `num / 2 ^ scale`; every operation computes the exact
result and rounds it to the nearest value with a 53-bit mantissa, ties to even. Exponent
range limits (subnormals, overflow to infinity) are not modelled: the quantities formed from
64-bit integers here stay far inside the normal range. A division by zero, whose result is
an infinity or a NaN, and a conversion to `uint64_t` of a value that does not fit, which is
undefined in C++, are `none`. -/

/-- A nonnegative finite `double`: the value `num / 2 ^ scale`. -/
structure Double where
  num : Nat
  scale : Nat
  deriving DecidableEq, Repr

/-- Floor of the base-2 logarithm (0 for 0), by halving at most `fuel` times. -/
def ilog2Aux : Nat → Nat → Nat
  | 0, _ => 0
  | fuel + 1, n => if n < 2 then 0 else ilog2Aux fuel (n / 2) + 1

/-- Floor of the base-2 logarithm of `n` (0 for 0). -/
def ilog2 (n : Nat) : Nat := ilog2Aux n n

/-- Round-half-to-even of `n / d` to an integer. -/
def roundHalfEven (n d : Nat) : Nat :=
  if 2 * (n % d) < d then n / d
  else if d < 2 * (n % d) then n / d + 1
  else if (n / d) % 2 = 0 then n / d else n / d + 1

/-- With `e = floor (log2 (a / b))`, the number `52 - e + ilog2 a`: the mantissa of `a / b`
is `a / b * 2 ^ (shiftBase a b - ilog2 a)`, between `2 ^ 52` and `2 ^ 53`. -/
def shiftBase (a b : Nat) : Nat :=
  52 + ilog2 b + (if b * 2 ^ ilog2 a ≤ a * 2 ^ ilog2 b then 0 else 1)

/-- The `double` nearest to `a / b`, ties to even (`b ≠ 0`). -/
def roundToDouble (a b : Nat) : Double :=
  if a = 0 then ⟨0, 0⟩
  else if ilog2 a ≤ shiftBase a b then
    ⟨roundHalfEven (a * 2 ^ (shiftBase a b - ilog2 a)) b, shiftBase a b - ilog2 a⟩
  else
    ⟨roundHalfEven a (b * 2 ^ (ilog2 a - shiftBase a b)) * 2 ^ (ilog2 a - shiftBase a b), 0⟩

/-- Conversion of an unsigned integer to `double`. -/
def Double.ofNat (n : Nat) : Double := roundToDouble n 1

/-- `x * y` in `double`. -/
def Double.mul (x y : Double) : Double :=
  roundToDouble (x.num * y.num) (2 ^ (x.scale + y.scale))

/-- `x + y` in `double`. -/
def Double.add (x y : Double) : Double :=
  roundToDouble (x.num * 2 ^ y.scale + y.num * 2 ^ x.scale) (2 ^ (x.scale + y.scale))

/-- `x / y` in `double`; `none` for a zero divisor. -/
def Double.div (x y : Double) : Option Double :=
  if y.num = 0 then none
  else some (roundToDouble (x.num * 2 ^ y.scale) (y.num * 2 ^ x.scale))

/-- Conversion `uint64_t(x)`: truncation; `none` when the value does not fit. -/
def Double.toUInt64 (x : Double) : Option Nat :=
  if x.num / 2 ^ x.scale < U64 then some (x.num / 2 ^ x.scale) else none

/-- `ceil(x)`, as an integer. -/
def Double.ceil (x : Double) : Nat := (x.num + 2 ^ x.scale - 1) / 2 ^ x.scale

/-- The rational value of a `Double`. -/
def Double.val (x : Double) : ℚ := (x.num : ℚ) / 2 ^ x.scale

/-- The binary exponent of `a / b`: `floor (log2 (a / b))`. -/
def binExp (a b : Nat) : ℤ :=
  (ilog2 a : ℤ) - ilog2 b - (if b * 2 ^ ilog2 a ≤ a * 2 ^ ilog2 b then 0 else 1)

/-- Numerator of the scaled fraction that `roundToDouble` rounds to an integer. -/
def scaledNum (a b : Nat) : Nat :=
  if ilog2 a ≤ shiftBase a b then a * 2 ^ (shiftBase a b - ilog2 a) else a

/-- Denominator of the scaled fraction that `roundToDouble` rounds to an integer. -/
def scaledDen (a b : Nat) : Nat :=
  if ilog2 a ≤ shiftBase a b then b else b * 2 ^ (ilog2 a - shiftBase a b)

/-! ## CDP arithmetic (`tx/cdptx.cpp`) -/

/-- Constants and external functions read by the CDP formulas, none of them defined in the
files at hand: the boost factors of `config/const.h`, the chain's blocks-per-day schedule
and the C library's `log10`. -/
structure CdpEnv where
  PRICE_BOOST : Nat
  RATIO_BOOST : Nat
  COIN : Nat
  /-- `SysCfg().GetOneDayBlocks(height)`. -/
  GetOneDayBlocks : Nat → Nat
  /-- `log10` on `double`. -/
  log10 : Double → Double

/-- `CalcCollateralRatio` (cdptx.cpp:113-117):
`uint64_t(double(assetAmount) * price / PRICE_BOOST / scoinAmount * RATIO_BOOST)`, and
`UINT64_MAX` for a zero debt. -/
def CalcCollateralRatio (env : CdpEnv) (assetAmount scoinAmount price : Nat) : Option Nat :=
  if scoinAmount = 0 then some (U64 - 1)
  else
    match ((Double.ofNat assetAmount).mul (Double.ofNat price)).div
        (Double.ofNat env.PRICE_BOOST) with
    | none => none
    | some x =>
      match x.div (Double.ofNat scoinAmount) with
      | none => none
      | some y => (y.mul (Double.ofNat env.RATIO_BOOST)).toUInt64

/-- Conversion of an integer to `int32_t` (wraps modulo `2 ^ 32`). -/
def toInt32 (n : Int) : Int := (n + 2 ^ 31) % 2 ^ 32 - 2 ^ 31

/-- The `loanedDays` of `ComputeCDPInterest` (cdptx.cpp:127-128):
`max<int32_t>(1, ceil((double)blockInterval / GetOneDayBlocks(endHeight)))` with
`blockInterval = endHeight - beginHeight` as an `int32_t`. A nonpositive interval has a
nonpositive quotient and gives 1. -/
def loanedDays (env : CdpEnv) (beginHeight : Int) (endHeight : Nat) : Option Nat :=
  let blockInterval := toInt32 ((endHeight : Int) - beginHeight)
  if env.GetOneDayBlocks endHeight = 0 then none
  else if blockInterval ≤ 0 then some 1
  else
    match (Double.ofNat blockInterval.toNat).div (Double.ofNat (env.GetOneDayBlocks endHeight)) with
    | none => none
    | some q => some (max 1 q.ceil)

/-- The interest charged for `days` loaned days (cdptx.cpp:130-132):
`annualInterestRate = 0.1 * A / log10(1.0 + B * N / (double)COIN)` and
`interest = (uint64_t)(((double)N / 365) * loanedDays * annualInterestRate)`. -/
def interestForDays (env : CdpEnv) (N A B days : Nat) : Option Nat :=
  match (Double.ofNat ((B * N) % U64)).div (Double.ofNat env.COIN) with
  | none => none
  | some ratio =>
    match ((roundToDouble 1 10).mul (Double.ofNat A)).div
        (env.log10 ((Double.ofNat 1).add ratio)) with
    | none => none
    | some annualInterestRate =>
      match (Double.ofNat N).div (Double.ofNat 365) with
      | none => none
      | some perDay => ((perDay.mul (Double.ofNat days)).mul annualInterestRate).toUInt64

/-- `ComputeCDPInterest(total_owed_scoins, beginHeight, endHeight, A, B)`
(cdptx.cpp:124-139). -/
def ComputeCDPInterest (env : CdpEnv) (total_owed_scoins : Nat) (beginHeight : Int)
    (endHeight : Nat) (A B : Nat) : Option Nat :=
  match loanedDays env beginHeight endHeight with
  | none => none
  | some days => interestForDays env total_owed_scoins A B days

/-- Outcomes of the first-time creation checks of `CCDPStakeTx::ExecuteTx`
(cdptx.cpp:247-266), named by their reject codes; `continues` is execution going on to
`NewCDP`. -/
inductive StakeCheck where
  | invalid_amount
  | user_cdp_created
  | CDP_collateral_ratio_toosmall
  | continues
  deriving DecidableEq, Repr

/-- The checks at the head of the first-time creation branch of `CCDPStakeTx::ExecuteTx`
(cdptx.cpp:247-266); `userHaveCdp` is `cw.cdpCache.UserHaveCdp(regid, assetSymbol,
scoin_symbol)`. -/
def firstTimeCdpChecks (env : CdpEnv) (assetAmount scoins_to_mint : Nat) (userHaveCdp : Bool)
    (bcoinMedianPrice startingCdpCollateralRatio : Nat) : Option StakeCheck :=
  if assetAmount = 0 ∨ scoins_to_mint = 0 then some .invalid_amount
  else if userHaveCdp then some .user_cdp_created
  else
    match CalcCollateralRatio env assetAmount scoins_to_mint bcoinMedianPrice with
    | none => none
    | some collateralRatio =>
      if collateralRatio < startingCdpCollateralRatio then some .CDP_collateral_ratio_toosmall
      else some .continues

/-- Outcomes of the clamping and balance check of `CCDPRedeemTx::ExecuteTx`
(cdptx.cpp:462-481): the reject code, or the clamped `(assetAmount, actualScoinsToRepay)`
with which execution goes on. -/
inductive RedeemCheck where
  | account_balance_insufficient
  | continues (assetAmount actualScoinsToRepay : Nat)
  deriving DecidableEq, Repr

/-- Step 2 of `CCDPRedeemTx::ExecuteTx` up to the balance check (cdptx.cpp:462-481);
`free_amount` is `sp_tx_account->GetToken(cdp.scoin_symbol).free_amount`. -/
def redeemClampAndCheck (total_staked_bcoins total_owed_scoins assetAmount scoins_to_repay
    free_amount : Nat) : RedeemCheck :=
  let assetAmount := if assetAmount > total_staked_bcoins then total_staked_bcoins else assetAmount
  let actualScoinsToRepay :=
    if scoins_to_repay > total_owed_scoins then total_owed_scoins else scoins_to_repay
  if free_amount < scoins_to_repay then .account_balance_insufficient
  else .continues assetAmount actualScoinsToRepay

/-- The four totals computed by the tier selection of `CCDPLiquidateTx::ExecuteTx`. -/
structure LiquidateTotals where
  totalBcoinsToReturnLiquidator : Nat
  totalScoinsToLiquidate : Nat
  totalScoinsToReturnSysFund : Nat
  totalBcoinsToCdpOwner : Nat
  deriving DecidableEq, Repr

/-- Outcome of the tier selection: the reject `cdp-not-liquidate-ready`, a failed
`assert`, or the totals. -/
inductive TierOutcome where
  | cdp_not_liquidate_ready
  | assertFailed
  | totals (t : LiquidateTotals)
  deriving DecidableEq, Repr

/-- Tier selection of `CCDPLiquidateTx::ExecuteTx` (cdptx.cpp:653-692). `collateralRatio`
is `cdp.GetCollateralRatio(bcoinMedianPrice)`; `none` is a division by zero or an
out-of-range conversion in the `double` formulas. -/
def liquidateTiers (env : CdpEnv) (total_staked_bcoins total_owed_scoins bcoinMedianPrice
    collateralRatio startingCdpLiquidateRatio nonReturnCdpLiquidateRatio
    cdpLiquidateDiscountRate forcedCdpLiquidateRatio : Nat) : Option TierOutcome :=
  if collateralRatio > startingCdpLiquidateRatio then some .cdp_not_liquidate_ready
  else if collateralRatio > nonReturnCdpLiquidateRatio then
    -- owed * (double)nonReturn / RATIO_BOOST, used by both formulas of this tier
    match ((Double.ofNat total_owed_scoins).mul (Double.ofNat nonReturnCdpLiquidateRatio)).div
        (Double.ofNat env.RATIO_BOOST) with
    | none => none
    | some owedValue =>
      match (Double.ofNat bcoinMedianPrice).div (Double.ofNat env.PRICE_BOOST) with
      | none => none
      | some price =>
        match owedValue.div price with
        | none => none
        | some bcoins =>
          match bcoins.toUInt64 with
          | none => none
          | some totalBcoinsToReturnLiquidator =>
            if total_staked_bcoins < totalBcoinsToReturnLiquidator then some .assertFailed
            else
              match (owedValue.mul (Double.ofNat cdpLiquidateDiscountRate)).div
                  (Double.ofNat env.RATIO_BOOST) with
              | none => none
              | some scoins =>
                match scoins.toUInt64 with
                | none => none
                | some totalScoinsToLiquidate =>
                  some (.totals
                    { totalBcoinsToReturnLiquidator := totalBcoinsToReturnLiquidator
                      totalScoinsToLiquidate := totalScoinsToLiquidate
                      totalScoinsToReturnSysFund :=
                        sub64 totalScoinsToLiquidate total_owed_scoins
                      totalBcoinsToCdpOwner :=
                        sub64 total_staked_bcoins totalBcoinsToReturnLiquidator })
  else if collateralRatio > forcedCdpLiquidateRatio then
    match (Double.ofNat bcoinMedianPrice).div (Double.ofNat env.PRICE_BOOST) with
    | none => none
    | some price =>
      match (((Double.ofNat total_staked_bcoins).mul price).mul
          (Double.ofNat cdpLiquidateDiscountRate)).div (Double.ofNat env.RATIO_BOOST) with
      | none => none
      | some scoins =>
        match scoins.toUInt64 with
        | none => none
        | some totalScoinsToLiquidate =>
          some (.totals
            { totalBcoinsToReturnLiquidator := total_staked_bcoins
              totalScoinsToLiquidate := totalScoinsToLiquidate
              totalScoinsToReturnSysFund := sub64 totalScoinsToLiquidate total_owed_scoins
              totalBcoinsToCdpOwner := 0 })
  else
    some (.totals
      { totalBcoinsToReturnLiquidator := total_staked_bcoins
        totalScoinsToLiquidate := total_owed_scoins
        totalScoinsToReturnSysFund := 0
        totalBcoinsToCdpOwner := 0 })

/-- The branch taken at cdptx.cpp:694: the full liquidation, which ends by erasing the
CDP (`EraseCDP`, line 729), is entered exactly when
`scoins_to_liquidate >= totalScoinsToLiquidate`. -/
def isFullLiquidation (scoins_to_liquidate : Nat) (t : LiquidateTotals) : Bool :=
  decide (scoins_to_liquidate ≥ t.totalScoinsToLiquidate)

/-! ## `CAccount::CheckBalance` -/

/-- `CAccount::CheckBalance` (account.cpp:571-601). `none` is the thrown
`runtime_error("balance type error")`; otherwise the returned flag, together with the
account as the call leaves it (the method is not `const`). -/
def CAccount.CheckBalance (a : CAccount) (symbol : TokenSymbol) (balanceType : BalanceType)
    (value : Nat) : Option (Bool × CAccount) :=
  match a.tokens symbol with
  | none => some (decide (0 ≥ value), a)
  | some token =>
    match token.bucket balanceType with
    | none => none
    | some balance => some (decide (balance ≥ value), a)

/-! ## Global floor and ceiling checks of `CCDPStakeTx::ExecuteTx` (cdptx.cpp:210-243) -/

/-- `NET_TYPE`, the value of `SysCfg().NetworkID()`. -/
inductive NET_TYPE where
  | MAIN_NET | TEST_NET | REGTEST_NET
  deriving DecidableEq, Repr

/-- Outcomes of the global checks of `CCDPStakeTx::ExecuteTx`, named by their reject codes;
`continues` is execution going on to the per-CDP checks. -/
inductive StakeGlobalCheck where
  | read_cdp_param_error
  | global_collateral_floor_reached
  | global_collateral_ceiling_reached
  | read_sysparamdb_error
  | continues
  deriving DecidableEq, Repr

/-- The global checks of `CCDPStakeTx::ExecuteTx` (cdptx.cpp:210-243). The three
`Option`s are the results of `ReadCdpParam` for `CDP_GLOBAL_COLLATERAL_RATIO_MIN`,
`CDP_GLOBAL_COLLATERAL_CEILING_AMOUNT` and `CDP_START_COLLATERAL_RATIO` (`none` for a failed
read); `globalCollateralRatio` is `cdpGlobalData.GetCollateralRatio(bcoinMedianPrice)` and
`ceilingReached c` is `cdpGlobalData.CheckGlobalCollateralCeilingReached(assetAmount, c)`. -/
def stakeGlobalChecks (networkID : NET_TYPE) (globalCollateralRatioMin : Option Nat)
    (globalCollateralRatio : Nat) (globalCollateralCeiling : Option Nat)
    (ceilingReached : Nat → Bool) (startingCdpCollateralRatio : Option Nat) : StakeGlobalCheck :=
  match globalCollateralRatioMin with
  | none => .read_cdp_param_error
  | some globalCollateralRatioMin =>
    if networkID ≠ .TEST_NET ∧ globalCollateralRatio < globalCollateralRatioMin then
      .global_collateral_floor_reached
    else
      match globalCollateralCeiling with
      | none => .read_cdp_param_error
      | some globalCollateralCeiling =>
        if ceilingReached globalCollateralCeiling then .global_collateral_ceiling_reached
        else
          match startingCdpCollateralRatio with
          | none => .read_sysparamdb_error
          | some _ => .continues

/-! ## Forced liquidation (`blockpricemediantx.cpp`) -/

/-- `SYMB::WUSD`, the stable coin symbol. -/
def SYMB.WUSD : TokenSymbol := "WUSD"

/-- The fields of `CUserCDP` read by the forced liquidation. -/
structure CUserCDP where
  cdpid : Nat
  owner_regid : Nat
  bcoin_symbol : TokenSymbol
  scoin_symbol : TokenSymbol
  total_staked_bcoins : Nat
  total_owed_scoins : Nat
  deriving DecidableEq, Repr

/-- `CCdpCoinPair`: the collateral symbol and the stable coin symbol of a pair. -/
structure CCdpCoinPair where
  bcoin_symbol : TokenSymbol
  scoin_symbol : TokenSymbol
  deriving DecidableEq, Repr

/-- `CTxCord`: the block height and the index in the block of a transaction. -/
structure CTxCord where
  height : Nat
  index : Nat
  deriving DecidableEq, Repr

/-- `CCdpCoinPairDetail`, as built by `GetCdpCoinPairDetails` (blockpricemediantx.cpp:60-66). -/
structure CCdpCoinPairDetail where
  is_price_active : Bool
  coin_pair : CCdpCoinPair
  bcoin_price : Nat
  is_staked_perm : Bool := true
  init_tx_cord : CTxCord := ⟨0, 0⟩
  deriving DecidableEq, Repr

/-- What an order id is the hash of: `GenOrderId(cdp, assetSymbol)` hashes the CDP id and
the symbol, `GenOrderIdCompat(txid, index)` hashes the transaction id and the index. -/
inductive OrderId where
  | GenOrderId (cdpid : Nat) (assetSymbol : TokenSymbol)
  | GenOrderIdCompat (txid : Nat) (index : Nat)
  deriving DecidableEq, Repr

/-- The arguments of `dex::CSysOrder::CreateSellMarketOrder`. -/
structure CDEXOrderDetail where
  coin_symbol : TokenSymbol
  asset_symbol : TokenSymbol
  asset_amount : Nat
  cdpid : Nat
  deriving DecidableEq, Repr

/-- Everything the forced liquidation writes: the account objects and the receipts list,
and, as logs in call order, the arguments of the `dexCache.CreateActiveOrder` calls that
returned true, the CDPs handed to `cdpCache.EraseCDP` and the ids handed to
`closedCdpCache.AddClosedCdpIndex`. -/
structure LiqState where
  ledger : Ledger
  orders : List (OrderId × CDEXOrderDetail) := []
  erased : List CUserCDP := []
  closedCdpIndex : List Nat := []

/-- What the forced liquidation reads from outside `blockpricemediantx.cpp` and
`account.cpp`: constants, configuration, and the cache methods whose code is elsewhere.
The CDP cache is changed here only through `EraseCDP`, so its methods take the list of
CDPs erased so far. -/
structure LiqEnv where
  PRICE_BOOST : Nat
  CDP_FORCE_LIQUIDATE_MAX_COUNT : Nat
  CDP_COIN_PAIR_WICC_WUSD : CCdpCoinPair
  /-- `SysCfg().NetworkID()`. -/
  networkID : NET_TYPE
  /-- `context.height`. -/
  height : Nat
  /-- `tx.GetHash()`. -/
  txid : Nat
  /-- `SysCfg().GetArg("-persistclosedcdp", false)`. -/
  persistclosedcdp : Bool
  /-- Index of the object `fcoinAccount` among the account objects. -/
  fcoinAccount : Nat
  /-- `tx.GetAccount(..., regid)`: the index of the account object, `none` for a null
  pointer. Two register ids of one key id give the same object. -/
  GetAccount : Nat → Option Nat
  /-- `GetCdpParam(pair, CDP_GLOBAL_COLLATERAL_RATIO_MIN, ...)`, `none` for a failed read. -/
  globalCollateralRatioFloor : CCdpCoinPair → Option Nat
  /-- `GetCdpParam(pair, CDP_FORCE_LIQUIDATE_RATIO, ...)`, `none` for a failed read. -/
  forceLiquidateRatio : CCdpCoinPair → Option Nat
  /-- `GetCdpGlobalData(pair).CheckGlobalCollateralRatioFloorReached(price, floor)`. -/
  CheckGlobalCollateralRatioFloorReached : List CUserCDP → CCdpCoinPair → Nat → Nat → Bool
  /-- `cdpCache.GetCdpListByCollateralRatio(pair, ratio, price)`. -/
  GetCdpListByCollateralRatio : List CUserCDP → CCdpCoinPair → Nat → Nat → List CUserCDP
  /-- The iteration order of the `set<CUserCDP>` built from a list (`CUserCDP::operator<`). -/
  cdpSet : List CUserCDP → List CUserCDP
  /-- Whether `dexCache.CreateActiveOrder(orderId, order)` succeeds, given the orders
  created so far. -/
  CreateActiveOrder : List (OrderId × CDEXOrderDetail) → OrderId → CDEXOrderDetail → Bool

/-- How a run ended: `return true`, `return false`, or behaviour the language leaves
undefined (a failed `assert`, a `double` out of the range of `uint64_t`). -/
inductive RunStatus where
  | returned_true | returned_false | undefined
  deriving DecidableEq, Repr

/-- Subtraction on `uint32_t`. -/
def sub32 (a b : Nat) : Nat := (a + 2 ^ 32 - b % 2 ^ 32) % 2 ^ 32

/-- One `OperateBalance` call on the account objects of the state, with the returned
flag. -/
def LiqState.operate (s : LiqState) (c : Call) : Bool × LiqState :=
  ((OperateBalance (s.ledger.accounts c.account) c.tokenSymbol c.opType c.value c.receiptType
      s.ledger.receipts (s.ledger.peerRef c)).ok,
    { s with ledger := s.ledger.apply c })

/-- The free stable coins of the risk reserve: `fcoinAccount.GetToken(SYMB::WUSD).free_amount`. -/
def LiqState.riskReserveScoins (env : LiqEnv) (s : LiqState) : Nat :=
  ((s.ledger.accounts env.fcoinAccount).GetToken SYMB.WUSD).free_amount

/-- `CCdpForceLiquidator::SellAssetToRiskRevervePool` (blockpricemediantx.cpp:430-456): the
reserve freezes the asset, then the sell market order is handed to `CreateActiveOrder`; the
call is logged in `orders` when it returns true. -/
def SellAssetToRiskRevervePool (env : LiqEnv) (cdp : CUserCDP) (assetSymbol : TokenSymbol)
    (amount : Nat) (coinSymbol : TokenSymbol) (orderId : OrderId) (code : ReceiptType)
    (s : LiqState) : Bool × LiqState :=
  let r := s.operate ⟨env.fcoinAccount, none, assetSymbol, .FREEZE, amount, code⟩
  if r.1 = false then (false, r.2)
  else
    let order : CDEXOrderDetail := ⟨coinSymbol, assetSymbol, amount, cdp.cdpid⟩
    if env.CreateActiveOrder r.2.orders orderId order = false then (false, r.2)
    else (true, { r.2 with orders := r.2.orders ++ [(orderId, order)] })

/-- The expression `uint64_t(double(a) * b / c)` on `uint64_t` operands, used for
`bcoinsValueInScoin` and `fcoinsToInflate`; `none` where the conversion is undefined. -/
def mulDivToUInt64 (a b c : Nat) : Option Nat :=
  match ((Double.ofNat a).mul (Double.ofNat b)).div (Double.ofNat c) with
  | none => none
  | some x => x.toUInt64

/-- `cw.cdpCache.EraseCDP(oldCDP, cdp)` followed by the optional
`AddClosedCdpIndex(oldCDP.cdpid, ...)`, whose failure is only logged. -/
def closeCdp (env : LiqEnv) (cdp : CUserCDP) (s : LiqState) : LiqState :=
  { s with
    erased := s.erased ++ [cdp]
    closedCdpIndex :=
      if env.persistclosedcdp then s.closedCdpIndex ++ [cdp.cdpid] else s.closedCdpIndex }

/-- The inflation branch shared by both liquidation paths (blockpricemediantx.cpp:379-395 and
529-546): governance coins worth the uncovered debt are minted to the reserve and put on
sale. -/
def inflateAndSell (env : LiqEnv) (fcoin_usd_price : Nat) (cdp : CUserCDP)
    (bcoinsValueInScoin : Nat) (coinSymbol : TokenSymbol) (orderId : OrderId) (s : LiqState) :
    RunStatus × LiqState :=
  let fcoinsValueToInflate := sub64 cdp.total_owed_scoins bcoinsValueInScoin
  if fcoin_usd_price = 0 then (.undefined, s)
  else
    match mulDivToUInt64 fcoinsValueToInflate env.PRICE_BOOST fcoin_usd_price with
    | none => (.undefined, s)
    | some fcoinsToInflate =>
      let r := s.operate ⟨env.fcoinAccount, none, SYMB.WGRT, .ADD_FREE, fcoinsToInflate,
        .CDP_TOTAL_INFLATE_FCOIN_TO_RESERVE⟩
      if r.1 = false then (.returned_false, r.2)
      else
        let r2 := SellAssetToRiskRevervePool env cdp SYMB.WGRT fcoinsToInflate coinSymbol
          orderId .CDP_TOTAL_INFLATE_FCOIN_TO_RESERVE r.2
        if r2.1 = false then (.returned_false, r2.2) else (.returned_true, r2.2)

/-- The body of the loop of `CCdpForceLiquidator::Execute` below its two guards
(blockpricemediantx.cpp:343-411): the debt is taken from the reserve, the collateral goes
from the owner to the reserve and is put on sale, governance coins are inflated when the
collateral is worth less than the debt, and the CDP is erased. -/
def CCdpForceLiquidator.settle (env : LiqEnv) (d : CCdpCoinPairDetail) (fcoin_usd_price : Nat)
    (cdp : CUserCDP) (s : LiqState) : RunStatus × LiqState :=
  match env.GetAccount cdp.owner_regid with
  | none => (.returned_false, s)
  | some owner =>
    let s1 := (s.operate ⟨env.fcoinAccount, none, SYMB.WUSD, .SUB_FREE, cdp.total_owed_scoins,
      .CDP_TOTAL_CLOSEOUT_SCOIN_FROM_RESERVE⟩).2
    let r2 := s1.operate ⟨owner, none, cdp.bcoin_symbol, .UNPLEDGE, cdp.total_staked_bcoins,
      .CDP_TOTAL_ASSET_TO_RESERVE⟩
    if r2.1 = false then (.returned_false, r2.2)
    else
      let r3 := r2.2.operate ⟨owner, some env.fcoinAccount, cdp.bcoin_symbol, .SUB_FREE,
        cdp.total_staked_bcoins, .CDP_TOTAL_ASSET_TO_RESERVE⟩
      if r3.1 = false then (.returned_false, r3.2)
      else
        let r4 := SellAssetToRiskRevervePool env cdp d.coin_pair.bcoin_symbol
          cdp.total_staked_bcoins d.coin_pair.scoin_symbol
          (.GenOrderId cdp.cdpid d.coin_pair.bcoin_symbol) .CDP_TOTAL_ASSET_TO_RESERVE r3.2
        if r4.1 = false then (.returned_false, r4.2)
        else
          match mulDivToUInt64 cdp.total_staked_bcoins d.bcoin_price env.PRICE_BOOST with
          | none => (.undefined, r4.2)
          | some bcoinsValueInScoin =>
            if bcoinsValueInScoin < cdp.total_owed_scoins then
              let r5 := inflateAndSell env fcoin_usd_price cdp bcoinsValueInScoin
                d.coin_pair.scoin_symbol (.GenOrderId cdp.cdpid SYMB.WGRT) r4.2
              if r5.1 = .returned_true then (.returned_true, closeCdp env cdp r5.2) else r5
            else (.returned_true, closeCdp env cdp r4.2)

/-- What a `CCdpForceLiquidator` leaves behind: how its run ended, the state, and its
member `liquidated_count`. -/
structure LiquidatorResult where
  status : RunStatus
  state : LiqState
  liquidated_count : Nat

/-- The main loop of `CCdpForceLiquidator::Execute` (blockpricemediantx.cpp:328-411), from
the given value of `liquidated_count`. -/
def CCdpForceLiquidator.executeLoop (env : LiqEnv) (d : CCdpCoinPairDetail)
    (fcoin_usd_price liquidated_limit_count : Nat) :
    List CUserCDP → Nat → LiqState → LiquidatorResult
  | [], liquidated_count, s => ⟨.returned_true, s, liquidated_count⟩
  | cdp :: rest, liquidated_count, s =>
    let liquidated_count := (liquidated_count + 1) % 2 ^ 32
    if liquidated_count > liquidated_limit_count then ⟨.returned_true, s, liquidated_count⟩
    else if s.riskReserveScoins env < cdp.total_owed_scoins then
      ⟨.returned_true, s, liquidated_count⟩
    else
      let r := CCdpForceLiquidator.settle env d fcoin_usd_price cdp s
      if r.1 = .returned_true then
        CCdpForceLiquidator.executeLoop env d fcoin_usd_price liquidated_limit_count rest
          liquidated_count r.2
      else ⟨r.1, r.2, liquidated_count⟩

/-- The body of the loop of `ForceLiquidateCDPCompat` below its two guards
(blockpricemediantx.cpp:497-560), with the `orderIndex` it leaves. The reserve is not
debited here. -/
def CCdpForceLiquidator.settleCompat (env : LiqEnv) (d : CCdpCoinPairDetail)
    (fcoin_usd_price : Nat) (cdp : CUserCDP) (orderIndex : Nat) (s : LiqState) :
    RunStatus × LiqState × Nat :=
  match env.GetAccount cdp.owner_regid with
  | none => (.returned_false, s, orderIndex)
  | some owner =>
    let r2 := s.operate ⟨owner, none, cdp.bcoin_symbol, .UNPLEDGE, cdp.total_staked_bcoins,
      .CDP_TOTAL_ASSET_TO_RESERVE⟩
    if r2.1 = false then (.returned_false, r2.2, orderIndex)
    else
      let r3 := r2.2.operate ⟨owner, some env.fcoinAccount, cdp.bcoin_symbol, .SUB_FREE,
        cdp.total_staked_bcoins, .CDP_TOTAL_ASSET_TO_RESERVE⟩
      if r3.1 = false then (.returned_false, r3.2, orderIndex)
      else
        let orderIndex1 := (orderIndex + 1) % 2 ^ 32
        let r4 := SellAssetToRiskRevervePool env cdp SYMB.WICC cdp.total_staked_bcoins
          SYMB.WUSD (.GenOrderIdCompat env.txid orderIndex) .CDP_TOTAL_ASSET_TO_RESERVE r3.2
        if r4.1 = false then (.returned_false, r4.2, orderIndex1)
        else
          match mulDivToUInt64 cdp.total_staked_bcoins d.bcoin_price env.PRICE_BOOST with
          | none => (.undefined, r4.2, orderIndex1)
          | some bcoinsValueInScoin =>
            if bcoinsValueInScoin ≥ cdp.total_owed_scoins then
              (.returned_true, closeCdp env cdp r4.2, orderIndex1)
            else
              let orderIndex2 := (orderIndex1 + 1) % 2 ^ 32
              let r5 := inflateAndSell env fcoin_usd_price cdp bcoinsValueInScoin SYMB.WUSD
                (.GenOrderIdCompat env.txid orderIndex1) r4.2
              if r5.1 = .returned_true then (.returned_true, closeCdp env cdp r5.2, orderIndex2)
              else (r5.1, r5.2, orderIndex2)

/-- What the loop of `ForceLiquidateCDPCompat` leaves behind; `returned_true` stands for the
loop having been left by exhaustion or `break`. -/
structure CompatLoopResult where
  status : RunStatus
  state : LiqState
  liquidated_count : Nat
  currRiskReserveScoins : Nat

/-- The loop of `ForceLiquidateCDPCompat` (blockpricemediantx.cpp:479-564) over the CDPs in
set order, from the given values of `liquidated_count`, `currRiskReserveScoins` and
`orderIndex`. -/
def CCdpForceLiquidator.compatLoop (env : LiqEnv) (d : CCdpCoinPairDetail)
    (fcoin_usd_price liquidated_limit_count : Nat) :
    List CUserCDP → Nat → Nat → Nat → LiqState → CompatLoopResult
  | [], liquidated_count, currRiskReserveScoins, _, s =>
    ⟨.returned_true, s, liquidated_count, currRiskReserveScoins⟩
  | cdp :: rest, liquidated_count, currRiskReserveScoins, orderIndex, s =>
    let liquidated_count := (liquidated_count + 1) % 2 ^ 32
    if liquidated_count > liquidated_limit_count then
      ⟨.returned_true, s, liquidated_count, currRiskReserveScoins⟩
    else if currRiskReserveScoins < cdp.total_owed_scoins then
      CCdpForceLiquidator.compatLoop env d fcoin_usd_price liquidated_limit_count rest
        liquidated_count currRiskReserveScoins orderIndex s
    else
      let r := CCdpForceLiquidator.settleCompat env d fcoin_usd_price cdp orderIndex s
      if r.1 = .returned_true then
        CCdpForceLiquidator.compatLoop env d fcoin_usd_price liquidated_limit_count rest
          liquidated_count (sub64 currRiskReserveScoins cdp.total_owed_scoins) r.2.2 r.2.1
      else ⟨r.1, r.2.1, liquidated_count, currRiskReserveScoins⟩

/-- `CCdpForceLiquidator::ForceLiquidateCDPCompat` (blockpricemediantx.cpp:466-584): the loop
over the set of CDPs, then the debit of the reserve by the debts repaid. -/
def CCdpForceLiquidator.ForceLiquidateCDPCompat (env : LiqEnv) (d : CCdpCoinPairDetail)
    (fcoin_usd_price liquidated_limit_count : Nat) (cdpList : List CUserCDP)
    (liquidated_count : Nat) (s : LiqState) : LiquidatorResult :=
  let r := CCdpForceLiquidator.compatLoop env d fcoin_usd_price liquidated_limit_count
    (env.cdpSet cdpList) liquidated_count (s.riskReserveScoins env) 0 s
  if r.status = .returned_true then
    let prevScoins := r.state.riskReserveScoins env
    if prevScoins < r.currRiskReserveScoins then ⟨.undefined, r.state, r.liquidated_count⟩
    else
      let o := r.state.operate ⟨env.fcoinAccount, none, SYMB.WUSD, .SUB_FREE,
        prevScoins - r.currRiskReserveScoins, .CDP_TOTAL_INFLATE_FCOIN_TO_RESERVE⟩
      if o.1 = false then ⟨.returned_false, o.2, r.liquidated_count⟩
      else ⟨.returned_true, o.2, r.liquidated_count⟩
  else ⟨r.status, r.state, r.liquidated_count⟩

/-- `CCdpForceLiquidator::Execute` (blockpricemediantx.cpp:273-414) on a fresh liquidator
(`liquidated_count = 0`). -/
def CCdpForceLiquidator.Execute (env : LiqEnv) (d : CCdpCoinPairDetail)
    (fcoin_usd_price liquidated_limit_count : Nat) (s : LiqState) : LiquidatorResult :=
  match env.globalCollateralRatioFloor d.coin_pair with
  | none => ⟨.returned_false, s, 0⟩
  | some globalCollateralRatioFloor =>
    if env.CheckGlobalCollateralRatioFloorReached s.erased d.coin_pair d.bcoin_price
        globalCollateralRatioFloor then ⟨.returned_true, s, 0⟩
    else
      match env.forceLiquidateRatio d.coin_pair with
      | none => ⟨.returned_false, s, 0⟩
      | some forceLiquidateRatio =>
        let cdpList := env.GetCdpListByCollateralRatio s.erased d.coin_pair forceLiquidateRatio
          d.bcoin_price
        if cdpList.length = 0 then ⟨.returned_true, s, 0⟩
        else if env.networkID = .TEST_NET ∧ env.height < 1800000 ∧
            d.coin_pair = env.CDP_COIN_PAIR_WICC_WUSD then
          CCdpForceLiquidator.ForceLiquidateCDPCompat env d fcoin_usd_price
            liquidated_limit_count cdpList 0 s
        else
          CCdpForceLiquidator.executeLoop env d fcoin_usd_price liquidated_limit_count cdpList 0 s

/-- What the loop of `ForceLiquidateCdps` leaves behind; `subtractions` lists, in order, the
operands `(liquidatedLimitCount, liquidated_count)` of every
`liquidatedLimitCount -= forceLiquidator.liquidated_count` it executed. -/
structure ForceLiquidateResult where
  status : RunStatus
  state : LiqState
  subtractions : List (Nat × Nat)

/-- The loop of `CBlockPriceMedianTx::ForceLiquidateCdps` over the coin pairs in set order
(blockpricemediantx.cpp:200-217), from the given value of `liquidatedLimitCount`. -/
def forceLiquidateLoop (env : LiqEnv) (version : FeatureForkVersionEnum) (fcoinUsdPrice : Nat) :
    List CCdpCoinPairDetail → Nat → LiqState → ForceLiquidateResult
  | [], _, s => ⟨.returned_true, s, []⟩
  | cdpCoinPairDetail :: rest, liquidatedLimitCount, s =>
    if version.rank ≥ FeatureForkVersionEnum.MAJOR_VER_R3.rank ∧
        cdpCoinPairDetail.is_price_active = false then
      forceLiquidateLoop env version fcoinUsdPrice rest liquidatedLimitCount s
    else
      let forceLiquidator := CCdpForceLiquidator.Execute env cdpCoinPairDetail fcoinUsdPrice
        liquidatedLimitCount s
      if forceLiquidator.status ≠ .returned_true then
        ⟨forceLiquidator.status, forceLiquidator.state, []⟩
      else if forceLiquidator.liquidated_count ≥ liquidatedLimitCount then
        ⟨.returned_true, forceLiquidator.state, []⟩
      else
        let r := forceLiquidateLoop env version fcoinUsdPrice rest
          (sub32 liquidatedLimitCount forceLiquidator.liquidated_count) forceLiquidator.state
        ⟨r.status, r.state,
          (liquidatedLimitCount, forceLiquidator.liquidated_count) :: r.subtractions⟩

/-- The part of `CBlockPriceMedianTx::ForceLiquidateCdps` from the declaration of
`liquidatedLimitCount` on (blockpricemediantx.cpp:199-219). -/
def ForceLiquidateCdps (env : LiqEnv) (version : FeatureForkVersionEnum) (fcoinUsdPrice : Nat)
    (cdpCoinPairSet : List CCdpCoinPairDetail) (s : LiqState) : ForceLiquidateResult :=
  forceLiquidateLoop env version fcoinUsdPrice cdpCoinPairSet
    (env.CDP_FORCE_LIQUIDATE_MAX_COUNT % 2 ^ 32) s

/-! ## The `double` formula of the vote interest -/

/-- The expression `lastVotedBcoins * (duration / 31536000.0)` of
`CAccount::ComputeVoteFcoinInterest` (account.cpp:245), converted to `uint64_t`: the
duration is divided by the seconds of a year in `double`, the amount is converted to
`double` and multiplied, and the product is truncated; `none` where the conversion is
undefined. -/
def fcoinInterestDouble (lastVotedBcoins duration : Nat) : Option Nat :=
  match (Double.ofNat duration).div (Double.ofNat 31536000) with
  | none => none
  | some years => ((Double.ofNat lastVotedBcoins).mul years).toUInt64

/-- The environment evaluates the interest expression as `double` arithmetic does, wherever
that is defined. -/
def VoteEnv.FormulaIsDouble (env : VoteEnv) : Prop :=
  ∀ v d n, fcoinInterestDouble v d = some n → env.fcoinInterestFormula v d = n

/-! ## Median prices (`CBlockPriceMedianTx::EqualToCalculatedPrices`) -/

/-- `PriceCoinPair`: the base symbol and the quote symbol of a price. -/
abbrev PriceCoinPair := TokenSymbol × TokenSymbol

/-- `operator<` of the `std::pair` of symbols: lexicographic. -/
def PriceCoinPair.lt (a b : PriceCoinPair) : Prop := a.1 < b.1 ∨ (a.1 = b.1 ∧ a.2 < b.2)

instance : DecidableRel PriceCoinPair.lt := fun a b =>
  inferInstanceAs (Decidable (a.1 < b.1 ∨ (a.1 = b.1 ∧ a.2 < b.2)))

/-- The fields of `CMedianPriceDetail` read here. -/
structure CMedianPriceDetail where
  price : Nat
  last_feed_height : Nat := 0
  deriving DecidableEq, Repr

/-- Modelled from the spec: `PriceMap`, the type of `median_prices`, is declared outside the
files at hand. It is taken as a `std::map` from coin pair to price, kept as the list of its
entries in iteration order, which is ascending by key. -/
abbrev PriceMap := List (PriceCoinPair × Nat)

/-- Modelled from the spec: `PriceDetailMap` is declared outside the files at hand. It is
taken as a `std::map` from coin pair to price detail, kept as the list of its entries in
iteration order, which is ascending by key. -/
abbrev PriceDetailMap := List (PriceCoinPair × CMedianPriceDetail)

/-- The entries of a map are in strictly ascending key order. -/
def KeySorted {β : Type} (m : List (PriceCoinPair × β)) : Prop :=
  m.Pairwise (fun x y => PriceCoinPair.lt x.1 y.1)

instance {β : Type} (m : List (PriceCoinPair × β)) : Decidable (KeySorted m) := by
  unfold KeySorted
  exact inferInstance

/-- The parallel walk over both maps (blockpricemediantx.cpp:232-238): `false` at the first
position where the keys or the prices differ, and at the end whether both walks are at
their end. -/
def pricesAgree : PriceMap → PriceDetailMap → Bool
  | priceIt :: prices, detailIt :: details =>
    if priceIt.1 ≠ detailIt.1 ∨ priceIt.2 ≠ detailIt.2.price then false
    else pricesAgree prices details
  | [], [] => true
  | _ :: _, [] => false
  | [], _ :: _ => false

/-- `CBlockPriceMedianTx::EqualToCalculatedPrices` (blockpricemediantx.cpp:222-239).
`medianPrices` receives the entries of `median_prices` with a nonzero price, in key order. -/
def EqualToCalculatedPrices (median_prices : PriceMap) (calcPrices : PriceDetailMap) : Bool :=
  let medianPrices := median_prices.filter (fun item => decide (item.2 ≠ 0))
  if medianPrices.length ≠ calcPrices.length then false
  else pricesAgree medianPrices calcPrices

/-- Outcomes of the price checks of `CBlockPriceMedianTx::ExecuteTx`
(blockpricemediantx.cpp:126-151), named by their reject codes; `continues` is execution
going on to store the prices. -/
inductive MedianPriceCheck where
  | calc_median_prices_failed
  | bad_median_price_points
  | continues
  deriving DecidableEq, Repr

/-- The price checks of `CBlockPriceMedianTx::ExecuteTx` (blockpricemediantx.cpp:126-151);
`priceDetails` is what `CalcMedianPriceDetails` produced, `none` when it failed. -/
def medianPriceChecks (median_prices : PriceMap) (priceDetails : Option PriceDetailMap) :
    MedianPriceCheck :=
  match priceDetails with
  | none => .calc_median_prices_failed
  | some priceDetails =>
    if EqualToCalculatedPrices median_prices priceDetails = false then .bad_median_price_points
    else .continues

/-! ## Ordering of the coin pairs (`operator<` on `CCdpCoinPairDetail`) -/

/-- `operator<` on `bool` operands: `false < true`. -/
def boolLt (a b : Bool) : Bool := !a && b

/-- The macro `OBJ_COMPARE_LT1(obj1, obj2, f1)` (blockpricemediantx.cpp:11-12), for a field
`f1` whose `operator<` is `lt`. -/
def OBJ_COMPARE_LT1 {α β : Type} (lt : β → β → Bool) (f1 : α → β) (obj1 obj2 : α) : Bool :=
  if lt (f1 obj1) (f1 obj2) then true else false

/-- The macro `OBJ_COMPARE_LT1_MORE(obj1, obj2, f1, more)` (blockpricemediantx.cpp:14-15). -/
def OBJ_COMPARE_LT1_MORE {α β : Type} (lt : β → β → Bool) (f1 : α → β) (obj1 obj2 : α)
    (more : Bool) : Bool :=
  if lt (f1 obj1) (f1 obj2) then true else if lt (f1 obj2) (f1 obj1) then false else more

/-- `operator<` on `CCdpCoinPairDetail` (blockpricemediantx.cpp:30-32), the expansion of
`OBJ_COMPARE_LT4(a, b, is_price_active, is_staked_perm, init_tx_cord, coin_pair)`. The
comparisons of `CTxCord` and of `CCdpCoinPair`, declared outside the files at hand, are
`ltCord` and `ltPair`. -/
def CCdpCoinPairDetail.lt (ltCord : CTxCord → CTxCord → Bool)
    (ltPair : CCdpCoinPair → CCdpCoinPair → Bool) (a b : CCdpCoinPairDetail) : Bool :=
  OBJ_COMPARE_LT1_MORE boolLt (·.is_price_active) a b
    (OBJ_COMPARE_LT1_MORE boolLt (·.is_staked_perm) a b
      (OBJ_COMPARE_LT1_MORE ltCord (·.init_tx_cord) a b
        (OBJ_COMPARE_LT1 ltPair (·.coin_pair) a b)))

/-- A strict weak order, as `std::set` requires of its comparison: irreflexive, transitive,
and with a transitive incomparability. -/
structure StrictWeakOrder {α : Type} (lt : α → α → Bool) : Prop where
  irrefl : ∀ a, lt a a = false
  trans : ∀ a b c, lt a b = true → lt b c = true → lt a c = true
  incomp_trans : ∀ a b c, lt a b = false → lt b a = false → lt b c = false → lt c b = false →
    lt a c = false ∧ lt c a = false

/-! ## The list of CDPs for interest settlement (`GetSettledInterestCdps`, cdptx.cpp:989-1048) -/

/-- What `GetSettledInterestCdps` reads from outside `cdptx.cpp`: the cap, the CDP
parameters (`none` for a failed read), the floor test, `cdp_util::CdpNeedSettleInterest`,
and for each pair the `(height, cdpid)` entries of the CDP height index in iterator
order. -/
structure SettleEnv where
  CDP_SETTLE_INTEREST_MAX_COUNT : Nat
  globalCollateralRatioFloor : CCdpCoinPair → Option Nat
  CheckGlobalCollateralRatioFloorReached : CCdpCoinPair → Nat → Nat → Bool
  cycleDays : CCdpCoinPair → Option Nat
  CdpNeedSettleInterest : Nat → Nat → Nat → Bool
  cdpHeightIndex : CCdpCoinPair → List (Nat × Nat)

/-- The loop over the height index of one pair (cdptx.cpp:1009-1018), on the in-out
arguments `cdpList` and `count`; `count--` is on `uint32_t`. -/
def settleInterestLoop (env : SettleEnv) (height cycleDays : Nat) :
    List (Nat × Nat) → List Nat → Nat → List Nat × Nat
  | [], cdpList, count => (cdpList, count)
  | pIt :: rest, cdpList, count =>
    if env.CdpNeedSettleInterest pIt.1 height cycleDays = false then (cdpList, count)
    else
      let count := sub32 count 1
      if count = 0 then (cdpList, count)
      else settleInterestLoop env height cycleDays rest (cdpList ++ [pIt.2]) count

/-- `GetSettledInterestCdps` for one coin pair (cdptx.cpp:989-1021): the returned flag and
the in-out arguments `cdpList` and `count`. -/
def GetSettledInterestCdpsOfPair (env : SettleEnv) (height : Nat)
    (coinPairDetail : CCdpCoinPairDetail) (cdpList : List Nat) (count : Nat) :
    Bool × List Nat × Nat :=
  match env.globalCollateralRatioFloor coinPairDetail.coin_pair with
  | none => (false, cdpList, count)
  | some globalCollateralRatioFloor =>
    if env.CheckGlobalCollateralRatioFloorReached coinPairDetail.coin_pair
        coinPairDetail.bcoin_price globalCollateralRatioFloor then (true, cdpList, count)
    else
      match env.cycleDays coinPairDetail.coin_pair with
      | none => (false, cdpList, count)
      | some cycleDays =>
        let r := settleInterestLoop env height cycleDays
          (env.cdpHeightIndex coinPairDetail.coin_pair) cdpList count
        (true, r.1, r.2)

/-- The loop of `GetSettledInterestCdps` over the coin pairs in set order
(cdptx.cpp:1040-1046). -/
def settledInterestPairsLoop (env : SettleEnv) (height : Nat) :
    List CCdpCoinPairDetail → List Nat → Nat → Bool × List Nat × Nat
  | [], cdpList, count => (true, cdpList, count)
  | item :: rest, cdpList, count =>
    if item.is_price_active = false then settledInterestPairsLoop env height rest cdpList count
    else
      let r := GetSettledInterestCdpsOfPair env height item cdpList count
      if r.1 = false then (false, r.2.1, r.2.2)
      else settledInterestPairsLoop env height rest r.2.1 r.2.2

/-- `GetSettledInterestCdps(cw, height, cdpList)` (cdptx.cpp:1023-1048) from the
declaration of `count` on, for the set of coin pairs that `GetCdpCoinPairDetails` built. -/
def GetSettledInterestCdps (env : SettleEnv) (height : Nat)
    (cdpCoinPairSet : List CCdpCoinPairDetail) (cdpList : List Nat) : Bool × List Nat × Nat :=
  settledInterestPairsLoop env height cdpCoinPairSet cdpList
    (env.CDP_SETTLE_INTEREST_MAX_COUNT % 2 ^ 32)

/-- The size check of `CCDPInterestForceSettleTx::CheckTx` (cdptx.cpp:879-882): `false` is
the reject `invalid-cdp-list-size`. -/
def checkCdpListSize (env : SettleEnv) (sz : Nat) : Bool :=
  if sz = 0 ∨ sz > env.CDP_SETTLE_INTEREST_MAX_COUNT then false else true

/-! ## Penalty fees (`CCDPLiquidateTx::ProcessPenaltyFees`, cdptx.cpp:834-874) -/

/-- The arguments of `dex::CSysOrder::CreateBuyMarketOrder`. -/
structure CSysBuyMarketOrder where
  coin_symbol : TokenSymbol
  asset_symbol : TokenSymbol
  coin_amount : Nat
  cdpid : Nat
  deriving DecidableEq, Repr

/-- What `ProcessPenaltyFees` leaves behind: the returned flag, the risk-reserve account
object (when `GetAccount` found it), the receipts, and the order handed to
`CreateActiveOrder` when that call returned true. -/
structure PenaltyResult where
  ok : Bool
  fcoinAccount : Option CAccount
  receipts : ReceiptList
  order : Option CSysBuyMarketOrder

/-- `CCDPLiquidateTx::ProcessPenaltyFees` (cdptx.cpp:834-874). `spFcoinAccount` is the
object `GetAccount` returns for the risk-reserve account (`none` for a null pointer),
`createActiveOrder` is whether `dexCache.CreateActiveOrder` accepts the buy order, and
`CDP_SYSORDER_PENALTY_FEE_MIN` is a constant declared outside the files at hand. -/
def ProcessPenaltyFees (version : FeatureForkVersionEnum) (CDP_SYSORDER_PENALTY_FEE_MIN : Nat)
    (spFcoinAccount : Option CAccount) (createActiveOrder : Bool) (cdp : CUserCDP)
    (scoinPenaltyFees : Nat) (receipts : ReceiptList) : PenaltyResult :=
  if scoinPenaltyFees = 0 then ⟨true, spFcoinAccount, receipts, none⟩
  else
    match spFcoinAccount with
    | none => ⟨false, none, receipts, none⟩
    | some fcoinAccount =>
      let r1 := OperateBalance fcoinAccount cdp.scoin_symbol .ADD_FREE scoinPenaltyFees
        .CDP_PENALTY_TO_RESERVE receipts .null
      if r1.ok = false then ⟨false, some r1.this, r1.receipts, none⟩
      else if version.rank < FeatureForkVersionEnum.MAJOR_VER_R3.rank ∧
          scoinPenaltyFees ≤ CDP_SYSORDER_PENALTY_FEE_MIN then
        ⟨true, some r1.this, r1.receipts, none⟩
      else
        let halfScoinsPenalty := scoinPenaltyFees / 2
        let leftScoinPenalty := sub64 scoinPenaltyFees halfScoinsPenalty
        let r2 := OperateBalance r1.this cdp.scoin_symbol .FREEZE leftScoinPenalty
          .CDP_PENALTY_BUY_DEFLATE_FCOINS r1.receipts .null
        if r2.ok = false then ⟨false, some r2.this, r2.receipts, none⟩
        else if createActiveOrder = false then ⟨false, some r2.this, r2.receipts, none⟩
        else
          ⟨true, some r2.this, r2.receipts,
            some ⟨cdp.scoin_symbol, SYMB.WGRT, leftScoinPenalty, cdp.cdpid⟩⟩

/-! ## Relative error of `double` arithmetic -/

/-- The factor `1 - 2^-53`: a value rounded to `double` is at least this multiple of the
exact value, and the exact value is at least this multiple of the rounded one. -/
def roundFactor : ℚ := 1 - 1 / 2 ^ 53

/-- `x` approximates `v` after at most `k` roundings: `v * (1 - 2^-53)^k ≤ x` and
`x * (1 - 2^-53)^k ≤ v`. -/
def Approx (k : Nat) (x v : ℚ) : Prop :=
  v * roundFactor ^ k ≤ x ∧ x * roundFactor ^ k ≤ v

/-! ## Manual liquidation: ratio and partial liquidation (`CCDPLiquidateTx::ExecuteTx`) -/

/-- Modelled from the spec: `CUserCDP::GetCollateralRatio`, a method of the CDP record whose
file is not at hand: the value of the staked collateral in the quote currency over the owed
debt, in the boosted ratio unit, computed as `CalcCollateralRatio` (cdptx.cpp:113-117)
computes it from the CDP's two totals. -/
def CUserCDP.GetCollateralRatio (env : CdpEnv) (cdp : CUserCDP) (bcoinPrice : Nat) :
    Option Nat :=
  CalcCollateralRatio env cdp.total_staked_bcoins cdp.total_owed_scoins bcoinPrice

/-- The tier selection of `CCDPLiquidateTx::ExecuteTx` on a CDP (cdptx.cpp:653-692), the
ratio being `cdp.GetCollateralRatio(bcoinMedianPrice)` (line 658). -/
def liquidateCdpTiers (env : CdpEnv) (cdp : CUserCDP) (bcoinMedianPrice
    startingCdpLiquidateRatio nonReturnCdpLiquidateRatio cdpLiquidateDiscountRate
    forcedCdpLiquidateRatio : Nat) : Option TierOutcome :=
  match cdp.GetCollateralRatio env bcoinMedianPrice with
  | none => none
  | some collateralRatio =>
    liquidateTiers env cdp.total_staked_bcoins cdp.total_owed_scoins bcoinMedianPrice
      collateralRatio startingCdpLiquidateRatio nonReturnCdpLiquidateRatio
      cdpLiquidateDiscountRate forcedCdpLiquidateRatio

/-- The amounts of a partial liquidation (cdptx.cpp:744-801). -/
structure PartialAmounts where
  /-- `totalBcoinsToReturnLiquidator` after `*= liquidateRate` (line 747). -/
  totalBcoinsToReturnLiquidator : Nat
  bcoinsToCDPOwner : Nat
  scoinsToCloseout : Nat
  bcoinsToLiquidate : Nat
  scoinsToReturnSysFund : Nat
  deriving DecidableEq, Repr

/-- Outcome of the arithmetic of a partial liquidation: a failed `assert` (with its line in
cdptx.cpp) or the amounts. -/
inductive PartialOutcome where
  | assertFailed (line : Nat)
  | amounts (p : PartialAmounts)
  deriving DecidableEq, Repr

/-- The arithmetic of the partial-liquidation branch of `CCDPLiquidateTx::ExecuteTx`
(cdptx.cpp:743-801), entered when `scoins_to_liquidate < totalScoinsToLiquidate`:
`liquidateRate = (double)scoins_to_liquidate / totalScoinsToLiquidate`, the three amounts
`uint64_t(double(x) * liquidateRate)`, the sum `bcoinsToLiquidate` and the difference
`scoins_to_liquidate - scoinsToCloseout`, both in `uint64_t`, with the three assertions
where the code has them. The balance operations and the minimum-stake check that lie
between these lines compute none of the amounts (each can only reject the transaction) and
are left out. `none` is a division by zero or an out-of-range conversion. -/
def liquidatePart (total_staked_bcoins total_owed_scoins scoins_to_liquidate : Nat)
    (t : LiquidateTotals) : Option PartialOutcome :=
  match (Double.ofNat scoins_to_liquidate).div (Double.ofNat t.totalScoinsToLiquidate) with
  | none => none
  | some liquidateRate =>
    -- assert(liquidateRate < 1)
    if ¬ liquidateRate.num < 2 ^ liquidateRate.scale then some (.assertFailed 745)
    else
      match ((Double.ofNat t.totalBcoinsToReturnLiquidator).mul liquidateRate).toUInt64 with
      | none => none
      | some totalBcoinsToReturnLiquidator =>
        match ((Double.ofNat t.totalBcoinsToCdpOwner).mul liquidateRate).toUInt64 with
        | none => none
        | some bcoinsToCDPOwner =>
          match ((Double.ofNat total_owed_scoins).mul liquidateRate).toUInt64 with
          | none => none
          | some scoinsToCloseout =>
            let bcoinsToLiquidate := add64 totalBcoinsToReturnLiquidator bcoinsToCDPOwner
            if ¬ total_owed_scoins > scoinsToCloseout then some (.assertFailed 782)
            else if ¬ total_staked_bcoins > bcoinsToLiquidate then some (.assertFailed 783)
            else
              some (.amounts
                { totalBcoinsToReturnLiquidator := totalBcoinsToReturnLiquidator
                  bcoinsToCDPOwner := bcoinsToCDPOwner
                  scoinsToCloseout := scoinsToCloseout
                  bcoinsToLiquidate := bcoinsToLiquidate
                  scoinsToReturnSysFund := sub64 scoins_to_liquidate scoinsToCloseout })

/-- Manual liquidation up to its amounts (cdptx.cpp:658-801): the tier selection on the
CDP, then the full liquidation when the payment covers `totalScoinsToLiquidate` (line 694),
else the partial one. -/
inductive LiquidateOutcome where
  | cdp_not_liquidate_ready
  | assertFailed (line : Nat)
  | full (t : LiquidateTotals)
  | part (t : LiquidateTotals) (p : PartialAmounts)
  deriving DecidableEq, Repr

/-- The amounts of `CCDPLiquidateTx::ExecuteTx` for a CDP, a price, the four thresholds and
the payment `scoins_to_liquidate`. -/
def liquidateAmounts (env : CdpEnv) (cdp : CUserCDP) (bcoinMedianPrice
    startingCdpLiquidateRatio nonReturnCdpLiquidateRatio cdpLiquidateDiscountRate
    forcedCdpLiquidateRatio scoins_to_liquidate : Nat) : Option LiquidateOutcome :=
  match liquidateCdpTiers env cdp bcoinMedianPrice startingCdpLiquidateRatio
      nonReturnCdpLiquidateRatio cdpLiquidateDiscountRate forcedCdpLiquidateRatio with
  | none => none
  | some .cdp_not_liquidate_ready => some .cdp_not_liquidate_ready
  | some .assertFailed => some (.assertFailed 669)
  | some (.totals t) =>
    if isFullLiquidation scoins_to_liquidate t then some (.full t)
    else
      match liquidatePart cdp.total_staked_bcoins cdp.total_owed_scoins
          scoins_to_liquidate t with
      | none => none
      | some (.assertFailed line) => some (.assertFailed line)
      | some (.amounts p) => some (.part t p)

/-- The owner's side of a full liquidation (cdptx.cpp:706-723): `UNPLEDGE` and `SUB_FREE`
of the liquidator's collateral, then `UNPLEDGE` of the owner's part, all on the CDP's
collateral symbol; the first call that fails ends the transaction. -/
def fullLiquidateOwner (cdpOwnerAccount : CAccount) (bcoin_symbol : TokenSymbol)
    (t : LiquidateTotals) (receipts : ReceiptList) : OpResult :=
  let r1 := OperateBalance cdpOwnerAccount bcoin_symbol .UNPLEDGE
    t.totalBcoinsToReturnLiquidator .CDP_ASSET_TO_LIQUIDATOR receipts .null
  if !r1.ok then r1
  else
    let r2 := OperateBalance r1.this bcoin_symbol .SUB_FREE
      t.totalBcoinsToReturnLiquidator .CDP_ASSET_TO_LIQUIDATOR r1.receipts .null
    if !r2.ok then r2
    else
      OperateBalance r2.this bcoin_symbol .UNPLEDGE t.totalBcoinsToCdpOwner
        .CDP_LIQUIDATED_ASSET_TO_OWNER r2.receipts .null

/-- The lexicographic order on `(is_price_active, is_staked_perm, init_tx_cord, coin_pair)`,
written from the specification's wording and not from the macros: `a` precedes `b` when, at
the first of the four fields in which the two are not equivalent, the field of `a` is the
lesser one. The two flags are equivalent when equal, and `false` is less than `true`; two coordinates are
equivalent when neither is less than the other. -/
def CCdpCoinPairDetail.lexLt (ltCord : CTxCord → CTxCord → Bool)
    (ltPair : CCdpCoinPair → CCdpCoinPair → Bool) (a b : CCdpCoinPairDetail) : Prop :=
  (a.is_price_active = false ∧ b.is_price_active = true) ∨
  (a.is_price_active = b.is_price_active ∧
    ((a.is_staked_perm = false ∧ b.is_staked_perm = true) ∨
    (a.is_staked_perm = b.is_staked_perm ∧
      (ltCord a.init_tx_cord b.init_tx_cord = true ∨
      (ltCord a.init_tx_cord b.init_tx_cord = false ∧
        ltCord b.init_tx_cord a.init_tx_cord = false ∧
        ltPair a.coin_pair b.coin_pair = true)))))

instance (ltCord : CTxCord → CTxCord → Bool) (ltPair : CCdpCoinPair → CCdpCoinPair → Bool)
    (a b : CCdpCoinPairDetail) : Decidable (CCdpCoinPairDetail.lexLt ltCord ltPair a b) := by
  unfold CCdpCoinPairDetail.lexLt; exact inferInstance

/-! ## The full-liquidation branch (`CCDPLiquidateTx::ExecuteTx`, cdptx.cpp:694-741) -/

/-- What the full-liquidation branch reads from outside `cdptx.cpp` and `account.cpp`. -/
structure FullLiqEnv where
  /-- `GetFeatureForkVersion(context.height)`. -/
  version : FeatureForkVersionEnum
  CDP_SYSORDER_PENALTY_FEE_MIN : Nat
  /-- Index of the object `sp_tx_account` (the liquidator) among the account objects. -/
  txAccount : Nat
  /-- Index of the object `spCdpOwnerAccount`; `GetAccount` (tx.cpp:290-310) hands out one
  object per key id, so the owner who liquidates an own CDP has the index of `txAccount`. -/
  cdpOwnerAccount : Nat
  /-- `GetAccount(context, SysCfg().GetFcoinGenesisRegId(), "fcoin")` in
  `ProcessPenaltyFees`: the index of the object, `none` for a null pointer. -/
  fcoinAccount : Option Nat
  /-- Whether `dexCache.CreateActiveOrder` accepts the buy order of the penalty. -/
  createActiveOrder : Bool
  /-- Whether `cdpCache.EraseCDP(oldCDP, cdp)` succeeds. -/
  eraseCDP : Bool

/-- What the full-liquidation branch writes: the account objects and the receipts list, the
buy order accepted by `CreateActiveOrder`, and the CDPs erased by `EraseCDP`. -/
structure FullLiqState where
  ledger : Ledger
  order : Option CSysBuyMarketOrder := none
  erased : List CUserCDP := []

/-- One `OperateBalance` call on the account objects of the state, with the returned
flag. -/
def FullLiqState.operate (s : FullLiqState) (c : Call) : Bool × FullLiqState :=
  ((OperateBalance (s.ledger.accounts c.account) c.tokenSymbol c.opType c.value c.receiptType
      s.ledger.receipts (s.ledger.peerRef c)).ok,
    { s with ledger := s.ledger.apply c })

/-- `ProcessPenaltyFees` run on the account objects of the state. -/
def FullLiqState.processPenaltyFees (env : FullLiqEnv) (cdp : CUserCDP)
    (scoinPenaltyFees : Nat) (s : FullLiqState) : Bool × FullLiqState :=
  let p := ProcessPenaltyFees env.version env.CDP_SYSORDER_PENALTY_FEE_MIN
    (env.fcoinAccount.map s.ledger.accounts) env.createActiveOrder cdp scoinPenaltyFees
    s.ledger.receipts
  (p.ok,
    { s with
      ledger :=
        { accounts := fun i =>
            if env.fcoinAccount = some i then p.fcoinAccount.getD (s.ledger.accounts i)
            else s.ledger.accounts i
          receipts := p.receipts }
      order := p.order })

/-- The full-liquidation branch of `CCDPLiquidateTx::ExecuteTx` (cdptx.cpp:694-741), taken
when `scoins_to_liquidate >= totalScoinsToLiquidate`: the liquidator pays the required
stable coins and receives collateral, the owner's pledged collateral is released, the
penalty is processed, and the CDP is erased; `true` is returned only when every step
succeeded. The optional `AddClosedCdpIndex` calls, whose failure is only logged, are left
out. -/
def fullLiquidation (env : FullLiqEnv) (cdp : CUserCDP) (t : LiquidateTotals)
    (s : FullLiqState) : Bool × FullLiqState :=
  let r1 := s.operate ⟨env.txAccount, none, cdp.scoin_symbol, .SUB_FREE,
    t.totalScoinsToLiquidate, .CDP_SCOIN_FROM_LIQUIDATOR⟩
  if r1.1 = false then (false, r1.2)
  else
    let r2 := r1.2.operate ⟨env.txAccount, none, cdp.bcoin_symbol, .ADD_FREE,
      t.totalBcoinsToReturnLiquidator, .CDP_ASSET_TO_LIQUIDATOR⟩
    if r2.1 = false then (false, r2.2)
    else
      let r3 := r2.2.operate ⟨env.cdpOwnerAccount, none, cdp.bcoin_symbol, .UNPLEDGE,
        t.totalBcoinsToReturnLiquidator, .CDP_ASSET_TO_LIQUIDATOR⟩
      if r3.1 = false then (false, r3.2)
      else
        let r4 := r3.2.operate ⟨env.cdpOwnerAccount, none, cdp.bcoin_symbol, .SUB_FREE,
          t.totalBcoinsToReturnLiquidator, .CDP_ASSET_TO_LIQUIDATOR⟩
        if r4.1 = false then (false, r4.2)
        else
          let r5 := r4.2.operate ⟨env.cdpOwnerAccount, none, cdp.bcoin_symbol, .UNPLEDGE,
            t.totalBcoinsToCdpOwner, .CDP_LIQUIDATED_ASSET_TO_OWNER⟩
          if r5.1 = false then (false, r5.2)
          else
            let r6 := r5.2.processPenaltyFees env cdp t.totalScoinsToReturnSysFund
            if r6.1 = false then (false, r6.2)
            else if env.eraseCDP = false then (false, r6.2)
            else (true, { r6.2 with erased := r6.2.erased ++ [cdp] })

/-- The two branches at cdptx.cpp:694: the full liquidation when the payment covers
`totalScoinsToLiquidate`; `none` stands for the partial-liquidation branch, which updates
the CDP and does not erase it. -/
def liquidateBranch (env : FullLiqEnv) (cdp : CUserCDP) (t : LiquidateTotals)
    (scoins_to_liquidate : Nat) (s : FullLiqState) : Option (Bool × FullLiqState) :=
  if isFullLiquidation scoins_to_liquidate t then some (fullLiquidation env cdp t s) else none

/-! ## Concrete scenarios -/

/-- A store in which every account object holds 1000 free `WICC`. -/
def exampleLedger : Ledger :=
  { accounts := fun i =>
      { keyid := i
        tokens := fun s => if s = "WICC" then some { free_amount := 1000 } else none } }

/-- A stake, a transfer to a peer, and an unstake that fails. -/
def exampleCalls : List Call :=
  [ { account := 0, peer := none, tokenSymbol := "WICC", opType := .STAKE, value := 400 },
    { account := 0, peer := some 1, tokenSymbol := "WICC", opType := .SUB_FREE, value := 100 },
    { account := 0, peer := none, tokenSymbol := "WICC", opType := .UNSTAKE, value := 500 } ]

/-- An account with key id `k` holding `t` of `WICC` and nothing else. -/
def wiccAccount (k : Nat) (t : CAccountToken) : CAccount :=
  { keyid := k, tokens := fun s => if s = "WICC" then some t else none }

/-- An account (key id 1) with 10 free `WICC`. -/
def payer : CAccount := wiccAccount 1 { free_amount := 10 }

/-- A distinct account (key id 2) whose free `WICC` bucket holds the largest 64-bit value. -/
def fullPeer : CAccount := wiccAccount 2 { free_amount := 2 ^ 64 - 1 }

/-- An account (key id 1) with 1000 free and 50 frozen `WICC`. -/
def alice : CAccount := wiccAccount 1 { free_amount := 1000, frozen_amount := 50 }

/-- A distinct account (key id 2) with 5 free `WICC`. -/
def bob : CAccount := wiccAccount 2 { free_amount := 5 }

/-- An account with 10 free `WICC` whose staked bucket holds the largest 64-bit value. -/
def fullStaker : CAccount := wiccAccount 1 { free_amount := 10, staked_amount := 2 ^ 64 - 1 }

/-- The account of the staking scenario: `free(WICC) = 1,000,000,000`. -/
def staker : CAccount := wiccAccount 1 { free_amount := 1000000000 }

/-- A vote environment at fork version R2: at most 11 candidates, the maximum supply of
21 billion coins of `10 ^ 8` units, an empty account cache, no interest. -/
def envR2 : VoteEnv :=
  { GetFeatureForkVersion := fun _ => .MAJOR_VER_R2
    GetMaxVoteCandidateNum := 11
    CheckBaseCoinRange := fun n => decide (n ≤ 21000000000 * 100000000)
    GetAccount := fun _ => none
    isMainNet := false
    FCOIN_VOTEMINE_EPOCH_FROM := 0
    FCOIN_VOTEMINE_EPOCH_TO := 0
    bcoinInterestFormula := fun _ _ _ => 0
    fcoinInterestFormula := fun _ _ => 0 }

/-- Two first-time votes of `2 ^ 63` each, for two different candidates. -/
def hugeVotes : List CCandidateVote :=
  [⟨.ADD_BCOIN, .regid 1, 2 ^ 63⟩, ⟨.ADD_BCOIN, .regid 2, 2 ^ 63⟩]

/-- Two first-time votes of 300 and 500, for two different candidates. -/
def smallVotes : List CCandidateVote :=
  [⟨.ADD_BCOIN, .regid 1, 300⟩, ⟨.ADD_BCOIN, .regid 2, 500⟩]

/-- Boost factors `PRICE_BOOST = 10 ^ 8`, `RATIO_BOOST = 10 ^ 4`, `COIN = 10 ^ 8`, 28800
blocks a day, and a `log10` that is exact at 1, 10 and 100 (the only arguments at which the
scenarios below evaluate it) and 3 elsewhere. -/
def exampleCdpEnv : CdpEnv :=
  { PRICE_BOOST := 100000000
    RATIO_BOOST := 10000
    COIN := 100000000
    GetOneDayBlocks := fun _ => 28800
    log10 := fun x =>
      if x = Double.ofNat 1 then Double.ofNat 0
      else if x = Double.ofNat 10 then Double.ofNat 1
      else if x = Double.ofNat 100 then Double.ofNat 2
      else Double.ofNat 3 }

/-- An account (key id 1) whose free `WICC` bucket holds the largest 64-bit value, with 10
frozen. -/
def fullHolder : CAccount := wiccAccount 1 { free_amount := 2 ^ 64 - 1, frozen_amount := 10 }

/-- A second account record carrying the key id of `alice`. -/
def aliceCopy : CAccount := wiccAccount 1 { free_amount := 7 }

/-- A CDP of owner 1 (id 1): 100 `WICC` staked against 100 `WUSD` owed. -/
def cdpA : CUserCDP := ⟨1, 1, "WICC", "WUSD", 100, 100⟩

/-- A CDP of owner 2 (id 2): 20 `WICC` staked against 10 `WUSD` owed. -/
def cdpB : CUserCDP := ⟨2, 2, "WICC", "WUSD", 20, 10⟩

/-- A CDP of owner 3 (id 3): 30 `WICC` staked against 15 `WUSD` owed. -/
def cdpC : CUserCDP := ⟨3, 3, "WICC", "WUSD", 30, 15⟩

/-- The pair `WICC`/`WUSD` with an active price of 1 (`10^8` boosted). -/
def wiccWusd : CCdpCoinPairDetail :=
  { is_price_active := true, coin_pair := ⟨"WICC", "WUSD"⟩, bcoin_price := 100000000 }

/-- A liquidation environment on the given network at height 1000, above the floor, with a
cap of 2 closures per block; register id `i` is the account object `i`, object 0 is the
reserve, every order is accepted, the set order is the list order, and the CDPs at risk are
those of the given list not yet erased. -/
def exampleLiqEnv (net : NET_TYPE) (cdps : List CUserCDP) : LiqEnv :=
  { PRICE_BOOST := 100000000
    CDP_FORCE_LIQUIDATE_MAX_COUNT := 2
    CDP_COIN_PAIR_WICC_WUSD := ⟨"WICC", "WUSD"⟩
    networkID := net
    height := 1000
    txid := 7
    persistclosedcdp := false
    fcoinAccount := 0
    GetAccount := fun regid => some regid
    globalCollateralRatioFloor := fun _ => some 8000
    forceLiquidateRatio := fun _ => some 10400
    CheckGlobalCollateralRatioFloorReached := fun _ _ _ _ => false
    GetCdpListByCollateralRatio := fun erased _ _ _ => cdps.filter (fun c => decide (c ∉ erased))
    cdpSet := fun l => l
    CreateActiveOrder := fun _ _ _ => true }

/-- A state in which the reserve (object 0, key id 1000) holds the given free `WUSD` and
every other object `i` (key id `i`) holds 1000 pledged `WICC`. -/
def exampleLiqState (reserve : Nat) : LiqState :=
  { ledger :=
      { accounts := fun i =>
          if i = 0 then
            { keyid := 1000
              tokens := fun s => if s = "WUSD" then some { free_amount := reserve } else none }
          else wiccAccount i { pledged_amount := 1000 } } }

/-- A main-network vote environment at fork version R2 with the mining window
`[1000, 1000000000]`, the maximum supply of 21 billion coins of `10 ^ 8` units, and the
interest expression evaluated in `double` (0 where it is undefined). -/
def envMainNet : VoteEnv :=
  { GetFeatureForkVersion := fun _ => .MAJOR_VER_R2
    GetMaxVoteCandidateNum := 11
    CheckBaseCoinRange := fun n => decide (n ≤ 21000000000 * 100000000)
    GetAccount := fun _ => none
    isMainNet := true
    FCOIN_VOTEMINE_EPOCH_FROM := 1000
    FCOIN_VOTEMINE_EPOCH_TO := 1000000000
    bcoinInterestFormula := fun _ _ _ => 0
    fcoinInterestFormula := fun v d => (fcoinInterestDouble v d).getD 0 }

/-- An account that last voted at epoch 2000. -/
def voter : CAccount := { keyid := 1, last_vote_epoch := 2000 }

/-- A comparison of transaction coordinates: by height, then by index. -/
def exampleLtCord (a b : CTxCord) : Bool :=
  decide (a.height < b.height ∨ (a.height = b.height ∧ a.index < b.index))

/-- A comparison of coin pairs: by the lengths of the two symbols. -/
def exampleLtPair (a b : CCdpCoinPair) : Bool :=
  decide (a.bcoin_symbol.length < b.bcoin_symbol.length ∨
    (a.bcoin_symbol.length = b.bcoin_symbol.length ∧
      a.scoin_symbol.length < b.scoin_symbol.length))

/-- The pair `WGRT`/`WUSD` with an active price of 1. -/
def wgrtWusd : CCdpCoinPairDetail :=
  { is_price_active := true, coin_pair := ⟨"WGRT", "WUSD"⟩, bcoin_price := 100000000 }

/-- A settlement environment with the given cap, above the floor, in which every indexed
CDP is due: the index of `WICC`/`WUSD` holds the CDPs `0 .. n-1`, the index of every other
pair the two CDPs `1000000` and `1000001`. -/
def exampleSettleEnv (cap n : Nat) : SettleEnv :=
  { CDP_SETTLE_INTEREST_MAX_COUNT := cap
    globalCollateralRatioFloor := fun _ => some 8000
    CheckGlobalCollateralRatioFloorReached := fun _ _ _ => false
    cycleDays := fun _ => some 7
    CdpNeedSettleInterest := fun _ _ _ => true
    cdpHeightIndex := fun pair =>
      if pair = ⟨"WICC", "WUSD"⟩ then (List.range n).map (fun i => (10, i))
      else [(10, 1000000), (10, 1000001)] }

/-- A risk-reserve account (key id 1000) holding the given free `WUSD`. -/
def reserveAccount (free : Nat) : CAccount :=
  { keyid := 1000
    tokens := fun s => if s = "WUSD" then some { free_amount := free } else none }

/-- A CDP of owner 1 (id 9): `5 * 10^15` units of `WICC` (50 million coins) staked against
`2^53 + 4` units of `WUSD` (about 90 million coins) owed. -/
def cdpLarge : CUserCDP := ⟨9, 1, "WICC", "WUSD", 5000000000000000, 9007199254740996⟩

/-- A CDP of owner 1 (id 12): 9066666666666667 units of `WICC` staked against 272 units of
`WUSD` owed. -/
def cdpSkewed : CUserCDP := ⟨12, 1, "WICC", "WUSD", 9066666666666667, 272⟩

/-- A CDP of owner 1 (id 13): 1400 units of `WICC` staked against 1000 units of `WUSD`
owed. -/
def cdpFirstTier : CUserCDP := ⟨13, 1, "WICC", "WUSD", 1400, 1000⟩

/-- An account (key id 1) with 5 free and 1400 pledged `WICC`. -/
def pledger : CAccount := wiccAccount 1 { free_amount := 5, pledged_amount := 1400 }

/-- A price-active pair `WICC`/`WUSD` without staking permission, created at height 5. -/
def wiccWusdNoPerm : CCdpCoinPairDetail :=
  { wiccWusd with is_staked_perm := false, init_tx_cord := ⟨5, 0⟩ }

/-- A price-active pair `WICC`/`WUSD` with staking permission, created at height 7. -/
def wiccWusdLate : CCdpCoinPairDetail := { wiccWusd with init_tx_cord := ⟨7, 0⟩ }

/-- A price-active pair `XT`/`WUSD` with staking permission, created at height 0. -/
def xtWusd : CCdpCoinPairDetail :=
  { is_price_active := true, coin_pair := ⟨"XT", "WUSD"⟩, bcoin_price := 100000000 }

/-- Three account objects: 0, the liquidator, with 2000 free `WUSD`; 1, the CDP's owner,
with 1400 pledged `WICC`; 2, the risk reserve, with nothing. -/
def exampleFullLiqState : FullLiqState :=
  { ledger :=
      { accounts := fun i =>
          { keyid := i
            tokens := fun s =>
              if i = 0 ∧ s = "WUSD" then some { free_amount := 2000 }
              else if i = 1 ∧ s = "WICC" then some { pledged_amount := 1400 }
              else none } } }

/-- The full liquidation at fork version R3 by account 0 of a CDP owned by account 1, with
the risk reserve at 2, an accepted buy order and a successful `EraseCDP`. -/
def exampleFullLiqEnv : FullLiqEnv :=
  { version := .MAJOR_VER_R3
    CDP_SYSORDER_PENALTY_FEE_MIN := 10
    txAccount := 0
    cdpOwnerAccount := 1
    fcoinAccount := some 2
    createActiveOrder := true
    eraseCDP := true }

/-- A CDP of owner 1 (id 14): 1100 units of `WICC` staked against 1000 units of `WUSD`
owed. -/
def cdpSecondTier : CUserCDP := ⟨14, 1, "WICC", "WUSD", 1100, 1000⟩

end DBC

namespace DBC

/-! ## Basic lemmas -/

theorem U64_pos : 0 < U64 := by unfold U64; norm_num

theorem add64_lt (a b : Nat) : add64 a b < U64 := Nat.mod_lt _ U64_pos

theorem sub64_lt (a b : Nat) : sub64 a b < U64 := Nat.mod_lt _ U64_pos

theorem sub64_of_le {a b : Nat} (h : b ≤ a) (ha : a < U64) : sub64 a b = a - b := by
  unfold sub64
  have hb : b < U64 := lt_of_le_of_lt h ha
  rw [Nat.mod_eq_of_lt hb]
  have : a + U64 - b = (a - b) + U64 := by omega
  rw [this, Nat.add_mod_right, Nat.mod_eq_of_lt (by omega)]

theorem add64_of_lt {a b : Nat} (h : a + b < U64) : add64 a b = a + b := by
  unfold add64; exact Nat.mod_eq_of_lt h

@[simp] theorem GetToken_SetToken_same (a : CAccount) (s : TokenSymbol) (t : CAccountToken) :
    (a.SetToken s t).GetToken s = t := by
  simp [CAccount.GetToken, CAccount.SetToken]

theorem GetToken_SetToken_ne (a : CAccount) {s s' : TokenSymbol} (t : CAccountToken)
    (h : s' ≠ s) : (a.SetToken s t).GetToken s' = a.GetToken s' := by
  simp [CAccount.GetToken, CAccount.SetToken, h]

theorem GetToken_SetToken (a : CAccount) (s s' : TokenSymbol) (t : CAccountToken) :
    (a.SetToken s t).GetToken s' = if s' = s then t else a.GetToken s' := by
  by_cases h : s' = s
  · subst h; simp
  · simp [h, GetToken_SetToken_ne]

@[simp] theorem GetToken_touch (a : CAccount) (s s' : TokenSymbol) :
    (a.touch s).GetToken s' = a.GetToken s' := by
  unfold CAccount.touch
  rw [GetToken_SetToken]
  split_ifs with h
  · rw [h]
  · rfl

@[simp] theorem keyid_SetToken (a : CAccount) (s : TokenSymbol) (t : CAccountToken) :
    (a.SetToken s t).keyid = a.keyid := rfl

@[simp] theorem keyid_touch (a : CAccount) (s : TokenSymbol) : (a.touch s).keyid = a.keyid := rfl

theorem CAccount.ext_tokens {a b : CAccount} (h1 : a.keyid = b.keyid) (h2 : a.regid = b.regid)
    (h3 : a.owner_pubkey = b.owner_pubkey) (h4 : ∀ s, a.tokens s = b.tokens s)
    (h5 : a.received_votes = b.received_votes) (h6 : a.last_vote_height = b.last_vote_height)
    (h7 : a.last_vote_epoch = b.last_vote_epoch) : a = b := by
  cases a; cases b
  simp only [CAccount.mk.injEq] at *
  exact ⟨h1, h2, h3, funext h4, h5, h6, h7⟩

@[simp] theorem SetToken_SetToken (a : CAccount) (s : TokenSymbol) (t t' : CAccountToken) :
    (a.SetToken s t).SetToken s t' = a.SetToken s t' := by
  apply CAccount.ext_tokens <;> try rfl
  intro x
  simp only [CAccount.SetToken]
  split_ifs <;> rfl

@[simp] theorem SetToken_touch (a : CAccount) (s : TokenSymbol) (t : CAccountToken) :
    (a.touch s).SetToken s t = a.SetToken s t := by
  unfold CAccount.touch; simp

theorem GuardedDelta.unchanged (v a : Nat) : GuardedDelta v a a := Or.inl rfl

theorem GuardedDelta.add (v a : Nat) : GuardedDelta v a (add64 a v) := Or.inr (Or.inl rfl)

theorem GuardedDelta.sub {v a : Nat} (h : ¬ a < v) (ha : a < U64) :
    GuardedDelta v a (sub64 a v) := by
  have hle : v ≤ a := Nat.le_of_not_lt h
  rw [sub64_of_le hle ha]
  exact Or.inr (Or.inr ⟨hle, by omega⟩)

theorem GuardedDelta.add_sub {v a : Nat} (ha : a < U64) (h : ¬ add64 a v < v) :
    GuardedDelta v a (sub64 (add64 a v) v) := by
  by_cases hs : a + v < U64
  · rw [add64_of_lt hs, sub64_of_le (by omega) hs]
    exact Or.inl (by omega)
  · exfalso
    apply h
    unfold add64
    have h1 : (a + v) % U64 = (a + v - U64) % U64 := Nat.mod_eq_sub_mod (by omega)
    have h2 : (a + v - U64) % U64 ≤ a + v - U64 := Nat.mod_le _ _
    omega

theorem GuardedDelta.sub_add {v a : Nat} (ha : a < U64) (h : ¬ a < v) :
    GuardedDelta v a (add64 (sub64 a v) v) := by
  rw [sub64_of_le (by omega) ha]
  unfold add64
  rw [Nat.sub_add_cancel (by omega), Nat.mod_eq_of_lt ha]
  exact Or.inl rfl

theorem CAccount.WF_touch {a : CAccount} (h : a.WF) (s : TokenSymbol) : (a.touch s).WF := by
  intro x; rw [GetToken_touch]; exact h x

theorem CAccount.WF_SetToken {a : CAccount} {t : CAccountToken} (ha : a.WF) (ht : t.WF)
    (s : TokenSymbol) : (a.SetToken s t).WF := by
  intro x
  rw [GetToken_SetToken]; split_ifs
  · exact ht
  · exact ha x

theorem TokenGuarded.SetToken {v : Nat} {a : CAccount} {sym : TokenSymbol} {t : CAccountToken}
    (ht : TokenGuarded v (a.GetToken sym) t) (s : TokenSymbol) :
    TokenGuarded v (a.GetToken s) ((a.SetToken sym t).GetToken s) := by
  rw [GetToken_SetToken]; split_ifs with h
  · rw [h]; exact ht
  · exact ⟨.unchanged _ _, .unchanged _ _, .unchanged _ _, .unchanged _ _, .unchanged _ _⟩

theorem TokenGuarded.of_buckets {v : Nat} {t t' : CAccountToken}
    (h1 : GuardedDelta v t.free_amount t'.free_amount)
    (h2 : GuardedDelta v t.staked_amount t'.staked_amount)
    (h3 : GuardedDelta v t.frozen_amount t'.frozen_amount)
    (h4 : GuardedDelta v t.voted_amount t'.voted_amount)
    (h5 : GuardedDelta v t.pledged_amount t'.pledged_amount) : TokenGuarded v t t' :=
  ⟨h1, h2, h3, h4, h5⟩

theorem CAccountToken.WF.of_lt {t : CAccountToken} (h1 : t.free_amount < U64)
    (h2 : t.staked_amount < U64) (h3 : t.frozen_amount < U64) (h4 : t.voted_amount < U64)
    (h5 : t.pledged_amount < U64) : t.WF :=
  ⟨h1, h2, h3, h4, h5⟩

theorem TokenGuarded.same (v : Nat) (t : CAccountToken) : TokenGuarded v t t :=
  ⟨.unchanged _ _, .unchanged _ _, .unchanged _ _, .unchanged _ _, .unchanged _ _⟩

set_option maxHeartbeats 4000000 in
/-- Single-call form of the guarded-subtraction property: the buckets of `this` and of the
peer after one `OperateBalance` call are guarded changes of the buckets before it, and all
remain 64-bit values. -/
theorem OperateBalance_guarded (this : CAccount) (sym : TokenSymbol) (op : BalanceOpType)
    (value : Nat) (rt : ReceiptType) (rs : ReceiptList) (p : PeerRef)
    (hthis : this.WF) (hp : p.WF) :
    let r := OperateBalance this sym op value rt rs p
    (∀ s, TokenGuarded value (this.GetToken s) (r.this.GetToken s)) ∧
    (∀ s, TokenGuarded value (p.GetToken this s) (r.peer.GetToken r.this s)) ∧
    r.this.WF ∧ r.peer.WF := by
  intro r
  obtain ⟨h1, h2, h3, h4, h5⟩ := hthis sym
  have hq : (p.GetToken this sym).WF := by
    cases p
    · exact ⟨U64_pos, U64_pos, U64_pos, U64_pos, U64_pos⟩
    · exact hthis sym
    · exact hp sym
  have hr : r = OperateBalance this sym op value rt rs p := rfl
  clear_value r
  cases op <;> cases p <;>
    simp only [OperateBalance, finishWithPeer, PeerRef.GetToken, PeerRef.keyid, PeerRef.WF,
      GetToken_touch, GetToken_SetToken_same, keyid_SetToken, keyid_touch, SetToken_SetToken,
      SetToken_touch] at hp hq hr
  all_goals split_ifs at hr
  all_goals subst hr
  all_goals simp only [PeerRef.GetToken, PeerRef.WF, GetToken_touch]
  all_goals obtain ⟨q1, q2, q3, q4, q5⟩ := hq
  all_goals refine ⟨?_, ?_, ?_, ?_⟩
  all_goals with_reducible first
    | exact True.intro
    | exact hp
    | exact CAccount.WF_touch hthis _
    | (intro s; exact TokenGuarded.same _ _)
    | (refine CAccount.WF_SetToken (by assumption) (CAccountToken.WF.of_lt ?_ ?_ ?_ ?_ ?_) _ <;>
        first | assumption | exact add64_lt _ _ | exact sub64_lt _ _)
    | (refine TokenGuarded.SetToken (TokenGuarded.of_buckets ?_ ?_ ?_ ?_ ?_) <;>
        first
          | exact .unchanged _ _
          | exact .add _ _
          | exact .sub (by assumption) (by assumption)
          | exact .add_sub (by assumption) (by assumption)
          | exact .sub_add (by assumption) (by assumption))

theorem Ledger.apply_step (w : Ledger) (c : Call) (hw : w.WF) :
    StepGuarded c.value w (w.apply c) ∧ (w.apply c).WF := by
  have hpw : (w.peerRef c).WF := by
    unfold Ledger.peerRef
    cases c.peer with
    | none => trivial
    | some j =>
      simp only
      split_ifs
      · trivial
      · exact hw j
  have h := OperateBalance_guarded (w.accounts c.account) c.tokenSymbol c.opType c.value
    c.receiptType w.receipts (w.peerRef c) (hw _) hpw
  simp only at h
  obtain ⟨g1, g2, w1, w2⟩ := h
  generalize hr : OperateBalance (w.accounts c.account) c.tokenSymbol c.opType c.value
    c.receiptType w.receipts (w.peerRef c) = r at g1 g2 w1 w2
  have hacc : ∀ i, (w.apply c).accounts i =
      if i = c.account then r.this
      else
        match r.peer with
        | .other acc => if c.peer = some i then acc else w.accounts i
        | _ => w.accounts i := by
    intro i; simp only [Ledger.apply, hr]
  refine ⟨?_, ?_⟩
  · intro i s
    rw [hacc i]
    by_cases hi : i = c.account
    · rw [if_pos hi, hi]; exact g1 s
    · rw [if_neg hi]
      cases hp : r.peer with
      | null => exact TokenGuarded.same _ _
      | self => exact TokenGuarded.same _ _
      | other acc =>
        simp only
        by_cases hj : c.peer = some i
        · rw [if_pos hj]
          have g := g2 s
          rw [hp] at g
          unfold Ledger.peerRef at g
          rw [hj] at g
          simp only [hi, if_false, PeerRef.GetToken] at g
          exact g
        · rw [if_neg hj]; exact TokenGuarded.same _ _
  · intro i
    rw [hacc i]
    by_cases hi : i = c.account
    · rw [if_pos hi]; exact w1
    · rw [if_neg hi]
      cases hp : r.peer with
      | null => exact hw i
      | self => exact hw i
      | other acc =>
        simp only
        by_cases hj : c.peer = some i
        · rw [if_pos hj]; rw [hp] at w2; exact w2
        · rw [if_neg hj]; exact hw i

/-- C1. Starting from any store of accounts whose buckets are `uint64_t` values, in any
sequence of `OperateBalance` calls (successful or failed, with or without a peer, the peer
possibly the account itself) every bucket of every account changes, at each call, only by
being left alone, by a 64-bit addition of the amount, or by an exact subtraction of the
amount made under `amount ≤ bucket`; no subtraction wraps below zero, and all buckets stay
64-bit values. -/
theorem OperateBalance_no_underflow (w : Ledger) (cs : List Call) (hw : w.WF) :
    RunGuarded w cs ∧ (w.run cs).WF := by
  induction cs generalizing w with
  | nil => exact ⟨trivial, hw⟩
  | cons c cs ih =>
    obtain ⟨h1, h2⟩ := Ledger.apply_step w c hw
    obtain ⟨h3, h4⟩ := ih (w.apply c) h2
    exact ⟨⟨h1, h3⟩, h4⟩

theorem wiccAccount_WF (k : Nat) (t : CAccountToken) (ht : t.WF) : (wiccAccount k t).WF := by
  intro s
  unfold CAccount.GetToken wiccAccount
  simp only
  split_ifs
  · exact ht
  · exact ⟨U64_pos, U64_pos, U64_pos, U64_pos, U64_pos⟩

theorem exampleLedger_WF : exampleLedger.WF := by
  intro i
  exact wiccAccount_WF i _ (by unfold CAccountToken.WF U64; norm_num)

/-- Witness for C1: the three-call run on the example store is guarded, and leaves the first
account with 500 free and 400 staked and the second with 1100 free. -/
theorem OperateBalance_no_underflow_witness :
    exampleLedger.WF ∧
    (RunGuarded exampleLedger exampleCalls ∧ (exampleLedger.run exampleCalls).WF) ∧
    ((exampleLedger.run exampleCalls).accounts 0).GetToken "WICC" =
      { free_amount := 500, staked_amount := 400 } ∧
    ((exampleLedger.run exampleCalls).accounts 1).GetToken "WICC" = { free_amount := 1100 } :=
  ⟨exampleLedger_WF, OperateBalance_no_underflow exampleLedger exampleCalls exampleLedger_WF,
    by decide, by decide⟩

/-! ## Two-account operations -/

/-- C2 (the code at the failing input). `ADD_FREE` of 10 `WICC` with a distinct peer that
holds only 5 free returns failure, yet the account's own free bucket has already been
raised from 0 to 10; the peer is untouched. -/
theorem OperateBalance_ADD_FREE_failure_mutates :
    (OperateBalance (wiccAccount 1 {}) "WICC" .ADD_FREE 10 (.code 0) []
        (.other (wiccAccount 2 { free_amount := 5 }))).ok = false ∧
    ((wiccAccount 1 {}).GetToken "WICC").free_amount = 0 ∧
    ((OperateBalance (wiccAccount 1 {}) "WICC" .ADD_FREE 10 (.code 0) []
        (.other (wiccAccount 2 { free_amount := 5 }))).this.GetToken "WICC").free_amount = 10 ∧
    ((OperateBalance (wiccAccount 1 {}) "WICC" .ADD_FREE 10 (.code 0) []
        (.other (wiccAccount 2 { free_amount := 5 }))).peer.GetToken (wiccAccount 1 {})
          "WICC").free_amount = 5 := by
  decide

/-- The sibling paths do keep failure free of effects: a failed `SUB_FREE` with a peer or a
failed `DEX_DEAL` leaves every bucket of the account and of the peer as it was. -/
theorem OperateBalance_SUB_FREE_DEX_DEAL_failure_pure (this : CAccount) (sym : TokenSymbol)
    (op : BalanceOpType) (value : Nat) (rt : ReceiptType) (rs : ReceiptList) (p : PeerRef)
    (hop : op = .SUB_FREE ∨ op = .DEX_DEAL)
    (hf : (OperateBalance this sym op value rt rs p).ok = false) (s : TokenSymbol) :
    (OperateBalance this sym op value rt rs p).this.GetToken s = this.GetToken s ∧
    (OperateBalance this sym op value rt rs p).peer.GetToken
      (OperateBalance this sym op value rt rs p).this s = p.GetToken this s := by
  generalize hr : OperateBalance this sym op value rt rs p = r at hf ⊢
  rcases hop with h | h <;> subst h <;> cases p <;>
    simp only [OperateBalance, finishWithPeer] at hr <;>
    split_ifs at hr <;> subst hr <;>
    first
      | (exfalso; revert hf; exact Bool.noConfusion)
      | exact ⟨GetToken_touch _ _ _, by simp only [PeerRef.GetToken, GetToken_touch]⟩

theorem beq_keyid_false {a b : Nat} (h : a ≠ b) : (a == b) = false := by
  simp [h]

/-- C3 (counterexample). A successful `SUB_FREE` of 10 to a distinct peer whose free bucket
holds `2 ^ 64 - 1`: the account's free drops from 10 to 0 and the peer's free wraps to 9,
so the sum of the two free buckets is not what it was. -/
theorem OperateBalance_transfer_sum_counterexample :
    (OperateBalance payer "WICC" .SUB_FREE 10 (.code 0) [] (.other fullPeer)).ok = true ∧
    ((OperateBalance payer "WICC" .SUB_FREE 10 (.code 0) [] (.other fullPeer)).this.GetToken
      "WICC").free_amount = 0 ∧
    ((OperateBalance payer "WICC" .SUB_FREE 10 (.code 0) [] (.other fullPeer)).peer.GetToken
      (OperateBalance payer "WICC" .SUB_FREE 10 (.code 0) [] (.other fullPeer)).this
      "WICC").free_amount = 9 ∧
    ((OperateBalance payer "WICC" .SUB_FREE 10 (.code 0) [] (.other fullPeer)).this.GetToken
      "WICC").free_amount +
    ((OperateBalance payer "WICC" .SUB_FREE 10 (.code 0) [] (.other fullPeer)).peer.GetToken
      (OperateBalance payer "WICC" .SUB_FREE 10 (.code 0) [] (.other fullPeer)).this
      "WICC").free_amount ≠
      (payer.GetToken "WICC").free_amount + (fullPeer.GetToken "WICC").free_amount := by
  decide

/-- C3 (amended). Between two distinct account objects with different key ids, all buckets
being 64-bit values: `SUB_FREE` with a peer succeeds exactly when the account's free is at
least the amount, `ADD_FREE` with a peer exactly when the peer's free is, `DEX_DEAL` exactly
when the account's frozen is; and when the call succeeds and the credited bucket plus the
amount is below `2 ^ 64`, the debited bucket drops by exactly the amount, the credited
bucket rises by exactly the amount, and their sum is unchanged. -/
theorem OperateBalance_transfer_conserves (this peer : CAccount) (sym : TokenSymbol)
    (value : Nat) (rt : ReceiptType) (rs : ReceiptList) (hthis : this.WF) (hpeer : peer.WF)
    (hk : this.keyid ≠ peer.keyid) :
    let a := this.GetToken sym
    let b := peer.GetToken sym
    let sub := OperateBalance this sym .SUB_FREE value rt rs (.other peer)
    let add := OperateBalance this sym .ADD_FREE value rt rs (.other peer)
    let dex := OperateBalance this sym .DEX_DEAL value rt rs (.other peer)
    ((sub.ok = true ↔ value ≤ a.free_amount) ∧
      (sub.ok = true → b.free_amount + value < U64 →
        (sub.this.GetToken sym).free_amount + value = a.free_amount ∧
        (sub.peer.GetToken sub.this sym).free_amount = b.free_amount + value ∧
        (sub.this.GetToken sym).free_amount + (sub.peer.GetToken sub.this sym).free_amount =
          a.free_amount + b.free_amount)) ∧
    ((add.ok = true ↔ value ≤ b.free_amount) ∧
      (add.ok = true → a.free_amount + value < U64 →
        (add.peer.GetToken add.this sym).free_amount + value = b.free_amount ∧
        (add.this.GetToken sym).free_amount = a.free_amount + value ∧
        (add.this.GetToken sym).free_amount + (add.peer.GetToken add.this sym).free_amount =
          a.free_amount + b.free_amount)) ∧
    ((dex.ok = true ↔ value ≤ a.frozen_amount) ∧
      (dex.ok = true → b.free_amount + value < U64 →
        (dex.this.GetToken sym).frozen_amount + value = a.frozen_amount ∧
        (dex.peer.GetToken dex.this sym).free_amount = b.free_amount + value ∧
        (dex.this.GetToken sym).frozen_amount + (dex.peer.GetToken dex.this sym).free_amount =
          a.frozen_amount + b.free_amount)) := by
  intro a b sub add dex
  obtain ⟨a1, -, a3, -, -⟩ := hthis sym
  obtain ⟨b1, -, -, -, -⟩ := hpeer sym
  have hkf := beq_keyid_false hk
  refine ⟨?_, ?_, ?_⟩
  · have hsub : sub = OperateBalance this sym .SUB_FREE value rt rs (.other peer) := rfl
    clear_value sub
    simp only [OperateBalance, finishWithPeer, hkf, PeerRef.GetToken, GetToken_touch] at hsub
    by_cases hv : a.free_amount < value
    · rw [if_neg (by simp), if_pos hv] at hsub
      subst hsub
      exact ⟨⟨fun h => Bool.noConfusion h, fun h => absurd h (by omega)⟩,
        fun h => Bool.noConfusion h⟩
    · rw [if_neg (by simp), if_neg hv] at hsub
      subst hsub
      have e1 := sub64_of_le (Nat.le_of_not_lt hv) a1
      refine ⟨⟨fun _ => Nat.le_of_not_lt hv, fun _ => rfl⟩, fun _ hb => ?_⟩
      simp only [PeerRef.GetToken, GetToken_SetToken_same]
      rw [e1, add64_of_lt hb]
      omega
  · have hadd : add = OperateBalance this sym .ADD_FREE value rt rs (.other peer) := rfl
    clear_value add
    simp only [OperateBalance, finishWithPeer, hkf, PeerRef.GetToken, GetToken_touch] at hadd
    by_cases hv : b.free_amount < value
    · rw [if_neg (by simp), if_pos hv] at hadd
      subst hadd
      exact ⟨⟨fun h => Bool.noConfusion h, fun h => absurd h (by omega)⟩,
        fun h => Bool.noConfusion h⟩
    · rw [if_neg (by simp), if_neg hv] at hadd
      subst hadd
      have e1 := sub64_of_le (Nat.le_of_not_lt hv) b1
      refine ⟨⟨fun _ => Nat.le_of_not_lt hv, fun _ => rfl⟩, fun _ hb => ?_⟩
      simp only [PeerRef.GetToken, GetToken_SetToken_same]
      rw [e1, add64_of_lt hb]
      omega
  · have hdex : dex = OperateBalance this sym .DEX_DEAL value rt rs (.other peer) := rfl
    clear_value dex
    simp only [OperateBalance, finishWithPeer, hkf, PeerRef.GetToken, GetToken_touch] at hdex
    by_cases hv : a.frozen_amount < value
    · rw [if_neg (by simp), if_pos hv] at hdex
      subst hdex
      exact ⟨⟨fun h => Bool.noConfusion h, fun h => absurd h (by omega)⟩,
        fun h => Bool.noConfusion h⟩
    · rw [if_neg (by simp), if_neg hv] at hdex
      subst hdex
      have e1 := sub64_of_le (Nat.le_of_not_lt hv) a3
      refine ⟨⟨fun _ => Nat.le_of_not_lt hv, fun _ => rfl⟩, fun _ hb => ?_⟩
      simp only [PeerRef.GetToken, GetToken_SetToken_same]
      rw [e1, add64_of_lt hb]
      omega

theorem small_WF {t : CAccountToken} (h1 : t.free_amount < 2 ^ 32)
    (h2 : t.staked_amount < 2 ^ 32) (h3 : t.frozen_amount < 2 ^ 32) (h4 : t.voted_amount < 2 ^ 32)
    (h5 : t.pledged_amount < 2 ^ 32) : t.WF := by
  unfold CAccountToken.WF U64
  omega

/-- Witness for C3: `alice` (1000 free, 50 frozen) and `bob` (5 free) with amount 30. -/
theorem OperateBalance_transfer_conserves_witness :
    alice.WF ∧ bob.WF ∧ alice.keyid ≠ bob.keyid ∧
    ((OperateBalance alice "WICC" .SUB_FREE 30 (.code 0) [] (.other bob)).ok = true ↔
      30 ≤ (alice.GetToken "WICC").free_amount) ∧
    ((OperateBalance alice "WICC" .SUB_FREE 30 (.code 0) [] (.other bob)).this.GetToken
      "WICC").free_amount = 970 :=
  ⟨wiccAccount_WF _ _ (small_WF (by decide) (by decide) (by decide) (by decide) (by decide)),
    wiccAccount_WF _ _ (small_WF (by decide) (by decide) (by decide) (by decide) (by decide)),
    by decide,
    (OperateBalance_transfer_conserves alice bob "WICC" 30 (.code 0) []
      (wiccAccount_WF _ _ (small_WF (by decide) (by decide) (by decide) (by decide) (by decide)))
      (wiccAccount_WF _ _ (small_WF (by decide) (by decide) (by decide) (by decide) (by decide)))
      (by decide)).1.1,
    by decide⟩

/-! ## Single-account moves -/

/-- C4 (counterexample). `STAKE` of 10 on an account whose staked bucket holds
`2 ^ 64 - 1` succeeds, and the staked bucket wraps to 9 instead of growing by 10. -/
theorem OperateBalance_STAKE_wrap_counterexample :
    (OperateBalance fullStaker "WICC" .STAKE 10 (.code 0) [] .null).ok = true ∧
    ((OperateBalance fullStaker "WICC" .STAKE 10 (.code 0) [] .null).this.GetToken
      "WICC").staked_amount = 9 ∧
    ((OperateBalance fullStaker "WICC" .STAKE 10 (.code 0) [] .null).this.GetToken
      "WICC").staked_amount ≠ (fullStaker.GetToken "WICC").staked_amount + 10 := by
  decide

/-- C4 (amended). For every account with 64-bit buckets, every symbol and amount, and each
of `STAKE`, `UNSTAKE`, `FREEZE`, `UNFREEZE`, `VOTE`, `UNVOTE`, `PLEDGE`, `UNPLEDGE` (called
without a peer) with its source and destination bucket: the call succeeds if and only if
the source bucket is at least the amount; on success the source bucket decreases by exactly
the amount, the destination bucket becomes destination plus amount modulo `2 ^ 64` (exactly
destination plus amount when that is below `2 ^ 64`), and the other three buckets are
unchanged. -/
theorem OperateBalance_single_account_move (this : CAccount) (sym : TokenSymbol)
    (op : BalanceOpType) (src dst : BalanceType) (value : Nat) (rt : ReceiptType) (rs : ReceiptList)
    (hthis : this.WF) (hop : specMove op = some (src, dst)) :
    let t := this.GetToken sym
    let r := OperateBalance this sym op value rt rs .null
    let t' := r.this.GetToken sym
    ∀ x y, t.bucket src = some x → t.bucket dst = some y →
      (r.ok = true ↔ value ≤ x) ∧
      (r.ok = true →
        t'.bucket src = some (x - value) ∧
        t'.bucket dst = some ((y + value) % U64) ∧
        (y + value < U64 → t'.bucket dst = some (y + value)) ∧
        (∀ b, b ≠ src → b ≠ dst → t'.bucket b = t.bucket b)) := by
  intro t r t' x y hx hy
  obtain ⟨a1, a2, a3, a4, a5⟩ := hthis sym
  have hr : r = OperateBalance this sym op value rt rs .null := rfl
  have ht' : t' = r.this.GetToken sym := rfl
  have ht : t = this.GetToken sym := rfl
  clear_value r t' t
  subst ht
  cases op <;> simp only [specMove, Option.some.injEq, Prod.mk.injEq, reduceCtorEq] at hop
  all_goals obtain ⟨rfl, rfl⟩ := hop
  all_goals simp only [CAccountToken.bucket, Option.some.injEq] at hx hy
  all_goals subst hx hy
  all_goals simp only [OperateBalance, GetToken_touch, SetToken_touch] at hr
  all_goals rw [if_neg (by simp)] at hr
  all_goals split_ifs at hr with hv
  all_goals subst hr
  all_goals simp only [GetToken_SetToken_same, GetToken_touch] at ht'
  all_goals subst ht'
  all_goals first
    | exact ⟨⟨fun h => Bool.noConfusion h, fun h => absurd h (by omega)⟩,
        fun h => Bool.noConfusion h⟩
    | (refine ⟨⟨fun _ => Nat.le_of_not_lt hv, fun _ => rfl⟩, fun _ => ⟨?_, ?_, ?_, ?_⟩⟩
       · simp only [CAccountToken.bucket]
         rw [sub64_of_le (Nat.le_of_not_lt hv) (by assumption)]
       · rfl
       · intro h
         simp only [CAccountToken.bucket, add64]
         rw [Nat.mod_eq_of_lt h]
       · intro b hb1 hb2
         cases b <;> first | rfl | exact absurd rfl hb1 | exact absurd rfl hb2)

/-- Witness for C4: `free(WICC) = 1,000,000,000` and `STAKE 400,000,000` succeed with
`free = 600,000,000` and `staked = 400,000,000`. -/
theorem OperateBalance_single_account_move_witness :
    staker.WF ∧ specMove .STAKE = some (.FREE_VALUE, .STAKED_VALUE) ∧
    ((OperateBalance staker "WICC" .STAKE 400000000 (.code 0) [] .null).ok = true ↔
      400000000 ≤ 1000000000) ∧
    (OperateBalance staker "WICC" .STAKE 400000000 (.code 0) [] .null).ok = true ∧
    (OperateBalance staker "WICC" .STAKE 400000000 (.code 0) [] .null).this.GetToken "WICC" =
      { free_amount := 600000000, staked_amount := 400000000 } :=
  ⟨wiccAccount_WF _ _ (small_WF (by decide) (by decide) (by decide) (by decide) (by decide)),
    rfl,
    ((OperateBalance_single_account_move staker "WICC" .STAKE .FREE_VALUE .STAKED_VALUE
      400000000 (.code 0) []
      (wiccAccount_WF _ _ (small_WF (by decide) (by decide) (by decide) (by decide) (by decide)))
      rfl) 1000000000 0 rfl rfl).1,
    by decide, by decide⟩

/-! ## Delegate votes -/

theorem OperateBalance_VOTE_null (this : CAccount) (sym : TokenSymbol) (v : Nat)
    (rt : ReceiptType) (rs : ReceiptList) :
    OperateBalance this sym .VOTE v rt rs .null =
      if (this.GetToken sym).free_amount < v then ⟨false, this.touch sym, rs, .null⟩
      else ⟨true, this.SetToken sym
        { this.GetToken sym with
          free_amount := sub64 (this.GetToken sym).free_amount v
          voted_amount := add64 (this.GetToken sym).voted_amount v },
        rs ++ [⟨rt, .VOTE, .keyid this.keyid, .null, sym, v⟩], .null⟩ := by
  simp only [OperateBalance, GetToken_touch, SetToken_touch]
  rw [if_neg (by simp)]

theorem OperateBalance_UNVOTE_null (this : CAccount) (sym : TokenSymbol) (v : Nat)
    (rt : ReceiptType) (rs : ReceiptList) :
    OperateBalance this sym .UNVOTE v rt rs .null =
      if (this.GetToken sym).voted_amount < v then ⟨false, this.touch sym, rs, .null⟩
      else ⟨true, this.SetToken sym
        { this.GetToken sym with
          free_amount := add64 (this.GetToken sym).free_amount v
          voted_amount := sub64 (this.GetToken sym).voted_amount v },
        rs ++ [⟨rt, .UNVOTE, .keyid this.keyid, .null, sym, v⟩], .null⟩ := by
  simp only [OperateBalance, GetToken_touch, SetToken_touch]
  rw [if_neg (by simp)]

theorem OperateBalance_ADD_FREE_null (this : CAccount) (sym : TokenSymbol) (v : Nat)
    (rt : ReceiptType) (rs : ReceiptList) :
    OperateBalance this sym .ADD_FREE v rt rs .null =
      ⟨true, this.SetToken sym
        { this.GetToken sym with free_amount := add64 (this.GetToken sym).free_amount v },
        rs ++ [⟨rt, .ADD_FREE, .null, .keyid this.keyid, sym, v⟩], .null⟩ := by
  simp only [OperateBalance, GetToken_touch, SetToken_touch]
  rw [if_neg (by simp)]

theorem foldl_add64_votes (l : List CCandidateReceivedVote) (acc : Nat) :
    l.foldl (fun acc vote => add64 acc vote.voted_bcoins) acc % U64 =
      (acc + (l.map (·.voted_bcoins)).sum) % U64 := by
  induction l generalizing acc with
  | nil => simp
  | cons x xs ih =>
    simp only [List.foldl_cons, List.map_cons, List.sum_cons]
    rw [ih, add64, Nat.mod_add_mod, Nat.add_assoc]

theorem foldl_add64_votes_lt (l : List CCandidateReceivedVote) (acc : Nat) (h : acc < U64) :
    l.foldl (fun acc vote => add64 acc vote.voted_bcoins) acc < U64 := by
  induction l generalizing acc with
  | nil => exact h
  | cons x xs ih => exact ih _ (add64_lt _ _)

/-- From R2 on, `newTotalVotes` is the sum of the entries modulo `2 ^ 64`. -/
theorem newTotalVotes_sum (v : FeatureForkVersionEnum) (l : List CCandidateReceivedVote)
    (hv : v ≠ .MAJOR_VER_R1) :
    newTotalVotes v l = (l.map (·.voted_bcoins)).sum % U64 := by
  cases l with
  | nil => simp [newTotalVotes]
  | cons x xs =>
    have hr : v.rank ≥ FeatureForkVersionEnum.MAJOR_VER_R2.rank := by
      cases v
      · exact absurd rfl hv
      · decide
      · decide
    simp only [newTotalVotes, if_pos hr]
    have h1 := foldl_add64_votes (x :: xs) 0
    have h2 := foldl_add64_votes_lt (x :: xs) 0 U64_pos
    rw [Nat.mod_eq_of_lt h2, Nat.zero_add] at h1
    exact h1

theorem newTotalVotes_lt (v : FeatureForkVersionEnum) (l : List CCandidateReceivedVote)
    (hl : ∀ e ∈ l, e.voted_bcoins < U64) : newTotalVotes v l < U64 := by
  cases l with
  | nil => exact U64_pos
  | cons x xs =>
    simp only [newTotalVotes]
    split_ifs
    · exact foldl_add64_votes_lt _ _ U64_pos
    · exact hl x (List.mem_cons_self _ _)

instance : IsTotal CCandidateReceivedVote votesDescending :=
  ⟨fun a b => by unfold votesDescending; omega⟩

instance : IsTrans CCandidateReceivedVote votesDescending :=
  ⟨fun a b c h1 h2 => by unfold votesDescending at *; omega⟩

theorem sortCandidateVotes_sorted (l : List CCandidateReceivedVote) :
    (sortCandidateVotes l).Sorted votesDescending :=
  List.sorted_insertionSort _ l

theorem sortCandidateVotes_perm (l : List CCandidateReceivedVote) :
    (sortCandidateVotes l).Perm l :=
  List.perm_insertionSort _ l

theorem GetToken_voteTime (x : CAccount) (h t : Nat) (s : TokenSymbol) :
    ({ x with last_vote_height := h, last_vote_epoch := t } : CAccount).GetToken s =
      x.GetToken s := rfl

theorem WICC_ne_WGRT : SYMB.WICC ≠ SYMB.WGRT := by decide

theorem rank_R1 (v : FeatureForkVersionEnum) :
    ¬ v.rank ≥ FeatureForkVersionEnum.MAJOR_VER_R2.rank ↔ v = .MAJOR_VER_R1 := by
  cases v <;> simp [FeatureForkVersionEnum.rank]

/-- What the interest step leaves in the `WICC` token when it returns success: the voted
bucket as it was, the free bucket credited with the bcoin interest at R1 only. -/
theorem collectVoteInterest_ok (env : VoteEnv) (a : CAccount)
    (votes : List CCandidateReceivedVote) (last h t : Nat) (rs : ReceiptList) (r : VoteResult)
    (hr : collectVoteInterest env a votes last h t rs = some r) (hok : r.ok = true) :
    r.candidateVotes = votes ∧
    (r.this.GetToken SYMB.WICC).voted_amount = (a.GetToken SYMB.WICC).voted_amount ∧
    (env.GetFeatureForkVersion h ≠ .MAJOR_VER_R1 →
      (r.this.GetToken SYMB.WICC).free_amount = (a.GetToken SYMB.WICC).free_amount) ∧
    (env.GetFeatureForkVersion h = .MAJOR_VER_R1 →
      (r.this.GetToken SYMB.WICC).free_amount =
        add64 (a.GetToken SYMB.WICC).free_amount (a.ComputeVoteBcoinInterest env last h)) := by
  unfold collectVoteInterest at hr
  simp only [OperateBalance_ADD_FREE_null, Bool.not_true, Bool.false_eq_true, if_false] at hr
  by_cases hv : (env.GetFeatureForkVersion h).rank ≥ FeatureForkVersionEnum.MAJOR_VER_R2.rank
  · have hne : env.GetFeatureForkVersion h ≠ .MAJOR_VER_R1 := fun e => by
      rw [e] at hv; exact absurd hv (by decide)
    rw [if_pos hv] at hr
    cases hf : a.ComputeVoteFcoinInterest env last t with
    | none => rw [hf] at hr; exact absurd hr (by simp)
    | some f =>
      rw [hf] at hr
      simp only at hr
      split_ifs at hr
      · simp only [Option.some.injEq] at hr
        subst hr
        refine ⟨rfl, ?_, fun _ => ?_, fun e => absurd e hne⟩
        · rw [GetToken_voteTime, GetToken_SetToken_ne _ _ WICC_ne_WGRT]
        · rw [GetToken_voteTime, GetToken_SetToken_ne _ _ WICC_ne_WGRT]
      · simp only [Option.some.injEq] at hr
        subst hr
        exact ⟨rfl, rfl, fun _ => rfl, fun e => absurd e hne⟩
  · have he : env.GetFeatureForkVersion h = .MAJOR_VER_R1 := (rank_R1 _).1 hv
    rw [if_neg hv] at hr
    split_ifs at hr
    · simp only [Option.some.injEq] at hr
      subst hr
      exact absurd hok (by simp)
    · simp only [Option.some.injEq] at hr
      subst hr
      refine ⟨rfl, ?_, fun hne => absurd he hne, fun _ => ?_⟩
      · rw [GetToken_voteTime, GetToken_SetToken_same]
      · rw [GetToken_voteTime, GetToken_SetToken_same]

theorem forall_mem_modify {α : Type} (l : List α) (f : α → α) (i : Nat) (P : α → Prop)
    (h : ∀ e ∈ l, P e) (hf : ∀ e, P (f e)) : ∀ e ∈ l.modify f i, P e := by
  induction l generalizing i with
  | nil => intro e he; cases i <;> simp at he
  | cons x xs ih =>
    intro e he
    cases i with
    | zero =>
      simp at he
      rcases he with rfl | he
      · exact hf _
      · exact h e (List.mem_cons_of_mem _ he)
    | succ n =>
      simp at he
      rcases he with rfl | he
      · exact h _ (List.mem_cons_self _ _)
      · exact ih n (fun e he => h e (List.mem_cons_of_mem _ he)) e he

/-- Entries stay 64-bit values through one vote. -/
theorem applyCandidateVote_lt (env : VoteEnv) (l : List CCandidateReceivedVote)
    (vote : CCandidateVote) (hl : ∀ e ∈ l, e.voted_bcoins < U64) (hv : vote.voted_bcoins < U64) :
    ∀ e ∈ (applyCandidateVote env l vote).2, e.voted_bcoins < U64 := by
  unfold applyCandidateVote
  cases vote.vote_type <;> simp only
  · exact hl
  · cases find_if (candidateMatches env vote.candidate_uid) l with
    | none =>
      simp only
      split_ifs
      · exact hl
      · intro e he
        rcases List.mem_append.1 he with h | h
        · exact hl e h
        · rw [List.mem_singleton.1 h]; exact hv
    | some i =>
      simp only
      split_ifs
      · exact hl
      · exact forall_mem_modify l _ i _ hl (fun _ => add64_lt _ _)
      · exact forall_mem_modify l _ i _ hl (fun _ => add64_lt _ _)
  · cases find_if (candidateMatches env vote.candidate_uid) l with
    | none => exact hl
    | some i =>
      simp only
      split_ifs
      · exact hl
      · exact hl
      · intro e he
        exact forall_mem_modify l _ i _ hl (fun _ => sub64_lt _ _) e (List.mem_of_mem_eraseIdx he)
      · exact forall_mem_modify l _ i _ hl (fun _ => sub64_lt _ _)

theorem applyCandidateVotes_lt (env : VoteEnv) (l : List CCandidateReceivedVote)
    (votes : List CCandidateVote) (hl : ∀ e ∈ l, e.voted_bcoins < U64)
    (hv : ∀ v ∈ votes, v.voted_bcoins < U64) :
    ∀ e ∈ (applyCandidateVotes env l votes).2, e.voted_bcoins < U64 := by
  induction votes generalizing l with
  | nil => exact hl
  | cons v vs ih =>
    unfold applyCandidateVotes
    have h1 := applyCandidateVote_lt env l v hl (hv v (List.mem_cons_self _ _))
    rcases hx : applyCandidateVote env l v with ⟨b, next⟩
    rw [hx] at h1
    cases b
    · exact h1
    · exact ih next h1 (fun x hx => hv x (List.mem_cons_of_mem _ hx))

/-- The shape of a successful `ProcessCandidateVotes` run: the list returned is the sorted
list, the voted bucket is the `newTotalVotes` of it, and the free bucket moved by the
opposite amount before any interest. -/
theorem ProcessCandidateVotes_core (env : VoteEnv) (this : CAccount)
    (votesIn : List CCandidateVote) (votesInOut : List CCandidateReceivedVote)
    (h t : Nat) (rs : ReceiptList) (r : VoteResult)
    (hthis : this.WF) (hIn : ∀ v ∈ votesIn, v.voted_bcoins < U64)
    (hInOut : ∀ e ∈ votesInOut, e.voted_bcoins < U64)
    (hr : ProcessCandidateVotes env this votesIn votesInOut h t rs = some r)
    (hok : r.ok = true) :
    ∃ new free1,
      new = newTotalVotes (env.GetFeatureForkVersion h) r.candidateVotes ∧
      r.candidateVotes.Sorted votesDescending ∧
      (r.this.GetToken SYMB.WICC).voted_amount = new ∧
      ((this.GetToken SYMB.WICC).voted_amount < new →
        new - (this.GetToken SYMB.WICC).voted_amount ≤ (this.GetToken SYMB.WICC).free_amount ∧
        free1 = (this.GetToken SYMB.WICC).free_amount -
          (new - (this.GetToken SYMB.WICC).voted_amount)) ∧
      (new < (this.GetToken SYMB.WICC).voted_amount →
        free1 = add64 (this.GetToken SYMB.WICC).free_amount
          ((this.GetToken SYMB.WICC).voted_amount - new)) ∧
      (new = (this.GetToken SYMB.WICC).voted_amount →
        free1 = (this.GetToken SYMB.WICC).free_amount) ∧
      (env.GetFeatureForkVersion h ≠ .MAJOR_VER_R1 →
        (r.this.GetToken SYMB.WICC).free_amount = free1) ∧
      (env.GetFeatureForkVersion h = .MAJOR_VER_R1 →
        (r.this.GetToken SYMB.WICC).free_amount =
          add64 free1 (this.ComputeVoteBcoinInterest env
            (this.GetToken SYMB.WICC).voted_amount h)) := by
  obtain ⟨f1, -, -, f4, -⟩ := hthis SYMB.WICC
  unfold ProcessCandidateVotes at hr
  split_ifs at hr with hh
  · simp only [Option.some.injEq] at hr; subst hr; exact absurd hok (by simp)
  simp only at hr
  have hlt := applyCandidateVotes_lt env votesInOut votesIn hInOut hIn
  rcases hx : applyCandidateVotes env votesInOut votesIn with ⟨b, votes⟩
  rw [hx] at hr hlt
  cases b
  · simp only [Option.some.injEq] at hr; subst hr; exact absurd hok (by simp)
  simp only at hr hlt
  have hsl : ∀ e ∈ sortCandidateVotes votes, e.voted_bcoins < U64 := fun e he =>
    hlt e ((sortCandidateVotes_perm votes).mem_iff.1 he)
  have hnew := newTotalVotes_lt (env.GetFeatureForkVersion h) _ hsl
  have hsorted := sortCandidateVotes_sorted votes
  generalize sortCandidateVotes votes = sorted at hr hnew hsorted
  generalize hN : newTotalVotes (env.GetFeatureForkVersion h) sorted = N at hr hnew
  generalize hO : (this.GetToken SYMB.WICC).voted_amount = old at hr f4 ⊢
  generalize hF : (this.GetToken SYMB.WICC).free_amount = free at f1 ⊢
  have hsame : ∀ (s : TokenSymbol) (tk : CAccountToken),
      (this.SetToken s tk).ComputeVoteBcoinInterest env old h =
        this.ComputeVoteBcoinInterest env old h := fun _ _ => rfl
  split_ifs at hr with h1 h2 h3 h4
  · -- VOTE failed
    simp only [Option.some.injEq] at hr; subst hr
    rw [OperateBalance_VOTE_null] at h2 hok
    split_ifs at h2 hok
  · -- VOTE succeeded
    rw [OperateBalance_VOTE_null] at h2 hr
    rw [hF, hO] at h2 hr
    by_cases hfv : free < N - old
    · rw [if_pos hfv] at h2; simp at h2
    · rw [if_neg hfv] at hr
      simp only at hr
      obtain ⟨c1, c2, c3, c4⟩ := collectVoteInterest_ok env _ sorted old h t _ r hr hok
      rw [GetToken_SetToken_same] at c2 c3 c4
      simp only at c2 c3 c4
      rw [hsame] at c4
      have e1 : add64 old (N - old) = N := by
        unfold add64; rw [Nat.add_sub_cancel' (by omega), Nat.mod_eq_of_lt hnew]
      have e2 : sub64 free (N - old) = free - (N - old) := sub64_of_le (by omega) f1
      rw [e1] at c2
      rw [e2] at c3 c4
      refine ⟨N, free - (N - old), ?_, ?_, c2, ?_, ?_, ?_, c3, c4⟩
      · rw [c1, hN]
      · rw [c1]; exact hsorted
      · intro _; exact ⟨by omega, rfl⟩
      · intro hc; omega
      · intro hc; omega
  · -- UNVOTE failed
    simp only [Option.some.injEq] at hr; subst hr
    rw [OperateBalance_UNVOTE_null] at h4 hok
    split_ifs at h4 hok
  · -- UNVOTE succeeded
    rw [OperateBalance_UNVOTE_null] at h4 hr
    rw [hF, hO] at h4 hr
    rw [if_neg (by omega)] at hr
    simp only at hr
    obtain ⟨c1, c2, c3, c4⟩ := collectVoteInterest_ok env _ sorted old h t _ r hr hok
    rw [GetToken_SetToken_same] at c2 c3 c4
    simp only at c2 c3 c4
    rw [hsame] at c4
    have e1 : sub64 old (old - N) = N := by
      rw [sub64_of_le (by omega) f4]; omega
    rw [e1] at c2
    refine ⟨N, add64 free (old - N), ?_, ?_, c2, ?_, ?_, ?_, c3, c4⟩
    · rw [c1, hN]
    · rw [c1]; exact hsorted
    · intro hc; omega
    · intro _; rfl
    · intro hc; omega
  · -- unchanged total
    obtain ⟨c1, c2, c3, c4⟩ := collectVoteInterest_ok env _ sorted old h t _ r hr hok
    rw [hO] at c2
    rw [hF] at c3 c4
    have hNO : N = old := by omega
    refine ⟨N, free, ?_, ?_, by rw [c2, hNO], ?_, ?_, ?_, c3, c4⟩
    · rw [c1, hN]
    · rw [c1]; exact hsorted
    · intro hc; omega
    · intro hc; omega
    · intro _; rfl

/-- C5 (counterexample). At R2 an account with no `WICC` at all casts two first-time votes
of `2 ^ 63` each: the call succeeds, the list holds both entries, whose votes sum to
`2 ^ 64`, and the voted bucket is 0, the 64-bit running sum having wrapped. -/
theorem ProcessCandidateVotes_sum_wraps_counterexample :
    ∃ r, ProcessCandidateVotes envR2 (wiccAccount 1 {}) hugeVotes [] 10 10 [] = some r ∧
      r.ok = true ∧
      r.candidateVotes = [⟨.regid 1, 2 ^ 63⟩, ⟨.regid 2, 2 ^ 63⟩] ∧
      (r.candidateVotes.map (·.voted_bcoins)).sum = 2 ^ 64 ∧
      (r.this.GetToken SYMB.WICC).voted_amount = 0 ∧
      (r.this.GetToken SYMB.WICC).voted_amount ≠ (r.candidateVotes.map (·.voted_bcoins)).sum :=
  ⟨_, rfl, by decide, by decide, by decide, by decide, by decide⟩

/-- C5 (amended). After every successful `ProcessCandidateVotes` call (account and votes
holding 64-bit values) the returned candidate list is sorted by votes, descending, and the
account's `WICC` voted bucket equals its new vote total: 0 when the list is empty, the sum
of all entries' votes modulo `2 ^ 64` from R2 on, the votes of the first entry, which is
the largest, at R1. The `WICC` free bucket is what the `VOTE` or `UNVOTE` of the difference
leaves (`free - (new - old)` with `new - old ≤ free` on an increase, `free + (old - new)`
in 64 bits on a decrease), to which at R1 the bcoin vote interest is then added. -/
theorem ProcessCandidateVotes_voted_total (env : VoteEnv) (this : CAccount)
    (votesIn : List CCandidateVote) (votesInOut : List CCandidateReceivedVote)
    (h t : Nat) (rs : ReceiptList) (r : VoteResult)
    (hthis : this.WF) (hIn : ∀ v ∈ votesIn, v.voted_bcoins < U64)
    (hInOut : ∀ e ∈ votesInOut, e.voted_bcoins < U64)
    (hr : ProcessCandidateVotes env this votesIn votesInOut h t rs = some r)
    (hok : r.ok = true) :
    let old := (this.GetToken SYMB.WICC).voted_amount
    let free := (this.GetToken SYMB.WICC).free_amount
    let new := (r.this.GetToken SYMB.WICC).voted_amount
    let afterVote := if old ≤ new then free - (new - old) else add64 free (old - new)
    r.candidateVotes.Sorted votesDescending ∧
    (r.candidateVotes = [] → new = 0) ∧
    (env.GetFeatureForkVersion h ≠ .MAJOR_VER_R1 →
      new = (r.candidateVotes.map (·.voted_bcoins)).sum % U64) ∧
    (env.GetFeatureForkVersion h = .MAJOR_VER_R1 →
      ∀ first rest, r.candidateVotes = first :: rest →
        new = first.voted_bcoins ∧ ∀ e ∈ r.candidateVotes, e.voted_bcoins ≤ first.voted_bcoins) ∧
    (old ≤ new → new - old ≤ free) ∧
    (env.GetFeatureForkVersion h ≠ .MAJOR_VER_R1 →
      (r.this.GetToken SYMB.WICC).free_amount = afterVote) ∧
    (env.GetFeatureForkVersion h = .MAJOR_VER_R1 →
      (r.this.GetToken SYMB.WICC).free_amount =
        add64 afterVote (this.ComputeVoteBcoinInterest env old h)) := by
  intro old free new afterVote
  obtain ⟨N, free1, hN, hsorted, hv, g1, g2, g3, g4, g5⟩ :=
    ProcessCandidateVotes_core env this votesIn votesInOut h t rs r hthis hIn hInOut hr hok
  have hnew : new = N := hv
  have hafter : afterVote = free1 := by
    show (if old ≤ new then free - (new - old) else add64 free (old - new)) = free1
    rw [hnew]
    by_cases hc : old ≤ N
    · rw [if_pos hc]
      rcases Nat.lt_or_eq_of_le hc with hlt | heq
      · exact (g1 hlt).2.symm
      · rw [g3 heq.symm, ← heq, Nat.sub_self, Nat.sub_zero]
    · rw [if_neg hc]
      exact (g2 (Nat.lt_of_not_le hc)).symm
  refine ⟨hsorted, ?_, ?_, ?_, ?_, ?_, ?_⟩
  · intro he
    rw [hnew, hN, he]; rfl
  · intro hne
    rw [hnew, hN]; exact newTotalVotes_sum _ _ hne
  · intro he first rest hl
    have hrk : ¬ (env.GetFeatureForkVersion h).rank ≥ FeatureForkVersionEnum.MAJOR_VER_R2.rank :=
      (rank_R1 _).2 he
    refine ⟨?_, ?_⟩
    · rw [hnew, hN, hl]
      simp only [newTotalVotes, if_neg hrk]
    · intro e hmem
      rw [hl] at hmem hsorted
      rcases List.mem_cons.1 hmem with h1 | h1
      · rw [h1]
      · exact List.rel_of_sorted_cons hsorted e h1
  · intro hc
    rw [hnew] at hc ⊢
    rcases Nat.lt_or_eq_of_le hc with hlt | heq
    · exact (g1 hlt).1
    · rw [← heq, Nat.sub_self]; exact Nat.zero_le _
  · intro hne; rw [hafter]; exact g4 hne
  · intro he; rw [hafter]; exact g5 he

/-- Witness for C5: at R2 an account with 1000 free `WICC` casts first-time votes of 300
and 500; the list comes back as `[500, 300]`, voted is 800 and free is 200. -/
theorem ProcessCandidateVotes_voted_total_witness :
    ∃ r, ProcessCandidateVotes envR2 (wiccAccount 1 { free_amount := 1000 }) smallVotes []
        10 10 [] = some r ∧ r.ok = true ∧
      r.candidateVotes = [⟨.regid 2, 500⟩, ⟨.regid 1, 300⟩] ∧
      (r.this.GetToken SYMB.WICC).voted_amount = 800 ∧
      (r.this.GetToken SYMB.WICC).free_amount = 200 ∧
      (r.this.GetToken SYMB.WICC).voted_amount =
        (r.candidateVotes.map (·.voted_bcoins)).sum % U64 :=
  ⟨_, rfl, by decide, by decide, by decide, by decide,
    (ProcessCandidateVotes_voted_total envR2 (wiccAccount 1 { free_amount := 1000 }) smallVotes
      [] 10 10 [] _
      (wiccAccount_WF _ _ (small_WF (by decide) (by decide) (by decide) (by decide) (by decide)))
      (by decide) (by decide) rfl (by decide)).2.2.1 (by decide)⟩

/-! ## `double` rounding is monotone -/

theorem ilog2Aux_eq (fuel n : Nat) (h : n ≤ fuel) : ilog2Aux fuel n = Nat.log2 n := by
  induction fuel generalizing n with
  | zero =>
    have : n = 0 := by omega
    subst this
    rw [Nat.log2]; simp [ilog2Aux]
  | succ f ih =>
    rw [Nat.log2, ilog2Aux]
    by_cases h2 : n < 2
    · have h3 : ¬ 2 ≤ n := by omega
      simp [h2, h3]
    · simp [h2]
      rw [if_pos (by omega)]
      congr 1
      exact ih _ (by omega)

theorem ilog2_eq (n : Nat) : ilog2 n = Nat.log2 n := ilog2Aux_eq n n (le_refl n)

theorem ilog2_le {n : Nat} (h : n ≠ 0) : 2 ^ ilog2 n ≤ n := by
  rw [ilog2_eq]; exact Nat.log2_self_le h

theorem lt_ilog2 (n : Nat) : n < 2 ^ (ilog2 n + 1) := by
  rw [ilog2_eq]; exact Nat.lt_log2_self

theorem binExp_le {a b : Nat} (ha : a ≠ 0) (hb : b ≠ 0) :
    (2 : ℚ) ^ binExp a b ≤ (a : ℚ) / b := by
  have hb' : (0 : ℚ) < b := by exact_mod_cast Nat.pos_of_ne_zero hb
  have h2 : (0 : ℚ) < 2 := by norm_num
  unfold binExp
  split_ifs with hi
  · rw [sub_zero, zpow_sub₀ (by norm_num), zpow_natCast, zpow_natCast, div_le_div_iff₀ (by positivity) hb']
    have : ((b * 2 ^ ilog2 a : ℕ) : ℚ) ≤ ((a * 2 ^ ilog2 b : ℕ) : ℚ) := by exact_mod_cast hi
    push_cast at this
    linarith
  · have e : (ilog2 a : ℤ) - ilog2 b - 1 = (ilog2 a : ℤ) - ((ilog2 b + 1 : ℕ) : ℤ) := by push_cast; ring
    rw [e, zpow_sub₀ (by norm_num), zpow_natCast, zpow_natCast, div_le_div_iff₀ (by positivity) hb']
    have h1 : ((2 ^ ilog2 a : ℕ) : ℚ) ≤ a := by exact_mod_cast ilog2_le ha
    have h3 : ((b : ℕ) : ℚ) ≤ ((2 ^ (ilog2 b + 1) : ℕ) : ℚ) := by exact_mod_cast (lt_ilog2 b).le
    push_cast at h1 h3
    calc (2 : ℚ) ^ ilog2 a * b ≤ a * b := by gcongr
      _ ≤ a * 2 ^ (ilog2 b + 1) := by gcongr

theorem lt_binExp {a b : Nat} (ha : a ≠ 0) (hb : b ≠ 0) :
    (a : ℚ) / b < (2 : ℚ) ^ (binExp a b + 1) := by
  have hb' : (0 : ℚ) < b := by exact_mod_cast Nat.pos_of_ne_zero hb
  unfold binExp
  split_ifs with hi
  · have e : (ilog2 a : ℤ) - ilog2 b - 0 + 1 = ((ilog2 a + 1 : ℕ) : ℤ) - (ilog2 b : ℤ) := by
      push_cast; ring
    rw [e, zpow_sub₀ (by norm_num), zpow_natCast, zpow_natCast, div_lt_div_iff₀ hb' (by positivity)]
    have h1 : ((a : ℕ) : ℚ) < ((2 ^ (ilog2 a + 1) : ℕ) : ℚ) := by exact_mod_cast lt_ilog2 a
    have h3 : ((2 ^ ilog2 b : ℕ) : ℚ) ≤ b := by exact_mod_cast ilog2_le hb
    push_cast at h1 h3
    calc (a : ℚ) * 2 ^ ilog2 b ≤ a * b := by gcongr
      _ < 2 ^ (ilog2 a + 1) * b := by gcongr
  · have e : (ilog2 a : ℤ) - ilog2 b - 1 + 1 = (ilog2 a : ℤ) - (ilog2 b : ℤ) := by ring
    rw [e, zpow_sub₀ (by norm_num), zpow_natCast, zpow_natCast, div_lt_div_iff₀ hb' (by positivity)]
    have : ((a * 2 ^ ilog2 b : ℕ) : ℚ) < ((b * 2 ^ ilog2 a : ℕ) : ℚ) := by
      exact_mod_cast Nat.lt_of_not_le hi
    push_cast at this
    linarith


theorem roundHalfEven_ge (n d : Nat) : n / d ≤ roundHalfEven n d := by
  unfold roundHalfEven; split_ifs <;> omega

theorem roundHalfEven_le (n d : Nat) : roundHalfEven n d ≤ n / d + 1 := by
  unfold roundHalfEven; split_ifs <;> omega

theorem div_le_div_of_cross {n1 d1 n2 d2 : Nat} (h1 : d1 ≠ 0) (h2 : d2 ≠ 0)
    (h : n1 * d2 ≤ n2 * d1) : n1 / d1 ≤ n2 / d2 := by
  rw [Nat.le_div_iff_mul_le (Nat.pos_of_ne_zero h2)]
  have e1 : n1 / d1 * d1 ≤ n1 := Nat.div_mul_le_self n1 d1
  have : n1 / d1 * d2 * d1 ≤ n2 * d1 := by
    calc n1 / d1 * d2 * d1 = n1 / d1 * d1 * d2 := by ring
      _ ≤ n1 * d2 := Nat.mul_le_mul_right _ e1
      _ ≤ n2 * d1 := h
  exact Nat.le_of_mul_le_mul_right this (Nat.pos_of_ne_zero h1)

/-- Round-half-even is monotone in the value `n / d`. -/
theorem roundHalfEven_mono {n1 d1 n2 d2 : Nat} (h1 : d1 ≠ 0) (h2 : d2 ≠ 0)
    (h : n1 * d2 ≤ n2 * d1) : roundHalfEven n1 d1 ≤ roundHalfEven n2 d2 := by
  have hM := div_le_div_of_cross h1 h2 h
  rcases Nat.lt_or_eq_of_le hM with hlt | heq
  · calc roundHalfEven n1 d1 ≤ n1 / d1 + 1 := roundHalfEven_le _ _
      _ ≤ n2 / d2 := hlt
      _ ≤ roundHalfEven n2 d2 := roundHalfEven_ge _ _
  · have e1 := Nat.div_add_mod n1 d1
    have e2 := Nat.div_add_mod n2 d2
    have r1 := Nat.mod_lt n1 (Nat.pos_of_ne_zero h1)
    have r2 := Nat.mod_lt n2 (Nat.pos_of_ne_zero h2)
    -- the remainders compare like the values
    have hR : n1 % d1 * d2 ≤ n2 % d2 * d1 := by
      have : (d1 * (n1 / d1) + n1 % d1) * d2 ≤ (d2 * (n2 / d2) + n2 % d2) * d1 := by
        rw [e1, e2]; exact h
      rw [heq] at this
      nlinarith
    unfold roundHalfEven
    rw [heq]
    generalize n1 % d1 = R1 at *
    generalize n2 % d2 = R2 at *
    generalize n2 / d2 = M at *
    split_ifs with c1 c2 c3 c4 c5 c6 c7 c8 c9 <;> first | omega | skip
    all_goals exfalso
    all_goals nlinarith


theorem shiftBase_eq (a b : Nat) :
    (shiftBase a b : ℤ) - ilog2 a = 52 - binExp a b := by
  unfold shiftBase binExp
  split_ifs <;> push_cast <;> ring

theorem scaledDen_ne {a b : Nat} (hb : b ≠ 0) : scaledDen a b ≠ 0 := by
  unfold scaledDen; split_ifs
  · exact hb
  · exact Nat.mul_ne_zero hb (by positivity)

theorem scaled_val {a b : Nat} (hb : b ≠ 0) :
    (scaledNum a b : ℚ) / scaledDen a b = (a : ℚ) / b * 2 ^ (52 - binExp a b) := by
  have hb' : (b : ℚ) ≠ 0 := by exact_mod_cast hb
  rw [← shiftBase_eq]
  unfold scaledNum scaledDen
  split_ifs with h
  · have e : (shiftBase a b : ℤ) - ilog2 a = ((shiftBase a b - ilog2 a : ℕ) : ℤ) := by
      rw [Nat.cast_sub h]
    rw [e, zpow_natCast]; push_cast; ring
  · have h' : shiftBase a b ≤ ilog2 a := by omega
    have e : (shiftBase a b : ℤ) - ilog2 a = -((ilog2 a - shiftBase a b : ℕ) : ℤ) := by
      rw [Nat.cast_sub h']; ring
    rw [e, zpow_neg, zpow_natCast]; push_cast
    field_simp

theorem roundToDouble_val {a b : Nat} (ha : a ≠ 0) :
    (roundToDouble a b).val =
      (roundHalfEven (scaledNum a b) (scaledDen a b) : ℚ) * 2 ^ (binExp a b - 52) := by
  have e0 : binExp a b - 52 = -((shiftBase a b : ℤ) - ilog2 a) := by rw [shiftBase_eq]; ring
  rw [e0]
  unfold roundToDouble scaledNum scaledDen Double.val
  rw [if_neg ha]
  split_ifs with h
  · have e : (shiftBase a b : ℤ) - ilog2 a = ((shiftBase a b - ilog2 a : ℕ) : ℤ) := by
      rw [Nat.cast_sub h]
    simp only
    rw [e, zpow_neg, zpow_natCast]
    rfl
  · have h' : shiftBase a b ≤ ilog2 a := by omega
    have e : -((shiftBase a b : ℤ) - ilog2 a) = ((ilog2 a - shiftBase a b : ℕ) : ℤ) := by
      rw [Nat.cast_sub h']; ring
    simp only
    rw [e, zpow_natCast]; push_cast; simp

theorem scaled_bounds {a b : Nat} (ha : a ≠ 0) (hb : b ≠ 0) :
    (2 : ℚ) ^ 52 ≤ (scaledNum a b : ℚ) / scaledDen a b ∧
    (scaledNum a b : ℚ) / scaledDen a b < 2 ^ 53 := by
  rw [scaled_val hb]
  have hpos : (0 : ℚ) < 2 ^ (52 - binExp a b) := by positivity
  constructor
  · calc (2 : ℚ) ^ 52 = 2 ^ binExp a b * 2 ^ (52 - binExp a b) := by
          rw [← zpow_add₀ (by norm_num)]; norm_num
      _ ≤ (a : ℚ) / b * 2 ^ (52 - binExp a b) :=
          mul_le_mul_of_nonneg_right (binExp_le ha hb) hpos.le
  · calc (a : ℚ) / b * 2 ^ (52 - binExp a b)
        < 2 ^ (binExp a b + 1) * 2 ^ (52 - binExp a b) :=
          mul_lt_mul_of_pos_right (lt_binExp ha hb) hpos
      _ = 2 ^ 53 := by
          rw [← zpow_add₀ (by norm_num)]
          have e : binExp a b + 1 + (52 - binExp a b) = ((53 : ℕ) : ℤ) := by push_cast; ring
          rw [e, zpow_natCast]

/-- The rounded mantissa lies in `[2 ^ 52, 2 ^ 53]`. -/
theorem mantissa_bounds {a b : Nat} (ha : a ≠ 0) (hb : b ≠ 0) :
    2 ^ 52 ≤ roundHalfEven (scaledNum a b) (scaledDen a b) ∧
    roundHalfEven (scaledNum a b) (scaledDen a b) ≤ 2 ^ 53 := by
  obtain ⟨h1, h2⟩ := scaled_bounds ha hb
  have hd : (0 : ℚ) < scaledDen a b := by
    exact_mod_cast Nat.pos_of_ne_zero (scaledDen_ne hb)
  rw [le_div_iff₀ hd] at h1
  rw [div_lt_iff₀ hd] at h2
  have h1' : 2 ^ 52 * scaledDen a b ≤ scaledNum a b := by exact_mod_cast h1
  have h2' : scaledNum a b < 2 ^ 53 * scaledDen a b := by exact_mod_cast h2
  constructor
  · calc 2 ^ 52 ≤ scaledNum a b / scaledDen a b :=
          (Nat.le_div_iff_mul_le (Nat.pos_of_ne_zero (scaledDen_ne hb))).2 h1'
      _ ≤ _ := roundHalfEven_ge _ _
  · have : scaledNum a b / scaledDen a b < 2 ^ 53 :=
      (Nat.div_lt_iff_lt_mul (Nat.pos_of_ne_zero (scaledDen_ne hb))).2 h2'
    calc _ ≤ scaledNum a b / scaledDen a b + 1 := roundHalfEven_le _ _
      _ ≤ 2 ^ 53 := this

theorem roundToDouble_zero (b : Nat) : (roundToDouble 0 b).val = 0 := by
  simp [roundToDouble, Double.val]

theorem Double.val_nonneg (x : Double) : 0 ≤ x.val := by
  unfold Double.val; positivity

/-- Rounding to `double` is monotone in the value rounded. -/
theorem roundToDouble_mono {a1 b1 a2 b2 : Nat} (h1 : b1 ≠ 0) (h2 : b2 ≠ 0)
    (h : (a1 : ℚ) / b1 ≤ (a2 : ℚ) / b2) :
    (roundToDouble a1 b1).val ≤ (roundToDouble a2 b2).val := by
  by_cases ha1 : a1 = 0
  · subst ha1; rw [roundToDouble_zero]; exact Double.val_nonneg _
  have hb1 : (0 : ℚ) < b1 := by exact_mod_cast Nat.pos_of_ne_zero h1
  have hb2 : (0 : ℚ) < b2 := by exact_mod_cast Nat.pos_of_ne_zero h2
  have ha2 : a2 ≠ 0 := by
    rintro rfl
    have : (0 : ℚ) < (a1 : ℚ) / b1 := div_pos (by exact_mod_cast Nat.pos_of_ne_zero ha1) hb1
    simp at h
    linarith
  rw [roundToDouble_val ha1, roundToDouble_val ha2]
  -- the exponents are ordered
  have hE : binExp a1 b1 ≤ binExp a2 b2 := by
    have hlt : (2 : ℚ) ^ binExp a1 b1 < 2 ^ (binExp a2 b2 + 1) :=
      lt_of_le_of_lt (le_trans (binExp_le ha1 h1) h) (lt_binExp ha2 h2)
    have := (zpow_lt_zpow_iff_right₀ (by norm_num : (1 : ℚ) < 2)).1 hlt
    omega
  obtain ⟨-, m1⟩ := mantissa_bounds ha1 h1
  obtain ⟨m2, -⟩ := mantissa_bounds ha2 h2
  rcases lt_or_eq_of_le hE with hlt | heq
  · have m1' : (roundHalfEven (scaledNum a1 b1) (scaledDen a1 b1) : ℚ) ≤ 2 ^ 53 := by
      exact_mod_cast m1
    have m2' : (2 : ℚ) ^ 52 ≤ roundHalfEven (scaledNum a2 b2) (scaledDen a2 b2) := by
      exact_mod_cast m2
    calc (roundHalfEven (scaledNum a1 b1) (scaledDen a1 b1) : ℚ) * 2 ^ (binExp a1 b1 - 52)
        ≤ 2 ^ 53 * 2 ^ (binExp a1 b1 - 52) := by gcongr
      _ = 2 ^ (binExp a1 b1 + 1) := by
          rw [← zpow_natCast, ← zpow_add₀ (by norm_num)]; congr 1; push_cast; ring
      _ ≤ 2 ^ binExp a2 b2 := zpow_le_zpow_right₀ (by norm_num) (by omega)
      _ = 2 ^ 52 * 2 ^ (binExp a2 b2 - 52) := by
          rw [← zpow_natCast, ← zpow_add₀ (by norm_num)]; congr 1; push_cast; ring
      _ ≤ _ := by gcongr
  · rw [heq]
    have hpos : (0 : ℚ) < 2 ^ (binExp a2 b2 - 52) := by positivity
    apply mul_le_mul_of_nonneg_right _ hpos.le
    have hs : (scaledNum a1 b1 : ℚ) / scaledDen a1 b1 ≤ (scaledNum a2 b2 : ℚ) / scaledDen a2 b2 := by
      rw [scaled_val h1, scaled_val h2, heq]
      exact mul_le_mul_of_nonneg_right h (by positivity)
    have hd1 : (0 : ℚ) < scaledDen a1 b1 := by
      exact_mod_cast Nat.pos_of_ne_zero (scaledDen_ne h1)
    have hd2 : (0 : ℚ) < scaledDen a2 b2 := by
      exact_mod_cast Nat.pos_of_ne_zero (scaledDen_ne h2)
    rw [div_le_div_iff₀ hd1 hd2] at hs
    have hs' : scaledNum a1 b1 * scaledDen a2 b2 ≤ scaledNum a2 b2 * scaledDen a1 b1 := by
      exact_mod_cast hs
    exact_mod_cast roundHalfEven_mono (scaledDen_ne h1) (scaledDen_ne h2) hs'

/-! ## Manual liquidation tiers -/

set_option maxRecDepth 100000 in
/-- C6 (counterexample). A CDP owing 1000 with 1100 of collateral at price 1.00 (ratio
110 %), thresholds start 150 %, non-return 130 %, force 104 % and discount 97 %: the tier
taken gives the liquidator the whole collateral, 1100, and the owner nothing; the
collateral worth 130 % of the debt would be 1300. -/
theorem liquidateTiers_110_counterexample :
    liquidateTiers exampleCdpEnv 1100 1000 100000000 11000 15000 13000 9700 10400 =
      some (.totals
        { totalBcoinsToReturnLiquidator := 1100
          totalScoinsToLiquidate := 1067
          totalScoinsToReturnSysFund := 67
          totalBcoinsToCdpOwner := 0 }) ∧
    (1100 : Nat) ≠ 1000 * 13000 / 10000 := by
  decide

/-! ## Monotonicity of the `double` operations -/

theorem roundToDouble_num_ne {a b : Nat} (ha : a ≠ 0) (hb : b ≠ 0) :
    (roundToDouble a b).num ≠ 0 := by
  intro h
  have hv : (roundToDouble a b).val = 0 := by simp [Double.val, h]
  rw [roundToDouble_val ha] at hv
  have hm := (mantissa_bounds ha hb).1
  have hpos : (0 : ℚ) < (roundHalfEven (scaledNum a b) (scaledDen a b) : ℚ) := by
    have : 0 < roundHalfEven (scaledNum a b) (scaledDen a b) :=
      lt_of_lt_of_le (by positivity) hm
    exact_mod_cast this
  have h2 : (0 : ℚ) < 2 ^ (binExp a b - 52) := by positivity
  have := mul_pos hpos h2
  linarith

theorem Double.ofNat_num_ne {n : Nat} (h : n ≠ 0) : (Double.ofNat n).num ≠ 0 :=
  roundToDouble_num_ne h one_ne_zero

theorem Double.ofNat_mono {n m : Nat} (h : n ≤ m) : (Double.ofNat n).val ≤ (Double.ofNat m).val := by
  apply roundToDouble_mono one_ne_zero one_ne_zero
  have : (n : ℚ) ≤ m := by exact_mod_cast h
  simpa using this

theorem Double.mul_mono_left {x x' : Double} (y : Double) (h : x.val ≤ x'.val) :
    (x.mul y).val ≤ (x'.mul y).val := by
  apply roundToDouble_mono (by positivity) (by positivity)
  have e : ∀ z : Double, ((z.num * y.num : ℕ) : ℚ) / ((2 ^ (z.scale + y.scale) : ℕ) : ℚ) =
      z.val * y.val := by
    intro z; unfold Double.val; push_cast; rw [pow_add]; field_simp
  rw [e, e]
  exact mul_le_mul_of_nonneg_right h (Double.val_nonneg y)

theorem Double.div_val_arg (x y : Double) :
    ((x.num * 2 ^ y.scale : ℕ) : ℚ) / ((y.num * 2 ^ x.scale : ℕ) : ℚ) = x.val / y.val := by
  unfold Double.val; push_cast; rw [div_div_div_eq, mul_comm (2 ^ x.scale : ℚ)]

theorem Double.div_mono_left {x x' y d d' : Double} (h : x.val ≤ x'.val)
    (hd : x.div y = some d) (hd' : x'.div y = some d') : d.val ≤ d'.val := by
  unfold Double.div at hd hd'
  by_cases hy : y.num = 0
  · rw [if_pos hy] at hd; simp at hd
  rw [if_neg hy, Option.some.injEq] at hd hd'
  subst hd hd'
  apply roundToDouble_mono (Nat.mul_ne_zero hy (by positivity)) (Nat.mul_ne_zero hy (by positivity))
  rw [Double.div_val_arg, Double.div_val_arg]
  exact div_le_div_of_nonneg_right h (Double.val_nonneg y)

theorem Double.val_pos {y : Double} (hy : y.num ≠ 0) : 0 < y.val := by
  unfold Double.val
  have : (0 : ℚ) < y.num := by exact_mod_cast Nat.pos_of_ne_zero hy
  positivity

theorem Double.div_anti_right {x y y' d d' : Double} (h : y.val ≤ y'.val)
    (hd : x.div y = some d) (hd' : x.div y' = some d') : d'.val ≤ d.val := by
  unfold Double.div at hd hd'
  by_cases hy : y.num = 0
  · rw [if_pos hy] at hd; simp at hd
  by_cases hy' : y'.num = 0
  · rw [if_pos hy'] at hd'; simp at hd'
  rw [if_neg hy, Option.some.injEq] at hd
  rw [if_neg hy', Option.some.injEq] at hd'
  subst hd hd'
  apply roundToDouble_mono (Nat.mul_ne_zero hy' (by positivity))
    (Nat.mul_ne_zero hy (by positivity))
  rw [Double.div_val_arg, Double.div_val_arg]
  exact div_le_div_of_nonneg_left (Double.val_nonneg x) (Double.val_pos hy) h

theorem Double.div_defined (x : Double) {y : Double} (hy : y.num ≠ 0) :
    ∃ d, x.div y = some d := by
  unfold Double.div; rw [if_neg hy]; exact ⟨_, rfl⟩

/-- Truncation to `uint64_t` is monotone, and defined below a value where it is defined. -/
theorem Double.toUInt64_mono {x y : Double} {r : Nat} (h : x.val ≤ y.val)
    (hy : y.toUInt64 = some r) : ∃ q, x.toUInt64 = some q ∧ q ≤ r := by
  have hle : x.num / 2 ^ x.scale ≤ y.num / 2 ^ y.scale := by
    apply div_le_div_of_cross (by positivity) (by positivity)
    unfold Double.val at h
    rw [div_le_div_iff₀ (by positivity) (by positivity)] at h
    exact_mod_cast h
  unfold Double.toUInt64 at hy ⊢
  split_ifs at hy with hlt
  rw [Option.some.injEq] at hy
  subst hy
  rw [if_pos (lt_of_le_of_lt hle hlt)]
  exact ⟨_, rfl, hle⟩

/-! ## Redeem: clamping and balance check -/

/-- C7 (counterexample to the claim as worded). A CDP owing 100; the caller holds 150 free
stable coins and asks to repay 200. The repay amount is clamped to 100, which the balance
covers, yet the balance check compares with the requested 200 and rejects the redeem;
asking for exactly 100 passes. -/
theorem redeemClampAndCheck_rejects_covered_clamp :
    redeemClampAndCheck 500 100 0 200 150 = .account_balance_insufficient ∧
    min 200 100 ≤ 150 ∧
    redeemClampAndCheck 500 100 0 100 150 = .continues 0 100 := by
  decide

/-- C7 (amended). The redeem clamps the requested amounts to the CDP's totals,
`actualScoinsToRepay = min(scoins_to_repay, total_owed_scoins)`, and its balance check
compares the free balance with the requested `scoins_to_repay`, not with the clamped
amount: it rejects with `account-balance-insufficient` exactly when the free balance is
below `scoins_to_repay`; a caller whose free balance covers `scoins_to_repay` is never
rejected, goes on with the two clamped amounts, and the balance covers the clamped repay
amount. -/
theorem redeemClampAndCheck_requested (staked owed assetAmount scoins_to_repay free : Nat) :
    (redeemClampAndCheck staked owed assetAmount scoins_to_repay free =
        .account_balance_insufficient ↔ free < scoins_to_repay) ∧
    (scoins_to_repay ≤ free →
      redeemClampAndCheck staked owed assetAmount scoins_to_repay free =
        .continues (min assetAmount staked) (min scoins_to_repay owed) ∧
      min scoins_to_repay owed ≤ free) := by
  unfold redeemClampAndCheck
  simp only
  refine ⟨?_, fun hle => ⟨?_, le_trans (min_le_left _ _) hle⟩⟩
  · split_ifs with h
    · exact ⟨fun _ => h, fun _ => rfl⟩
    · exact ⟨fun e => e.elim, fun e => absurd e h⟩
  · rw [if_neg (Nat.not_lt.mpr hle)]
    congr 1
    · simp only [Nat.min_def]; split_ifs <;> omega
    · simp only [Nat.min_def]; split_ifs <;> omega

/-- C7 (witness): a CDP of 500 staked against 100 owed; asking to redeem 600 and repay 120
with 150 free stable coins passes the check and goes on with 500 and 100. -/
theorem redeemClampAndCheck_requested_witness :
    (120 : Nat) ≤ 150 ∧
    redeemClampAndCheck 500 100 600 120 150 = .continues 500 100 ∧
    (redeemClampAndCheck 500 100 600 120 150 = .continues (min 600 500) (min 120 100) ∧
      min 120 100 ≤ 150) :=
  ⟨by decide, by decide,
    (redeemClampAndCheck_requested 500 100 600 120 150).2 (by decide)⟩

/-! ## Collateral ratio -/

set_option maxRecDepth 100000 in
/-- C9 (counterexample). At price 1.00 and debt 50 coins, collateral of 100 coins and of
100 coins plus one unit both have ratio 20000; with collateral 100 coins, debts of 40 coins
plus one unit and plus two units both have ratio 24999. -/
theorem CalcCollateralRatio_not_strict_counterexample :
    CalcCollateralRatio exampleCdpEnv 10000000000 5000000000 100000000 = some 20000 ∧
    CalcCollateralRatio exampleCdpEnv 10000000001 5000000000 100000000 = some 20000 ∧
    CalcCollateralRatio exampleCdpEnv 10000000000 4000000001 100000000 = some 24999 ∧
    CalcCollateralRatio exampleCdpEnv 10000000000 4000000002 100000000 = some 24999 := by
  decide

/-- The value of `CalcCollateralRatio` for a nonzero debt, with the intermediate `double`s
named. -/
theorem CalcCollateralRatio_eq (env : CdpEnv) (a s p : Nat) (hPB : env.PRICE_BOOST ≠ 0)
    (hs : s ≠ 0) :
    ∃ x y, ((Double.ofNat a).mul (Double.ofNat p)).div (Double.ofNat env.PRICE_BOOST) = some x ∧
      x.div (Double.ofNat s) = some y ∧
      CalcCollateralRatio env a s p = (y.mul (Double.ofNat env.RATIO_BOOST)).toUInt64 := by
  obtain ⟨x, hx⟩ := Double.div_defined ((Double.ofNat a).mul (Double.ofNat p))
    (Double.ofNat_num_ne hPB)
  obtain ⟨y, hy⟩ := Double.div_defined x (Double.ofNat_num_ne hs)
  refine ⟨x, y, hx, hy, ?_⟩
  unfold CalcCollateralRatio
  rw [if_neg hs, hx]
  simp only
  rw [hy]

/-- C9 (amended). `CalcCollateralRatio` is monotone, not strictly: for a nonzero
`PRICE_BOOST`, every price and every debt `s > 0`, `a1 <= a2` implies that whenever the
ratio of `a2` is defined (fits 64 bits) so is that of `a1`, and
`CalcCollateralRatio(a1, s, price) <= CalcCollateralRatio(a2, s, price)`; and for every
collateral `a` and debts `0 < s1 <= s2`, whenever the ratio at `s1` is defined so is that at
`s2`, and `CalcCollateralRatio(a, s1, price) >= CalcCollateralRatio(a, s2, price)`. -/
theorem CalcCollateralRatio_monotone (env : CdpEnv) (price : Nat)
    (hPB : env.PRICE_BOOST ≠ 0) :
    (∀ a1 a2 s r2, s ≠ 0 → a1 ≤ a2 → CalcCollateralRatio env a2 s price = some r2 →
      ∃ r1, CalcCollateralRatio env a1 s price = some r1 ∧ r1 ≤ r2) ∧
    (∀ a s1 s2 r1, s1 ≠ 0 → s1 ≤ s2 → CalcCollateralRatio env a s1 price = some r1 →
      ∃ r2, CalcCollateralRatio env a s2 price = some r2 ∧ r2 ≤ r1) := by
  constructor
  · intro a1 a2 s r2 hs ha h2
    obtain ⟨x1, y1, hx1, hy1, e1⟩ := CalcCollateralRatio_eq env a1 s price hPB hs
    obtain ⟨x2, y2, hx2, hy2, e2⟩ := CalcCollateralRatio_eq env a2 s price hPB hs
    rw [e2] at h2
    rw [e1]
    have hx : x1.val ≤ x2.val :=
      Double.div_mono_left (Double.mul_mono_left _ (Double.ofNat_mono ha)) hx1 hx2
    have hy : y1.val ≤ y2.val := Double.div_mono_left hx hy1 hy2
    exact Double.toUInt64_mono (Double.mul_mono_left _ hy) h2
  · intro a s1 s2 r1 hs1 hs h1
    have hs2 : s2 ≠ 0 := by omega
    obtain ⟨x1, y1, hx1, hy1, e1⟩ := CalcCollateralRatio_eq env a s1 price hPB hs1
    obtain ⟨x2, y2, hx2, hy2, e2⟩ := CalcCollateralRatio_eq env a s2 price hPB hs2
    rw [e1] at h1
    rw [e2]
    have hx : x2 = x1 := Option.some.inj (hx2.symm.trans hx1)
    subst hx
    have hy : y2.val ≤ y1.val := Double.div_anti_right (Double.ofNat_mono hs) hy1 hy2
    exact Double.toUInt64_mono (Double.mul_mono_left _ hy) h1

set_option maxRecDepth 100000 in
/-- Witness for C9: at price 1.00 and debt 400 coins, collateral 1000 coins has ratio 25000,
and 900 coins a ratio that is defined and at most 25000. -/
theorem CalcCollateralRatio_monotone_witness :
    exampleCdpEnv.PRICE_BOOST ≠ 0 ∧
    CalcCollateralRatio exampleCdpEnv 100000000000 40000000000 100000000 = some 25000 ∧
    ∃ r1, CalcCollateralRatio exampleCdpEnv 90000000000 40000000000 100000000 = some r1 ∧
      r1 ≤ 25000 :=
  ⟨by decide, by decide,
    (CalcCollateralRatio_monotone exampleCdpEnv 100000000 (by decide)).1
      90000000000 100000000000 40000000000 25000 (by decide) (by decide) (by decide)⟩

/-! ## CDP interest -/

set_option maxRecDepth 100000 in
/-- C8 (counterexample). With 28800 blocks a day, `A = 2`, `B = 1` and a debt of 9 coins
(so that the logarithm is taken at 10.0), the interest over `[0, 200)`, over `[0, 100)` and
over `[100, 200)` is 493150 each: every interval counts one loaned day, and the whole is not
the sum of the parts. -/
theorem ComputeCDPInterest_not_additive_counterexample :
    ComputeCDPInterest exampleCdpEnv 900000000 0 200 2 1 = some 493150 ∧
    ComputeCDPInterest exampleCdpEnv 900000000 0 100 2 1 = some 493150 ∧
    ComputeCDPInterest exampleCdpEnv 900000000 100 200 2 1 = some 493150 ∧
    (493150 : Nat) ≠ 493150 + 493150 := by
  decide

theorem toInt32_of_small {n : Int} (h0 : 0 ≤ n) (h1 : n < 2 ^ 31) : toInt32 n = n := by
  unfold toInt32
  omega

theorem roundToDouble_one : (roundToDouble 1 1).val = 1 := by
  have : roundToDouble 1 1 = ⟨2 ^ 52, 52⟩ := by decide
  rw [this]; unfold Double.val; norm_num

theorem Double.ceil_le_one {q : Double} (h : q.val ≤ 1) : q.ceil ≤ 1 := by
  unfold Double.val at h
  rw [div_le_one (by positivity)] at h
  have h' : q.num ≤ 2 ^ q.scale := by exact_mod_cast h
  unfold Double.ceil
  have hp : 0 < 2 ^ q.scale := by positivity
  rw [Nat.div_le_iff_le_mul_add_pred hp]
  omega

/-- An interval of at most one day of blocks, the empty one included, counts one loaned
day. -/
theorem loanedDays_within_one_day (env : CdpEnv) (b e : Nat) (hbe : b ≤ e) (he : e < 2 ^ 31)
    (hday : 0 < env.GetOneDayBlocks e) (hlen : e - b ≤ env.GetOneDayBlocks e) :
    loanedDays env b e = some 1 := by
  have hi : toInt32 ((e : Int) - (b : Int)) = ((e - b : ℕ) : ℤ) := by
    rw [toInt32_of_small (by omega) (by omega)]; omega
  unfold loanedDays
  simp only [hi]
  rw [if_neg (by omega)]
  by_cases hz : ((e - b : ℕ) : ℤ) ≤ 0
  · rw [if_pos hz]
  rw [if_neg hz]
  simp only [Int.toNat_ofNat]
  obtain ⟨q, hq⟩ := Double.div_defined (Double.ofNat (e - b))
    (Double.ofNat_num_ne (Nat.pos_iff_ne_zero.1 hday))
  rw [hq]
  simp only [Option.some.injEq]
  have hy : (Double.ofNat (env.GetOneDayBlocks e)).num ≠ 0 :=
    Double.ofNat_num_ne (Nat.pos_iff_ne_zero.1 hday)
  have hq1 : q.val ≤ 1 := by
    unfold Double.div at hq
    rw [if_neg hy, Option.some.injEq] at hq
    subst hq
    rw [← roundToDouble_one]
    apply roundToDouble_mono (Nat.mul_ne_zero hy (by positivity)) one_ne_zero
    rw [Double.div_val_arg]
    have := Double.ofNat_mono hlen
    have hpos := Double.val_pos hy
    simp only [Nat.cast_one, div_one]
    rw [div_le_one hpos]
    exact this
  have := Double.ceil_le_one hq1
  omega

/-- C8 (amended). The interest of an interval depends on its heights only through the
loaned days `max(1, ceil((end - begin) / blocksPerDay(end)))`, and every interval of at
most one day of blocks, the empty one included, counts one day: for every debt `N`,
coefficients `A`, `B` and heights `h0 <= h1 <= h2 < 2 ^ 31` with
`h2 - h0 <= blocksPerDay(h2)` and `h1 - h0 <= blocksPerDay(h1)`, each of
`ComputeCDPInterest(N, h0, h2, A, B)`, `ComputeCDPInterest(N, h0, h1, A, B)` and
`ComputeCDPInterest(N, h1, h2, A, B)` is the interest for one loaned day, so the whole
equals each part and not their sum. -/
theorem ComputeCDPInterest_within_one_day (env : CdpEnv) (N A B h0 h1 h2 : Nat)
    (h01 : h0 ≤ h1) (h12 : h1 ≤ h2) (hr : h2 < 2 ^ 31)
    (hb1 : 0 < env.GetOneDayBlocks h1) (hb2 : 0 < env.GetOneDayBlocks h2)
    (hd1 : h1 - h0 ≤ env.GetOneDayBlocks h1) (hd2 : h2 - h0 ≤ env.GetOneDayBlocks h2) :
    ComputeCDPInterest env N h0 h2 A B = interestForDays env N A B 1 ∧
    ComputeCDPInterest env N h0 h1 A B = interestForDays env N A B 1 ∧
    ComputeCDPInterest env N h1 h2 A B = interestForDays env N A B 1 := by
  unfold ComputeCDPInterest
  rw [loanedDays_within_one_day env h0 h2 (by omega) hr hb2 hd2,
    loanedDays_within_one_day env h0 h1 h01 (by omega) hb1 hd1,
    loanedDays_within_one_day env h1 h2 h12 hr hb2 (by omega)]
  exact ⟨rfl, rfl, rfl⟩

set_option maxRecDepth 100000 in
/-- Witness for C8: heights 0, 100, 200 with 28800 blocks a day; each of the three
interests is the one-day interest 493150. -/
theorem ComputeCDPInterest_within_one_day_witness :
    ((0 : Nat) ≤ 100 ∧ (100 : Nat) ≤ 200 ∧ (200 : Nat) < 2 ^ 31 ∧
      0 < exampleCdpEnv.GetOneDayBlocks 100 ∧ 0 < exampleCdpEnv.GetOneDayBlocks 200 ∧
      100 - 0 ≤ exampleCdpEnv.GetOneDayBlocks 100 ∧
      200 - 0 ≤ exampleCdpEnv.GetOneDayBlocks 200) ∧
    interestForDays exampleCdpEnv 900000000 2 1 1 = some 493150 ∧
    (ComputeCDPInterest exampleCdpEnv 900000000 (0 : Nat) 200 2 1 =
        interestForDays exampleCdpEnv 900000000 2 1 1 ∧
      ComputeCDPInterest exampleCdpEnv 900000000 (0 : Nat) 100 2 1 =
        interestForDays exampleCdpEnv 900000000 2 1 1 ∧
      ComputeCDPInterest exampleCdpEnv 900000000 (100 : Nat) 200 2 1 =
        interestForDays exampleCdpEnv 900000000 2 1 1) :=
  ⟨by decide, by decide,
    ComputeCDPInterest_within_one_day exampleCdpEnv 900000000 2 1 0 100 200
      (by decide) (by decide) (by decide) (by decide) (by decide) (by decide) (by decide)⟩

/-! ## Receipts of `OperateBalance` -/

/-- C14 (the code at the failing input). `alice` (1000 free) calls `ADD_FREE` of 5 with
peer `bob` (5 free): the call succeeds, `alice` ends with 1005 and `bob` with 0, so the
value went from `bob` to `alice`; yet the receipt names `alice` (key id 1) as source and
`bob` (key id 2) as destination. -/
theorem OperateBalance_ADD_FREE_peer_receipt_reversed :
    (OperateBalance alice "WICC" .ADD_FREE 5 (.code 0) [] (.other bob)).ok = true ∧
    ((OperateBalance alice "WICC" .ADD_FREE 5 (.code 0) [] (.other bob)).this.GetToken
      "WICC").free_amount = 1005 ∧
    ((OperateBalance alice "WICC" .ADD_FREE 5 (.code 0) [] (.other bob)).peer.GetToken alice
      "WICC").free_amount = 0 ∧
    (OperateBalance alice "WICC" .ADD_FREE 5 (.code 0) [] (.other bob)).receipts =
      [{ code := .code 0, op_type := .ADD_FREE, from_uid := .keyid 1, to_uid := .keyid 2,
         coin_symbol := "WICC", coin_amount := 5 }] := by
  decide

/-- The receipt endpoints of the other moves are as the ledger debits and credits: mint for
`ADD_FREE` without a peer, the account as source for `SUB_FREE` without a peer, the account
as source and the peer as destination for `SUB_FREE` with a peer and for `DEX_DEAL`. -/
theorem OperateBalance_receipt_endpoints (this peer : CAccount) (sym : TokenSymbol)
    (value : Nat) (rt : ReceiptType) (rs : ReceiptList) (hk : this.keyid ≠ peer.keyid) :
    (OperateBalance this sym .ADD_FREE value rt rs .null).receipts =
      rs ++ [⟨rt, .ADD_FREE, .null, .keyid this.keyid, sym, value⟩] ∧
    ((OperateBalance this sym .SUB_FREE value rt rs .null).ok = true →
      (OperateBalance this sym .SUB_FREE value rt rs .null).receipts =
        rs ++ [⟨rt, .SUB_FREE, .keyid this.keyid, .null, sym, value⟩]) ∧
    ((OperateBalance this sym .SUB_FREE value rt rs (.other peer)).ok = true →
      (OperateBalance this sym .SUB_FREE value rt rs (.other peer)).receipts =
        rs ++ [⟨rt, .SUB_FREE, .keyid this.keyid, .keyid peer.keyid, sym, value⟩]) ∧
    ((OperateBalance this sym .DEX_DEAL value rt rs (.other peer)).ok = true →
      (OperateBalance this sym .DEX_DEAL value rt rs (.other peer)).receipts =
        rs ++ [⟨rt, .DEX_DEAL, .keyid this.keyid, .keyid peer.keyid, sym, value⟩]) := by
  have hkf := beq_keyid_false hk
  refine ⟨?_, ?_, ?_, ?_⟩
  · rw [OperateBalance_ADD_FREE_null]
  · simp only [OperateBalance, finishWithPeer]
    split_ifs <;> simp
  · simp only [OperateBalance, finishWithPeer, hkf, PeerRef.keyid]
    split_ifs <;> simp
  · simp only [OperateBalance, finishWithPeer, hkf, PeerRef.keyid]
    split_ifs <;> simp

/-- Every call either fails with the receipts list as it was, or succeeds with one receipt
appended that carries the reason code, the operation, the symbol and the amount. -/
theorem OperateBalance_shape (this : CAccount) (sym : TokenSymbol)
    (op : BalanceOpType) (value : Nat) (rt : ReceiptType) (rs : ReceiptList) (p : PeerRef) :
    (∃ th pe, OperateBalance this sym op value rt rs p = ⟨false, th, rs, pe⟩) ∨
    (∃ th pe f t, OperateBalance this sym op value rt rs p =
      ⟨true, th, rs ++ [⟨rt, op, f, t, sym, value⟩], pe⟩) := by
  generalize hr : OperateBalance this sym op value rt rs p = r
  replace hr := hr.symm
  cases op <;> cases p <;> simp only [OperateBalance, finishWithPeer] at hr <;>
    split_ifs at hr <;> subst hr <;>
    first
      | exact Or.inl ⟨_, _, rfl⟩
      | exact Or.inr ⟨_, _, _, _, rfl⟩

/-- C15. For every `OperateBalance` call the receipts list afterwards is the list before
with exactly one receipt appended, carrying the given reason code, operation, symbol and
amount, when the call returns success, and is the list before when it returns failure. -/
theorem OperateBalance_receipts_frame (this : CAccount) (sym : TokenSymbol)
    (op : BalanceOpType) (value : Nat) (rt : ReceiptType) (rs : ReceiptList) (p : PeerRef) :
    ∃ f t, (OperateBalance this sym op value rt rs p).receipts =
      if (OperateBalance this sym op value rt rs p).ok = true then
        rs ++ [⟨rt, op, f, t, sym, value⟩]
      else rs := by
  rcases OperateBalance_shape this sym op value rt rs p with ⟨th, pe, h⟩ | ⟨th, pe, f, t, h⟩
  · exact ⟨.null, .null, by rw [h]; rfl⟩
  · exact ⟨f, t, by rw [h]; rfl⟩

/-! ## Reading and checking balances -/

/-- C16 (counterexample to the claim as worded). `alice` holds only `WICC`; asked for her free
`WUSD` balance, `GetBalance` reports failure instead of yielding 0, and so it does for the
selector `NULL_TYPE` on the symbol she holds. -/
theorem GetBalance_unknown_symbol_counterexample :
    alice.GetBalance "WUSD" .FREE_VALUE = none ∧ alice.GetBalance "WICC" .NULL_TYPE = none ∧
      alice.GetBalance "WUSD" .FREE_VALUE ≠ some 0 := by
  decide

/-- C16 (amended). `GetBalance` succeeds exactly when the symbol has an entry in the account
and the selector names one of the five buckets; it then yields the amount of that bucket of
the entry. For a symbol without an entry, and for any other selector, it reports failure. -/
theorem GetBalance_succeeds_iff (a : CAccount) (sym : TokenSymbol) (b : BalanceType) :
    ((a.GetBalance sym b).isSome = true ↔ ((a.tokens sym).isSome = true ∧ b ≠ .NULL_TYPE)) ∧
    ((a.GetBalance sym b).isSome = true → a.GetBalance sym b = (a.GetToken sym).bucket b) := by
  unfold CAccount.GetBalance CAccount.GetToken
  cases h : a.tokens sym <;> cases b <;> simp [CAccountToken.bucket]

/-- C17 (counterexample to the claim as worded). `alice` holds `WICC`; checking it against
amount 0 with the selector `NULL_TYPE` does not return true (bucket read as 0, `0 ≥ 0`):
the call throws. -/
theorem CheckBalance_unknown_bucket_counterexample :
    (alice.CheckBalance "WICC" .NULL_TYPE 0).isNone = true := by
  decide

/-- C17 (amended). `CheckBalance` throws exactly when the symbol has an entry and the
selector names none of the five buckets. Otherwise it returns, leaving the account as it
was, and the flag is true exactly when the selected bucket, read as 0 for a symbol without
an entry, is at least the amount. -/
theorem CheckBalance_spec (a : CAccount) (sym : TokenSymbol) (b : BalanceType) (value : Nat) :
    (a.CheckBalance sym b value = none ↔ ((a.tokens sym).isSome = true ∧ b = .NULL_TYPE)) ∧
    (∀ r, a.CheckBalance sym b value = some r →
      r.2 = a ∧ (r.1 = true ↔ ((a.tokens sym).bind (·.bucket b)).getD 0 ≥ value)) := by
  unfold CAccount.CheckBalance
  cases h : a.tokens sym <;> cases b <;> simp [CAccountToken.bucket]

/-! ## `DEX_DEAL`, `ADD_FREE` and the same-key check -/

/-- C18 (counterexample to the claim as worded). `fullHolder` has `2^64 - 1` free and 10 frozen
`WICC`; a `DEX_DEAL` of 10 with itself as peer succeeds and empties the frozen bucket, but
the free bucket ends at 9, not at the previous free plus 10. -/
theorem OperateBalance_DEX_DEAL_self_wrap_counterexample :
    (OperateBalance fullHolder "WICC" .DEX_DEAL 10 (.code 0) [] .self).ok = true ∧
    ((OperateBalance fullHolder "WICC" .DEX_DEAL 10 (.code 0) [] .self).this.GetToken
      "WICC").frozen_amount = 0 ∧
    ((OperateBalance fullHolder "WICC" .DEX_DEAL 10 (.code 0) [] .self).this.GetToken
      "WICC").free_amount = 9 ∧
    (fullHolder.GetToken "WICC").free_amount + 10 = 2 ^ 64 + 9 := by
  decide

/-- C18 (amended). `DEX_DEAL` fails without a peer, and fails with any peer when
`frozen < amount`. With the account itself as peer and `frozen ≥ amount` it succeeds, and
the account ends with frozen decreased by the amount and free equal to the previous free
plus the amount modulo `2^64` (hence increased by the amount when that sum is below
`2^64`); staked, voted and pledged are as before. -/
theorem OperateBalance_DEX_DEAL_self (this : CAccount) (sym : TokenSymbol) (value : Nat)
    (rt : ReceiptType) (rs : ReceiptList) (hwf : (this.GetToken sym).WF) :
    (OperateBalance this sym .DEX_DEAL value rt rs .null).ok = false ∧
    (∀ p, (this.GetToken sym).frozen_amount < value →
      (OperateBalance this sym .DEX_DEAL value rt rs p).ok = false) ∧
    ((this.GetToken sym).frozen_amount ≥ value →
      (OperateBalance this sym .DEX_DEAL value rt rs .self).ok = true ∧
      ((OperateBalance this sym .DEX_DEAL value rt rs .self).this.GetToken sym).frozen_amount
        = (this.GetToken sym).frozen_amount - value ∧
      ((OperateBalance this sym .DEX_DEAL value rt rs .self).this.GetToken sym).free_amount
        = ((this.GetToken sym).free_amount + value) % 2 ^ 64 ∧
      ((this.GetToken sym).free_amount + value < 2 ^ 64 →
        ((OperateBalance this sym .DEX_DEAL value rt rs .self).this.GetToken sym).free_amount
          = (this.GetToken sym).free_amount + value) ∧
      ((OperateBalance this sym .DEX_DEAL value rt rs .self).this.GetToken sym).staked_amount
        = (this.GetToken sym).staked_amount ∧
      ((OperateBalance this sym .DEX_DEAL value rt rs .self).this.GetToken sym).voted_amount
        = (this.GetToken sym).voted_amount ∧
      ((OperateBalance this sym .DEX_DEAL value rt rs .self).this.GetToken sym).pledged_amount
        = (this.GetToken sym).pledged_amount) := by
  obtain ⟨-, -, hfz, -, -⟩ := hwf
  refine ⟨?_, ?_, ?_⟩
  · simp [OperateBalance]
  · intro p hlt
    cases p <;> simp only [OperateBalance, GetToken_touch, if_pos hlt] <;> split_ifs <;> rfl
  · intro hge
    have hnl : ¬ (this.GetToken sym).frozen_amount < value := Nat.not_lt.mpr hge
    simp only [OperateBalance, finishWithPeer, GetToken_touch, PeerRef.GetToken,
      GetToken_SetToken_same, if_neg hnl]
    rw [if_neg (by simp)]
    simp only [GetToken_SetToken_same]
    refine ⟨trivial, sub64_of_le hge hfz, ?_, ?_, trivial, trivial, trivial⟩
    · simp [add64, U64]
    · intro h
      simp only [add64, U64]
      exact Nat.mod_eq_of_lt h

/-- C18 (witness): `alice` (1000 free, 50 frozen) settles 20 with herself. -/
theorem OperateBalance_DEX_DEAL_self_witness :
    (alice.GetToken "WICC").WF ∧ (alice.GetToken "WICC").frozen_amount ≥ 20 ∧
    ((OperateBalance alice "WICC" .DEX_DEAL 20 (.code 0) [] .self).this.GetToken
      "WICC").frozen_amount = 30 ∧
    ((OperateBalance alice "WICC" .DEX_DEAL 20 (.code 0) [] .self).this.GetToken
      "WICC").free_amount = 1020 :=
  have h := (OperateBalance_DEX_DEAL_self alice "WICC" 20 (.code 0) []
    (small_WF (by decide) (by decide) (by decide) (by decide) (by decide))).2.2 (by decide)
  ⟨small_WF (by decide) (by decide) (by decide) (by decide) (by decide), by decide, h.2.1,
    h.2.2.2.1 (by decide)⟩

/-- C19 (counterexample to the claim as worded). `fullHolder` has `2^64 - 1` free `WICC`; `ADD_FREE`
of 10 without a peer succeeds and leaves 9 free, not the exact sum `2^64 + 9`. -/
theorem OperateBalance_ADD_FREE_wrap_counterexample :
    (OperateBalance fullHolder "WICC" .ADD_FREE 10 (.code 0) [] .null).ok = true ∧
    ((OperateBalance fullHolder "WICC" .ADD_FREE 10 (.code 0) [] .null).this.GetToken
      "WICC").free_amount = 9 ∧
    (fullHolder.GetToken "WICC").free_amount + 10 = 2 ^ 64 + 9 := by
  decide

/-- C19 (amended). `ADD_FREE` without a peer always succeeds; the resulting free bucket is
the previous free plus the amount modulo `2^64`, which is the exact sum when that sum is
below `2^64`; the other four buckets are unchanged. -/
theorem OperateBalance_ADD_FREE_no_peer (this : CAccount) (sym : TokenSymbol) (value : Nat)
    (rt : ReceiptType) (rs : ReceiptList) :
    (OperateBalance this sym .ADD_FREE value rt rs .null).ok = true ∧
    ((OperateBalance this sym .ADD_FREE value rt rs .null).this.GetToken sym).free_amount
      = ((this.GetToken sym).free_amount + value) % 2 ^ 64 ∧
    ((this.GetToken sym).free_amount + value < 2 ^ 64 →
      ((OperateBalance this sym .ADD_FREE value rt rs .null).this.GetToken sym).free_amount
        = (this.GetToken sym).free_amount + value) ∧
    ((OperateBalance this sym .ADD_FREE value rt rs .null).this.GetToken sym).staked_amount
      = (this.GetToken sym).staked_amount ∧
    ((OperateBalance this sym .ADD_FREE value rt rs .null).this.GetToken sym).frozen_amount
      = (this.GetToken sym).frozen_amount ∧
    ((OperateBalance this sym .ADD_FREE value rt rs .null).this.GetToken sym).voted_amount
      = (this.GetToken sym).voted_amount ∧
    ((OperateBalance this sym .ADD_FREE value rt rs .null).this.GetToken sym).pledged_amount
      = (this.GetToken sym).pledged_amount := by
  rw [OperateBalance_ADD_FREE_null]
  simp only [GetToken_SetToken_same]
  refine ⟨trivial, ?_, ?_, trivial, trivial, trivial, trivial⟩
  · simp [add64, U64]
  · intro h
    simp only [add64, U64]
    exact Nat.mod_eq_of_lt h

/-- C20. For every operation type, when the peer is a distinct account record with the key
id of the account, `OperateBalance` fails, every bucket of every token of the account and
of the peer record reads as before, the peer record is as it was, and the receipts list is
unchanged. -/
theorem OperateBalance_same_key_distinct (this peer : CAccount) (sym : TokenSymbol)
    (op : BalanceOpType) (value : Nat) (rt : ReceiptType) (rs : ReceiptList)
    (hk : this.keyid = peer.keyid) :
    (OperateBalance this sym op value rt rs (.other peer)).ok = false ∧
    (∀ s, (OperateBalance this sym op value rt rs (.other peer)).this.GetToken s
      = this.GetToken s) ∧
    (∀ s, (OperateBalance this sym op value rt rs (.other peer)).peer.GetToken this s
      = peer.GetToken s) ∧
    (OperateBalance this sym op value rt rs (.other peer)).receipts = rs := by
  have hb : (this.keyid == peer.keyid) = true := by simp [hk]
  simp only [OperateBalance, hb, if_true, PeerRef.GetToken, GetToken_touch]
  exact ⟨trivial, fun _ => trivial, fun _ => trivial, trivial⟩

/-- C20 (witness): `alice` with the distinct record `aliceCopy` of the same key id. -/
theorem OperateBalance_same_key_distinct_witness :
    alice.keyid = aliceCopy.keyid ∧
    (OperateBalance alice "WICC" .SUB_FREE 5 (.code 0) [] (.other aliceCopy)).ok = false ∧
    (OperateBalance alice "WICC" .SUB_FREE 5 (.code 0) [] (.other aliceCopy)).receipts = [] :=
  have h := OperateBalance_same_key_distinct alice aliceCopy "WICC" .SUB_FREE 5 (.code 0) []
    (by decide)
  ⟨by decide, h.1, h.2.2.2⟩

/-! ## Global collateral floor of a stake -/

/-- C11 (counterexample to the claim as worded). With the floor at 8000: on the main network a
stake at aggregate ratio exactly 8000 is not rejected by the floor check, and on the test
network a stake at aggregate ratio 5000, below the floor, is not rejected either. -/
theorem stakeGlobalChecks_floor_counterexample :
    stakeGlobalChecks .MAIN_NET (some 8000) 8000 (some 1000000) (fun _ => false) (some 19000)
      = .continues ∧
    stakeGlobalChecks .TEST_NET (some 8000) 5000 (some 1000000) (fun _ => false) (some 19000)
      = .continues := by
  decide

/-- C11 (amended). The stake is rejected with `global-collateral-floor-reached` exactly when
the floor parameter was read, the network is not the test network, and the aggregate
collateral ratio is strictly below the floor. -/
theorem stakeGlobalChecks_floor_iff (networkID : NET_TYPE) (globalCollateralRatioMin : Option Nat)
    (globalCollateralRatio : Nat) (globalCollateralCeiling : Option Nat)
    (ceilingReached : Nat → Bool) (startingCdpCollateralRatio : Option Nat) :
    stakeGlobalChecks networkID globalCollateralRatioMin globalCollateralRatio
        globalCollateralCeiling ceilingReached startingCdpCollateralRatio
      = .global_collateral_floor_reached ↔
    ∃ m, globalCollateralRatioMin = some m ∧ networkID ≠ .TEST_NET ∧
      globalCollateralRatio < m := by
  unfold stakeGlobalChecks
  cases globalCollateralRatioMin with
  | none => simp
  | some m =>
    by_cases h : networkID ≠ .TEST_NET ∧ globalCollateralRatio < m
    · simp only [if_pos h]
      exact ⟨fun _ => ⟨m, rfl, h⟩, fun _ => trivial⟩
    · simp only [if_neg h]
      constructor
      · intro e
        cases globalCollateralCeiling with
        | none => cases e
        | some c =>
          simp only at e
          split_ifs at e
          cases startingCdpCollateralRatio <;> cases e
      · rintro ⟨m2, hm, h2⟩
        cases hm
        exact absurd h2 h

/-! ## Forced liquidation -/

@[simp] theorem LiqState.operate_erased (s : LiqState) (c : Call) :
    (s.operate c).2.erased = s.erased := rfl

@[simp] theorem SellAssetToRiskRevervePool_erased (env : LiqEnv) (cdp : CUserCDP)
    (assetSymbol : TokenSymbol) (amount : Nat) (coinSymbol : TokenSymbol) (orderId : OrderId)
    (code : ReceiptType) (s : LiqState) :
    (SellAssetToRiskRevervePool env cdp assetSymbol amount coinSymbol orderId code s).2.erased
      = s.erased := by
  unfold SellAssetToRiskRevervePool
  simp only
  split_ifs <;> rfl

@[simp] theorem inflateAndSell_erased (env : LiqEnv) (p : Nat) (cdp : CUserCDP) (v : Nat)
    (coinSymbol : TokenSymbol) (orderId : OrderId) (s : LiqState) :
    (inflateAndSell env p cdp v coinSymbol orderId s).2.erased = s.erased := by
  unfold inflateAndSell
  simp only
  split_ifs
  · rfl
  · split
    · rfl
    · split_ifs <;> simp

@[simp] theorem closeCdp_erased (env : LiqEnv) (cdp : CUserCDP) (s : LiqState) :
    (closeCdp env cdp s).erased = s.erased ++ [cdp] := rfl

/-- One settlement erases the CDP when it returns true and erases nothing otherwise. -/
theorem CCdpForceLiquidator.settle_erased (env : LiqEnv) (d : CCdpCoinPairDetail) (p : Nat)
    (cdp : CUserCDP) (s : LiqState) :
    (CCdpForceLiquidator.settle env d p cdp s).2.erased =
      if (CCdpForceLiquidator.settle env d p cdp s).1 = .returned_true then s.erased ++ [cdp]
      else s.erased := by
  generalize hr : CCdpForceLiquidator.settle env d p cdp s = r
  unfold CCdpForceLiquidator.settle at hr
  split at hr
  · subst hr; simp
  · simp only [] at hr
    split_ifs at hr with h1 h2 h3
    · subst hr; simp
    · subst hr; simp
    · subst hr; simp
    · split at hr
      · subst hr; simp
      · split_ifs at hr with h4 h5 <;> subst hr <;> simp [*]

/-- One settlement on the legacy path erases the CDP when it returns true and erases
nothing otherwise. -/
theorem CCdpForceLiquidator.settleCompat_erased (env : LiqEnv) (d : CCdpCoinPairDetail)
    (p : Nat) (cdp : CUserCDP) (i : Nat) (s : LiqState) :
    (CCdpForceLiquidator.settleCompat env d p cdp i s).2.1.erased =
      if (CCdpForceLiquidator.settleCompat env d p cdp i s).1 = .returned_true then
        s.erased ++ [cdp]
      else s.erased := by
  generalize hr : CCdpForceLiquidator.settleCompat env d p cdp i s = r
  unfold CCdpForceLiquidator.settleCompat at hr
  split at hr
  · subst hr; simp
  · simp only [] at hr
    split_ifs at hr with h1 h2 h3
    · subst hr; simp
    · subst hr; simp
    · subst hr; simp
    · split at hr
      · subst hr; simp
      · split_ifs at hr with h4 h5 <;> subst hr <;> simp_all

/-- The main loop, entered with `liquidated_count` within the limit, erases a leading part
of the list; the number erased, added to the count at entry, exceeds neither the count at
exit nor the limit. -/
theorem CCdpForceLiquidator.executeLoop_closed (env : LiqEnv) (d : CCdpCoinPairDetail)
    (p limit : Nat) (hl : limit + 1 < 2 ^ 32) (l : List CUserCDP) :
    ∀ (c : Nat) (s : LiqState), c ≤ limit →
      ∃ closed, closed <+: l ∧
        (CCdpForceLiquidator.executeLoop env d p limit l c s).state.erased = s.erased ++ closed ∧
        closed.length + c ≤ (CCdpForceLiquidator.executeLoop env d p limit l c s).liquidated_count ∧
        closed.length + c ≤ limit := by
  induction l with
  | nil =>
    intro c s hc
    exact ⟨[], List.prefix_refl _, by simp [CCdpForceLiquidator.executeLoop],
      by simp [CCdpForceLiquidator.executeLoop], by simpa using hc⟩
  | cons cdp rest ih =>
    intro c s hc
    have hc1 : (c + 1) % 2 ^ 32 = c + 1 := Nat.mod_eq_of_lt (by omega)
    unfold CCdpForceLiquidator.executeLoop
    simp only [hc1]
    split_ifs with h1 h2 h3
    · exact ⟨[], List.nil_prefix, by simp, by simp, by simpa using hc⟩
    · exact ⟨[], List.nil_prefix, by simp, by simp, by simpa using hc⟩
    · obtain ⟨closed, hp, he, hn, hm⟩ := ih (c + 1)
        (CCdpForceLiquidator.settle env d p cdp s).2 (by omega)
      have hs := CCdpForceLiquidator.settle_erased env d p cdp s
      rw [if_pos h3] at hs
      refine ⟨cdp :: closed, List.prefix_cons_inj cdp |>.mpr hp, ?_, ?_, ?_⟩
      · rw [he, hs]; simp
      · simp only [List.length_cons]; omega
      · simp only [List.length_cons]; omega
    · have hs := CCdpForceLiquidator.settle_erased env d p cdp s
      rw [if_neg h3] at hs
      exact ⟨[], List.nil_prefix, by simp [hs], by simp, by simpa using hc⟩

/-- The legacy loop, entered with `liquidated_count` within the limit, erases CDPs of the
set in order; the number erased, added to the count at entry, exceeds neither the count at
exit nor the limit. -/
theorem CCdpForceLiquidator.compatLoop_closed (env : LiqEnv) (d : CCdpCoinPairDetail)
    (p limit : Nat) (hl : limit + 1 < 2 ^ 32) (l : List CUserCDP) :
    ∀ (c curr i : Nat) (s : LiqState), c ≤ limit →
      ∃ closed, closed.Sublist l ∧
        (CCdpForceLiquidator.compatLoop env d p limit l c curr i s).state.erased
          = s.erased ++ closed ∧
        closed.length + c ≤
          (CCdpForceLiquidator.compatLoop env d p limit l c curr i s).liquidated_count ∧
        closed.length + c ≤ limit := by
  induction l with
  | nil =>
    intro c curr i s hc
    exact ⟨[], List.Sublist.refl _, by simp [CCdpForceLiquidator.compatLoop],
      by simp [CCdpForceLiquidator.compatLoop], by simpa using hc⟩
  | cons cdp rest ih =>
    intro c curr i s hc
    have hc1 : (c + 1) % 2 ^ 32 = c + 1 := Nat.mod_eq_of_lt (by omega)
    unfold CCdpForceLiquidator.compatLoop
    simp only [hc1]
    split_ifs with h1 h2 h3
    · exact ⟨[], List.nil_sublist _, by simp, by simp, by simpa using hc⟩
    · obtain ⟨closed, hp, he, hn, hm⟩ := ih (c + 1) curr i s (by omega)
      exact ⟨closed, hp.cons _, he, by omega, by omega⟩
    · obtain ⟨closed, hp, he, hn, hm⟩ := ih (c + 1) (sub64 curr cdp.total_owed_scoins)
        (CCdpForceLiquidator.settleCompat env d p cdp i s).2.2
        (CCdpForceLiquidator.settleCompat env d p cdp i s).2.1 (by omega)
      have hs := CCdpForceLiquidator.settleCompat_erased env d p cdp i s
      rw [if_pos h3] at hs
      refine ⟨cdp :: closed, hp.cons₂ _, ?_, ?_, ?_⟩
      · rw [he, hs]; simp
      · simp only [List.length_cons]; omega
      · simp only [List.length_cons]; omega
    · have hs := CCdpForceLiquidator.settleCompat_erased env d p cdp i s
      rw [if_neg h3] at hs
      exact ⟨[], List.nil_sublist _, by simp [hs], by simp, by simpa using hc⟩

/-- The legacy path on a fresh liquidator erases at most `liquidated_limit_count` CDPs, and
at most as many as its `liquidated_count` says. -/
theorem CCdpForceLiquidator.ForceLiquidateCDPCompat_closed (env : LiqEnv)
    (d : CCdpCoinPairDetail) (p limit : Nat) (hl : limit + 1 < 2 ^ 32) (l : List CUserCDP)
    (s : LiqState) :
    ∃ closed,
      (CCdpForceLiquidator.ForceLiquidateCDPCompat env d p limit l 0 s).state.erased
        = s.erased ++ closed ∧
      closed.length ≤
        (CCdpForceLiquidator.ForceLiquidateCDPCompat env d p limit l 0 s).liquidated_count ∧
      closed.length ≤ limit := by
  obtain ⟨closed, -, he, hn, hm⟩ := CCdpForceLiquidator.compatLoop_closed env d p limit hl
    (env.cdpSet l) 0 (s.riskReserveScoins env) 0 s (Nat.zero_le _)
  refine ⟨closed, ?_, ?_, by simpa using hm⟩
  · unfold CCdpForceLiquidator.ForceLiquidateCDPCompat
    simp only []
    split_ifs <;> simp [he]
  · unfold CCdpForceLiquidator.ForceLiquidateCDPCompat
    simp only []
    split_ifs <;> simpa using hn

/-- The main loop on a fresh liquidator erases at most `liquidated_limit_count` CDPs, and at
most as many as its `liquidated_count` says. -/
theorem CCdpForceLiquidator.executeLoop_closed_fresh (env : LiqEnv) (d : CCdpCoinPairDetail)
    (p limit : Nat) (hl : limit + 1 < 2 ^ 32) (l : List CUserCDP) (s : LiqState) :
    ∃ closed,
      (CCdpForceLiquidator.executeLoop env d p limit l 0 s).state.erased = s.erased ++ closed ∧
      closed.length ≤ (CCdpForceLiquidator.executeLoop env d p limit l 0 s).liquidated_count ∧
      closed.length ≤ limit := by
  obtain ⟨closed, -, he, hn, hm⟩ := CCdpForceLiquidator.executeLoop_closed env d p limit hl l 0 s
    (Nat.zero_le _)
  exact ⟨closed, he, by simpa using hn, by simpa using hm⟩

/-- One liquidator erases at most `liquidated_limit_count` CDPs, and at most as many as its
`liquidated_count` says. -/
theorem CCdpForceLiquidator.Execute_closed (env : LiqEnv) (d : CCdpCoinPairDetail)
    (p limit : Nat) (hl : limit + 1 < 2 ^ 32) (s : LiqState) :
    ∃ closed,
      (CCdpForceLiquidator.Execute env d p limit s).state.erased = s.erased ++ closed ∧
      closed.length ≤ (CCdpForceLiquidator.Execute env d p limit s).liquidated_count ∧
      closed.length ≤ limit := by
  have nil : ∀ st, ∃ closed : List CUserCDP,
      (LiquidatorResult.mk st s 0).state.erased = s.erased ++ closed ∧
      closed.length ≤ (LiquidatorResult.mk st s 0).liquidated_count ∧ closed.length ≤ limit :=
    fun st => ⟨[], by simp, by simp, by simp⟩
  unfold CCdpForceLiquidator.Execute
  split
  · exact nil _
  · split
    · exact nil _
    · split
      · exact nil _
      · simp only []
        split
        · exact nil _
        · split
          · exact CCdpForceLiquidator.ForceLiquidateCDPCompat_closed env d p limit hl _ s
          · exact CCdpForceLiquidator.executeLoop_closed_fresh env d p limit hl _ s

theorem sub32_of_le {a b : Nat} (hb : b ≤ a) (ha : a < 2 ^ 32) : sub32 a b = a - b := by
  unfold sub32
  rw [Nat.mod_eq_of_lt (lt_of_le_of_lt hb ha)]
  omega

/-- The loop over the pairs, entered with a limit that fits `uint32_t`, erases at most that
many CDPs, and never subtracts more than the limit then holds. -/
theorem forceLiquidateLoop_closed (env : LiqEnv) (version : FeatureForkVersionEnum) (p : Nat)
    (pairs : List CCdpCoinPairDetail) :
    ∀ (L : Nat) (s : LiqState), L + 1 < 2 ^ 32 →
      (∃ closed, (forceLiquidateLoop env version p pairs L s).state.erased = s.erased ++ closed ∧
        closed.length ≤ L) ∧
      ∀ x ∈ (forceLiquidateLoop env version p pairs L s).subtractions, x.2 < x.1 ∧ x.1 ≤ L := by
  induction pairs with
  | nil =>
    intro L s _
    exact ⟨⟨[], by simp [forceLiquidateLoop], by simp⟩, by simp [forceLiquidateLoop]⟩
  | cons d rest ih =>
    intro L s hL
    unfold forceLiquidateLoop
    obtain ⟨closed, he, hn, hm⟩ := CCdpForceLiquidator.Execute_closed env d p L hL s
    split
    · exact ih L s hL
    · simp only []
      split
      · exact ⟨⟨closed, he, hm⟩, by simp⟩
      · split
        · exact ⟨⟨closed, he, hm⟩, by simp⟩
        · rename_i h3
          have hlt : (CCdpForceLiquidator.Execute env d p L s).liquidated_count < L := by omega
          have hsub := sub32_of_le (le_of_lt hlt) (by omega : L < 2 ^ 32)
          obtain ⟨⟨closed2, e2, n2⟩, i2⟩ := ih
            (sub32 L (CCdpForceLiquidator.Execute env d p L s).liquidated_count)
            (CCdpForceLiquidator.Execute env d p L s).state (by omega)
          refine ⟨⟨closed ++ closed2, ?_, ?_⟩, ?_⟩
          · simp only []
            rw [e2, he, List.append_assoc]
          · rw [List.length_append]
            omega
          · intro x hx
            rcases List.mem_cons.mp hx with rfl | hx
            · exact ⟨hlt, le_refl _⟩
            · have := i2 x hx
              omega

/-- The main loop erases a leading part of its list and nothing else. -/
theorem CCdpForceLiquidator.executeLoop_erased (env : LiqEnv) (d : CCdpCoinPairDetail)
    (p limit : Nat) (l : List CUserCDP) :
    ∀ (c : Nat) (s : LiqState),
      ∃ closed, closed <+: l ∧
        (CCdpForceLiquidator.executeLoop env d p limit l c s).state.erased = s.erased ++ closed := by
  induction l with
  | nil =>
    intro c s
    exact ⟨[], List.prefix_refl _, by simp [CCdpForceLiquidator.executeLoop]⟩
  | cons cdp rest ih =>
    intro c s
    unfold CCdpForceLiquidator.executeLoop
    simp only []
    split
    · exact ⟨[], List.nil_prefix, by simp⟩
    · split
      · exact ⟨[], List.nil_prefix, by simp⟩
      · have hs := CCdpForceLiquidator.settle_erased env d p cdp s
        split
        · rename_i h3
          rw [if_pos h3] at hs
          obtain ⟨closed, hp, he⟩ := ih ((c + 1) % 2 ^ 32)
            (CCdpForceLiquidator.settle env d p cdp s).2
          exact ⟨cdp :: closed, List.prefix_cons_inj cdp |>.mpr hp, by rw [he, hs]; simp⟩
        · rename_i h3
          rw [if_neg h3] at hs
          exact ⟨[], List.nil_prefix, by simp [hs]⟩

/-- When the run of the main loop over `pre` ends normally in a state whose reserve is below
the debt of `cdp`, the run over `pre ++ cdp :: post` ends normally in that same state. -/
theorem CCdpForceLiquidator.executeLoop_append_short (env : LiqEnv) (d : CCdpCoinPairDetail)
    (p limit : Nat) (cdp : CUserCDP) (post pre : List CUserCDP) :
    ∀ (c : Nat) (s : LiqState),
      (CCdpForceLiquidator.executeLoop env d p limit pre c s).status = .returned_true →
      (CCdpForceLiquidator.executeLoop env d p limit pre c s).state.riskReserveScoins env
        < cdp.total_owed_scoins →
      (CCdpForceLiquidator.executeLoop env d p limit (pre ++ cdp :: post) c s).status
          = .returned_true ∧
        (CCdpForceLiquidator.executeLoop env d p limit (pre ++ cdp :: post) c s).state
          = (CCdpForceLiquidator.executeLoop env d p limit pre c s).state := by
  induction pre with
  | nil =>
    intro c s _ hres
    simp only [CCdpForceLiquidator.executeLoop] at hres
    simp only [List.nil_append, CCdpForceLiquidator.executeLoop]
    split
    · exact ⟨rfl, rfl⟩
    · exact ⟨rfl, rfl⟩
  | cons x xs ih =>
    intro c s hpre hres
    simp only [List.cons_append, CCdpForceLiquidator.executeLoop] at hpre hres ⊢
    split
    · exact ⟨rfl, rfl⟩
    · rename_i h1
      rw [if_neg h1] at hpre hres
      split
      · exact ⟨rfl, rfl⟩
      · rename_i h2
        rw [if_neg h2] at hpre hres
        split
        · rename_i h3
          rw [if_pos h3] at hpre hres
          exact ih _ _ hpre hres
        · rename_i h3
          rw [if_neg h3] at hpre
          exact absurd hpre h3

/-! ## Forced liquidation: the claims -/

/-- C12. With `CDP_FORCE_LIQUIDATE_MAX_COUNT` below `2^32 - 1`, one run of the loop of
`ForceLiquidateCdps` erases, over all coin pairs, at most `CDP_FORCE_LIQUIDATE_MAX_COUNT`
CDPs, whatever way it ends; every subtraction from the remaining budget takes away less than
the budget holds, so it does not wrap and the budget stays within the cap; and a liquidator
given a budget within the cap erases at most that budget. -/
theorem ForceLiquidateCdps_closed_le_max (env : LiqEnv) (version : FeatureForkVersionEnum)
    (fcoinUsdPrice : Nat) (cdpCoinPairSet : List CCdpCoinPairDetail) (s : LiqState)
    (hmax : env.CDP_FORCE_LIQUIDATE_MAX_COUNT + 1 < 2 ^ 32) :
    (∃ closed,
      (ForceLiquidateCdps env version fcoinUsdPrice cdpCoinPairSet s).state.erased
        = s.erased ++ closed ∧
      closed.length ≤ env.CDP_FORCE_LIQUIDATE_MAX_COUNT) ∧
    (∀ x ∈ (ForceLiquidateCdps env version fcoinUsdPrice cdpCoinPairSet s).subtractions,
      x.2 < x.1 ∧ x.1 ≤ env.CDP_FORCE_LIQUIDATE_MAX_COUNT ∧ sub32 x.1 x.2 = x.1 - x.2) ∧
    (∀ d L t, L ≤ env.CDP_FORCE_LIQUIDATE_MAX_COUNT →
      ∃ closed,
        (CCdpForceLiquidator.Execute env d fcoinUsdPrice L t).state.erased = t.erased ++ closed ∧
        closed.length ≤ L) := by
  have hmod : env.CDP_FORCE_LIQUIDATE_MAX_COUNT % 2 ^ 32 = env.CDP_FORCE_LIQUIDATE_MAX_COUNT :=
    Nat.mod_eq_of_lt (by omega)
  have h := forceLiquidateLoop_closed env version fcoinUsdPrice cdpCoinPairSet
    env.CDP_FORCE_LIQUIDATE_MAX_COUNT s hmax
  unfold ForceLiquidateCdps
  rw [hmod]
  refine ⟨h.1, ?_, ?_⟩
  · intro x hx
    obtain ⟨h1, h2⟩ := h.2 x hx
    exact ⟨h1, h2, sub32_of_le (le_of_lt h1) (by omega)⟩
  · intro d L t hL
    obtain ⟨closed, he, -, hm⟩ := CCdpForceLiquidator.Execute_closed env d fcoinUsdPrice L
      (by omega) t
    exact ⟨closed, he, hm⟩

set_option maxRecDepth 100000 in
/-- C12 (witness): with a cap of 2 and a reserve of 1000 `WUSD`, three CDPs are at risk; the
run returns true having erased the first two. -/
theorem ForceLiquidateCdps_closed_le_max_witness :
    (exampleLiqEnv .MAIN_NET [cdpB, cdpC, cdpA]).CDP_FORCE_LIQUIDATE_MAX_COUNT + 1 < 2 ^ 32 ∧
    (ForceLiquidateCdps (exampleLiqEnv .MAIN_NET [cdpB, cdpC, cdpA]) .MAJOR_VER_R3 100000000
      [wiccWusd] (exampleLiqState 1000)).status = .returned_true ∧
    (ForceLiquidateCdps (exampleLiqEnv .MAIN_NET [cdpB, cdpC, cdpA]) .MAJOR_VER_R3 100000000
      [wiccWusd] (exampleLiqState 1000)).state.erased = [cdpB, cdpC] ∧
    ∃ closed,
      (ForceLiquidateCdps (exampleLiqEnv .MAIN_NET [cdpB, cdpC, cdpA]) .MAJOR_VER_R3 100000000
        [wiccWusd] (exampleLiqState 1000)).state.erased = (exampleLiqState 1000).erased ++ closed ∧
      closed.length ≤ (exampleLiqEnv .MAIN_NET [cdpB, cdpC, cdpA]).CDP_FORCE_LIQUIDATE_MAX_COUNT :=
  ⟨by decide, by decide, by decide,
    (ForceLiquidateCdps_closed_le_max (exampleLiqEnv .MAIN_NET [cdpB, cdpC, cdpA]) .MAJOR_VER_R3
      100000000 [wiccWusd] (exampleLiqState 1000) (by decide)).1⟩

set_option maxRecDepth 100000 in
/-- C13 (counterexample to the claim as worded). On the legacy path with 50 free `WUSD` in the
reserve, `cdpA` (debt 100) comes first and is passed over, and `cdpB` (debt 10), which comes
after it, is liquidated: it is erased, the collateral of its owner leaves the pledged
bucket, and a sell order is created. -/
theorem ForceLiquidateCDPCompat_continues_counterexample :
    (exampleLiqState 50).riskReserveScoins (exampleLiqEnv .TEST_NET [cdpA, cdpB])
      < cdpA.total_owed_scoins ∧
    (CCdpForceLiquidator.Execute (exampleLiqEnv .TEST_NET [cdpA, cdpB]) wiccWusd 100000000 10
      (exampleLiqState 50)).status = .returned_true ∧
    (CCdpForceLiquidator.Execute (exampleLiqEnv .TEST_NET [cdpA, cdpB]) wiccWusd 100000000 10
      (exampleLiqState 50)).state.erased = [cdpB] ∧
    (((CCdpForceLiquidator.Execute (exampleLiqEnv .TEST_NET [cdpA, cdpB]) wiccWusd 100000000 10
      (exampleLiqState 50)).state.ledger.accounts 2).GetToken "WICC").pledged_amount = 980 ∧
    (CCdpForceLiquidator.Execute (exampleLiqEnv .TEST_NET [cdpA, cdpB]) wiccWusd 100000000 10
      (exampleLiqState 50)).state.orders =
        [(.GenOrderIdCompat 7 0, ⟨"WUSD", "WICC", 20, 2⟩)] := by
  decide


/-- C13 (amended). In the main loop of `Execute`: when the run over the CDPs before `cdp`
ends normally in a state whose reserve holds less free stable coin than `cdp` owes, the run
over the whole list returns true in that very state, so `cdp` and all CDPs after it leave
no trace, and what was erased is a leading part of the CDPs before `cdp`. In the legacy
loop: a CDP that owes more than the running reserve figure is passed over, and the loop
goes on with the CDPs after it, from the same state, figure and order index. -/
theorem forced_liquidation_reserve_short (env : LiqEnv) (d : CCdpCoinPairDetail)
    (p limit : Nat) (pre : List CUserCDP) (cdp : CUserCDP) (post : List CUserCDP) (c : Nat)
    (s : LiqState) (curr i : Nat)
    (hpre : (CCdpForceLiquidator.executeLoop env d p limit pre c s).status = .returned_true)
    (hres : (CCdpForceLiquidator.executeLoop env d p limit pre c s).state.riskReserveScoins env
      < cdp.total_owed_scoins)
    (hc : c + 1 ≤ limit) (hl : limit < 2 ^ 32) (hcurr : curr < cdp.total_owed_scoins) :
    (CCdpForceLiquidator.executeLoop env d p limit (pre ++ cdp :: post) c s).status
      = .returned_true ∧
    (CCdpForceLiquidator.executeLoop env d p limit (pre ++ cdp :: post) c s).state
      = (CCdpForceLiquidator.executeLoop env d p limit pre c s).state ∧
    (∃ closed, closed <+: pre ∧
      (CCdpForceLiquidator.executeLoop env d p limit (pre ++ cdp :: post) c s).state.erased
        = s.erased ++ closed) ∧
    CCdpForceLiquidator.compatLoop env d p limit (cdp :: post) c curr i s
      = CCdpForceLiquidator.compatLoop env d p limit post (c + 1) curr i s := by
  obtain ⟨h1, h2⟩ := CCdpForceLiquidator.executeLoop_append_short env d p limit cdp post pre c s
    hpre hres
  refine ⟨h1, h2, ?_, ?_⟩
  · rw [h2]
    exact CCdpForceLiquidator.executeLoop_erased env d p limit pre c s
  · have hc1 : (c + 1) % 2 ^ 32 = c + 1 := Nat.mod_eq_of_lt (by omega)
    rw [CCdpForceLiquidator.compatLoop]
    simp only [hc1]
    rw [if_neg (by omega), if_pos hcurr]

set_option maxRecDepth 100000 in
/-- C13 (witness): on the main path with 50 free `WUSD` in the reserve, `cdpB` (debt 10) is
liquidated, `cdpA` (debt 100) stops the run, and `cdpC` (debt 15) after it is not erased. -/
theorem forced_liquidation_reserve_short_witness :
    (CCdpForceLiquidator.executeLoop (exampleLiqEnv .MAIN_NET [cdpB, cdpA, cdpC]) wiccWusd
      100000000 10 [cdpB] 0 (exampleLiqState 50)).status = .returned_true ∧
    (CCdpForceLiquidator.executeLoop (exampleLiqEnv .MAIN_NET [cdpB, cdpA, cdpC]) wiccWusd
      100000000 10 [cdpB] 0 (exampleLiqState 50)).state.riskReserveScoins
        (exampleLiqEnv .MAIN_NET [cdpB, cdpA, cdpC]) < cdpA.total_owed_scoins ∧
    (CCdpForceLiquidator.executeLoop (exampleLiqEnv .MAIN_NET [cdpB, cdpA, cdpC]) wiccWusd
      100000000 10 ([cdpB] ++ cdpA :: [cdpC]) 0 (exampleLiqState 50)).state.erased = [cdpB] ∧
    (CCdpForceLiquidator.executeLoop (exampleLiqEnv .MAIN_NET [cdpB, cdpA, cdpC]) wiccWusd
      100000000 10 ([cdpB] ++ cdpA :: [cdpC]) 0 (exampleLiqState 50)).state
      = (CCdpForceLiquidator.executeLoop (exampleLiqEnv .MAIN_NET [cdpB, cdpA, cdpC]) wiccWusd
        100000000 10 [cdpB] 0 (exampleLiqState 50)).state :=
  ⟨by decide, by decide, by decide,
    (forced_liquidation_reserve_short (exampleLiqEnv .MAIN_NET [cdpB, cdpA, cdpC]) wiccWusd
      100000000 10 [cdpB] cdpA [cdpC] 0 (exampleLiqState 50) 50 0 (by decide) (by decide)
      (by decide) (by decide) (by decide)).2.1⟩

/-! ## Candidate votes: range, order, revocation -/

/-- A successful call went through the whole vote loop, and returns the sorted list of what
the loop left. -/
theorem ProcessCandidateVotes_list (env : VoteEnv) (this : CAccount)
    (votesIn : List CCandidateVote) (votesInOut : List CCandidateReceivedVote)
    (h t : Nat) (rs : ReceiptList) (r : VoteResult)
    (hr : ProcessCandidateVotes env this votesIn votesInOut h t rs = some r)
    (hok : r.ok = true) :
    (applyCandidateVotes env votesInOut votesIn).1 = true ∧
    r.candidateVotes = sortCandidateVotes (applyCandidateVotes env votesInOut votesIn).2 := by
  unfold ProcessCandidateVotes at hr
  split_ifs at hr with hh
  · simp only [Option.some.injEq] at hr; subst hr; exact absurd hok (by simp)
  simp only at hr
  rcases hx : applyCandidateVotes env votesInOut votesIn with ⟨b, votes⟩
  rw [hx] at hr
  cases b
  · simp only [Option.some.injEq] at hr; subst hr; exact absurd hok (by simp)
  simp only at hr
  refine ⟨rfl, ?_⟩
  split_ifs at hr with h1 h2 h3 h4
  · simp only [Option.some.injEq] at hr; subst hr; exact absurd hok (by simp)
  · exact (collectVoteInterest_ok env _ _ _ h t _ r hr hok).1
  · simp only [Option.some.injEq] at hr; subst hr; exact absurd hok (by simp)
  · exact (collectVoteInterest_ok env _ _ _ h t _ r hr hok).1
  · exact (collectVoteInterest_ok env _ _ _ h t _ r hr hok).1

/-- C22. After every successful `ProcessCandidateVotes` call the returned candidate list is
sorted in non-increasing order of votes and is a permutation of the list that the vote loop,
having applied every vote in order without error, left. -/
theorem ProcessCandidateVotes_sorted_perm (env : VoteEnv) (this : CAccount)
    (votesIn : List CCandidateVote) (votesInOut : List CCandidateReceivedVote)
    (h t : Nat) (rs : ReceiptList) (r : VoteResult)
    (hr : ProcessCandidateVotes env this votesIn votesInOut h t rs = some r)
    (hok : r.ok = true) :
    (applyCandidateVotes env votesInOut votesIn).1 = true ∧
    r.candidateVotes.Sorted votesDescending ∧
    r.candidateVotes.Perm (applyCandidateVotes env votesInOut votesIn).2 := by
  obtain ⟨h1, h2⟩ := ProcessCandidateVotes_list env this votesIn votesInOut h t rs r hr hok
  rw [h2]
  exact ⟨h1, sortCandidateVotes_sorted _, sortCandidateVotes_perm _⟩

/-- C22 (witness): two first-time votes of 300 and 500 come back as 500, 300. -/
theorem ProcessCandidateVotes_sorted_perm_witness :
    ∃ r, ProcessCandidateVotes envR2 (wiccAccount 1 { free_amount := 1000 }) smallVotes []
        10 10 [] = some r ∧ r.ok = true ∧
      r.candidateVotes = [⟨.regid 2, 500⟩, ⟨.regid 1, 300⟩] ∧
      r.candidateVotes.Sorted votesDescending ∧
      r.candidateVotes.Perm (applyCandidateVotes envR2 [] smallVotes).2 :=
  ⟨_, rfl, by decide, by decide,
    (ProcessCandidateVotes_sorted_perm envR2 (wiccAccount 1 { free_amount := 1000 }) smallVotes
      [] 10 10 [] _ rfl (by decide)).2⟩

/-- C21 (the code at the failing input). With the bound at 21 billion coins, an account
with `2^63` free units casts a first-time vote of `2^62` units, which is above the bound:
the call succeeds and the list holds the entry of `2^62`. The same vote on an existing entry
of the candidate is refused. -/
theorem ProcessCandidateVotes_new_vote_unchecked :
    IsBcoinWithinRange envR2 (2 ^ 62) = false ∧
    (∃ r, ProcessCandidateVotes envR2 (wiccAccount 1 { free_amount := 2 ^ 63 })
        [⟨.ADD_BCOIN, .regid 1, 2 ^ 62⟩] [] 10 10 [] = some r ∧
      r.ok = true ∧ r.candidateVotes = [⟨.regid 1, 2 ^ 62⟩]) ∧
    (∃ r, ProcessCandidateVotes envR2 (wiccAccount 1 { free_amount := 2 ^ 63 })
        [⟨.ADD_BCOIN, .regid 1, 2 ^ 62⟩] [⟨.regid 1, 5⟩] 10 10 [] = some r ∧
      r.ok = false) :=
  ⟨by decide, ⟨_, rfl, by decide, by decide⟩, ⟨_, rfl, by decide⟩⟩

/-- An `ADD_BCOIN` vote for a candidate already in the list succeeds only when both the
amount and the resulting entry are within the bound. -/
theorem applyCandidateVote_ADD_existing (env : VoteEnv) (l : List CCandidateReceivedVote)
    (vote : CCandidateVote) (i : Nat) (hv : vote.vote_type = .ADD_BCOIN)
    (hi : find_if (candidateMatches env vote.candidate_uid) l = some i)
    (hok : (applyCandidateVote env l vote).1 = true) :
    IsBcoinWithinRange env vote.voted_bcoins = true ∧
    IsBcoinWithinRange env
      (add64 (l.getD i ⟨.null, 0⟩).voted_bcoins vote.voted_bcoins) = true := by
  unfold applyCandidateVote at hok
  rw [hv, hi] at hok
  simp only at hok
  split_ifs at hok with h1 h2
  cases h1' : IsBcoinWithinRange env vote.voted_bcoins
  · rw [h1'] at h1; exact absurd rfl h1
  · cases h2' : IsBcoinWithinRange env
        (add64 (l.getD i ⟨.null, 0⟩).voted_bcoins vote.voted_bcoins)
    · rw [h2'] at h2; exact absurd rfl h2
    · exact ⟨rfl, rfl⟩

theorem modify_eraseIdx {α : Type} (f : α → α) (l : List α) (i : Nat) :
    (l.modify f i).eraseIdx i = l.eraseIdx i := by
  induction l generalizing i with
  | nil => cases i <;> simp
  | cons x xs ih =>
    cases i with
    | zero => simp
    | succ n => simp [ih]

/-- A failing vote makes the whole call fail. -/
theorem ProcessCandidateVotes_fails (env : VoteEnv) (this : CAccount)
    (votesIn : List CCandidateVote) (votesInOut : List CCandidateReceivedVote)
    (h t : Nat) (rs : ReceiptList)
    (hf : (applyCandidateVotes env votesInOut votesIn).1 = false) :
    ∃ r, ProcessCandidateVotes env this votesIn votesInOut h t rs = some r ∧ r.ok = false := by
  unfold ProcessCandidateVotes
  split_ifs
  · exact ⟨_, rfl, rfl⟩
  · rcases hx : applyCandidateVotes env votesInOut votesIn with ⟨b, votes⟩
    rw [hx] at hf
    simp only at hf
    subst hf
    exact ⟨_, rfl, rfl⟩

theorem applyCandidateVotes_append (env : VoteEnv) (l0 l : List CCandidateReceivedVote)
    (pre post : List CCandidateVote) (vote : CCandidateVote)
    (hpre : applyCandidateVotes env l0 pre = (true, l))
    (hf : (applyCandidateVote env l vote).1 = false) :
    (applyCandidateVotes env l0 (pre ++ vote :: post)).1 = false := by
  induction pre generalizing l0 with
  | nil =>
    simp only [applyCandidateVotes, Prod.mk.injEq, true_and] at hpre
    subst hpre
    simp only [List.nil_append, applyCandidateVotes]
    rcases hx : applyCandidateVote env l0 vote with ⟨b, next⟩
    rw [hx] at hf
    simp only at hf
    subst hf
    rfl
  | cons v vs ih =>
    simp only [List.cons_append, applyCandidateVotes] at hpre ⊢
    rcases hx : applyCandidateVote env l0 v with ⟨b, next⟩
    rw [hx] at hpre
    cases b
    · simp at hpre
    · simp only at hpre ⊢
      exact ih next hpre

/-- C23 (counterexample to the claim as worded). With the bound at 21 billion coins
(`2.1 * 10^18` units), the list holds an entry of `2^62` units for candidate 1. A
`MINUS_BCOIN` vote of `3 * 10^18` units for that candidate matches the entry and does not
exceed it, yet the call fails and the entry stays as it was. -/
theorem ProcessCandidateVotes_MINUS_range_counterexample :
    find_if (candidateMatches envR2 (.regid 1)) [⟨.regid 1, 2 ^ 62⟩] = some 0 ∧
    3000000000000000000 ≤ 2 ^ 62 ∧
    ∃ r, ProcessCandidateVotes envR2 (wiccAccount 1 { voted_amount := 2 ^ 62 })
        [⟨.MINUS_BCOIN, .regid 1, 3000000000000000000⟩] [⟨.regid 1, 2 ^ 62⟩] 10 10 []
        = some r ∧
      r.ok = false ∧ r.candidateVotes = [⟨.regid 1, 2 ^ 62⟩] :=
  ⟨by decide, by decide, _, rfl, by decide, by decide⟩

/-- C23 (amended). A `MINUS_BCOIN` vote fails, and with it the whole call, when no entry
matches the candidate, when the amount is outside the maximum-supply bound, or when the
amount exceeds the votes of the matched entry. Otherwise it succeeds: the matched entry is
removed when the amount equals its votes, and is lowered by exactly the amount, to a
nonzero value, when the amount is smaller; the other entries stay as they were. -/
theorem applyCandidateVote_MINUS_BCOIN (env : VoteEnv) (l : List CCandidateReceivedVote)
    (vote : CCandidateVote) (hl : ∀ e ∈ l, e.voted_bcoins < U64)
    (hv : vote.vote_type = .MINUS_BCOIN) :
    (match find_if (candidateMatches env vote.candidate_uid) l with
      | none => (applyCandidateVote env l vote).1 = false
      | some i =>
        if IsBcoinWithinRange env vote.voted_bcoins = true ∧
            vote.voted_bcoins ≤ (l.getD i ⟨.null, 0⟩).voted_bcoins then
          applyCandidateVote env l vote =
            (true,
              if vote.voted_bcoins = (l.getD i ⟨.null, 0⟩).voted_bcoins then l.eraseIdx i
              else l.modify (fun e => { e with voted_bcoins :=
                (l.getD i ⟨.null, 0⟩).voted_bcoins - vote.voted_bcoins }) i) ∧
          (vote.voted_bcoins ≠ (l.getD i ⟨.null, 0⟩).voted_bcoins →
            0 < (l.getD i ⟨.null, 0⟩).voted_bcoins - vote.voted_bcoins)
        else (applyCandidateVote env l vote).1 = false) ∧
    ∀ (this : CAccount) (l0 : List CCandidateReceivedVote) (pre post : List CCandidateVote)
      (h t : Nat) (rs : ReceiptList),
      applyCandidateVotes env l0 pre = (true, l) → (applyCandidateVote env l vote).1 = false →
      ∃ r, ProcessCandidateVotes env this (pre ++ vote :: post) l0 h t rs = some r ∧
        r.ok = false := by
  refine ⟨?_, ?_⟩
  · unfold applyCandidateVote
    rw [hv]
    simp only
    cases hfi : find_if (candidateMatches env vote.candidate_uid) l with
    | none => rfl
    | some i =>
      simp only
      have hcur : (l.getD i ⟨.null, 0⟩).voted_bcoins < U64 := by
        by_cases hi : i < l.length
        · rw [List.getD_eq_getElem l _ hi]
          exact hl _ (List.getElem_mem hi)
        · rw [List.getD_eq_default l _ (by omega)]
          exact U64_pos
      by_cases hr : IsBcoinWithinRange env vote.voted_bcoins = true
      · by_cases hle : vote.voted_bcoins ≤ (l.getD i ⟨.null, 0⟩).voted_bcoins
        · rw [if_pos ⟨hr, hle⟩]
          have hsub := sub64_of_le hle hcur
          simp only [hr, Bool.not_true, Bool.false_eq_true, if_false, if_neg (Nat.not_lt.mpr hle),
            hsub]
          refine ⟨?_, fun hne => by omega⟩
          by_cases he : vote.voted_bcoins = (l.getD i ⟨.null, 0⟩).voted_bcoins
          · rw [if_pos (by omega), if_pos he, modify_eraseIdx]
          · rw [if_neg (by omega), if_neg he]
        · rw [if_neg (fun hc => hle hc.2)]
          simp only [hr, Bool.not_true, Bool.false_eq_true, if_false,
            if_pos (Nat.lt_of_not_le hle)]
      · rw [if_neg (fun hc => hr hc.1)]
        simp only [Bool.not_eq_true] at hr
        simp [hr]
  · intro this l0 pre post h t rs hpre hf
    exact ProcessCandidateVotes_fails env this _ l0 h t rs
      (applyCandidateVotes_append env l0 l pre post vote hpre hf)

/-- C23 (witness): revoking 200 of the 500 votes for candidate 1 leaves 300. -/
theorem applyCandidateVote_MINUS_BCOIN_witness :
    (∀ e ∈ [(⟨.regid 1, 500⟩ : CCandidateReceivedVote)], e.voted_bcoins < U64) ∧
    applyCandidateVote envR2 [⟨.regid 1, 500⟩] ⟨.MINUS_BCOIN, .regid 1, 200⟩
      = (true, [⟨.regid 1, 300⟩]) ∧
    applyCandidateVote envR2 [⟨.regid 1, 500⟩] ⟨.MINUS_BCOIN, .regid 1, 500⟩ = (true, []) ∧
    ∀ (this : CAccount) (l0 : List CCandidateReceivedVote) (pre post : List CCandidateVote)
      (h t : Nat) (rs : ReceiptList),
      applyCandidateVotes envR2 l0 pre = (true, [⟨.regid 1, 500⟩]) →
      (applyCandidateVote envR2 [⟨.regid 1, 500⟩] ⟨.MINUS_BCOIN, .regid 1, 200⟩).1 = false →
      ∃ r, ProcessCandidateVotes envR2 this (pre ++ ⟨.MINUS_BCOIN, .regid 1, 200⟩ :: post) l0
        h t rs = some r ∧ r.ok = false :=
  ⟨by decide, by decide, by decide,
    (applyCandidateVote_MINUS_BCOIN envR2 [⟨.regid 1, 500⟩] ⟨.MINUS_BCOIN, .regid 1, 200⟩
      (by decide) rfl).2⟩

/-! ## Vote interest in governance coins -/

set_option maxRecDepth 100000 in
/-- C24 (counterexample to the claim as worded). On the main network, inside the mining window,
94,608,000 units voted over 21 seconds: `floor(94608000 * 21 / 31536000) = 63`, but the
function returns 62, the quotient `21 / 31536000.0` having been rounded down in `double`.
And an account whose `last_vote_epoch` is `2^32 + 2000`, which is not below the current
time 2021, is read through the `uint32_t` local as 2000 and gets the same 62, not 0. -/
theorem ComputeVoteFcoinInterest_floor_counterexample :
    envMainNet.FCOIN_VOTEMINE_EPOCH_FROM < envMainNet.FCOIN_VOTEMINE_EPOCH_TO ∧
    min 2021 envMainNet.FCOIN_VOTEMINE_EPOCH_TO
      - max voter.last_vote_epoch envMainNet.FCOIN_VOTEMINE_EPOCH_FROM = 21 ∧
    94608000 * 21 / 31536000 = 63 ∧
    fcoinInterestDouble 94608000 21 = some 62 ∧
    voter.ComputeVoteFcoinInterest envMainNet 94608000 2021 = some 62 ∧
    ({ keyid := 1, last_vote_epoch := 2 ^ 32 + 2000 } : CAccount).last_vote_epoch ≥ 2021 ∧
    ({ keyid := 1, last_vote_epoch := 2 ^ 32 + 2000 } : CAccount).ComputeVoteFcoinInterest
      envMainNet 94608000 2021 = some 62 := by
  decide

theorem envMainNet_FormulaIsDouble : envMainNet.FormulaIsDouble := by
  intro v d n h
  show (fcoinInterestDouble v d).getD 0 = n
  rw [h]; rfl

/-- C24 (amended). With `last_vote_epoch` read through the `uint32_t` local, that is modulo
`2^32`, and a current time that is a `uint32_t`: `ComputeVoteFcoinInterest` returns 0 when
`lastVotedAmount = 0` or `last_vote_epoch >= currentEpochTime`. Otherwise, on the main
network with `EPOCH_FROM < EPOCH_TO`, it returns 0 when the interval from
`max(last_vote_epoch, EPOCH_FROM)` to `min(currentEpochTime, EPOCH_TO)` is empty, and
otherwise the value of the `double` expression `lastVotedAmount * (duration / 31536000.0)`
truncated to an integer, `duration` being the length of that interval; the assertion that
the clamped end is greater than the clamped start never fails. -/
theorem ComputeVoteFcoinInterest_main_net (env : VoteEnv) (a : CAccount) (v t : Nat)
    (hmain : env.isMainNet = true)
    (hft : env.FCOIN_VOTEMINE_EPOCH_FROM < env.FCOIN_VOTEMINE_EPOCH_TO)
    (hd : env.FormulaIsDouble) (ht : t < 2 ^ 32) :
    (v = 0 ∨ a.last_vote_epoch % 2 ^ 32 ≥ t → a.ComputeVoteFcoinInterest env v t = some 0) ∧
    (v ≠ 0 → a.last_vote_epoch % 2 ^ 32 < t →
      (min t env.FCOIN_VOTEMINE_EPOCH_TO ≤
          max (a.last_vote_epoch % 2 ^ 32) env.FCOIN_VOTEMINE_EPOCH_FROM →
        a.ComputeVoteFcoinInterest env v t = some 0) ∧
      (max (a.last_vote_epoch % 2 ^ 32) env.FCOIN_VOTEMINE_EPOCH_FROM <
          min t env.FCOIN_VOTEMINE_EPOCH_TO →
        ∀ n, fcoinInterestDouble v (min t env.FCOIN_VOTEMINE_EPOCH_TO
            - max (a.last_vote_epoch % 2 ^ 32) env.FCOIN_VOTEMINE_EPOCH_FROM) = some n →
          a.ComputeVoteFcoinInterest env v t = some n)) ∧
    a.ComputeVoteFcoinInterest env v t ≠ none := by
  have hL : a.last_vote_epoch % 2 ^ 32 < 2 ^ 32 := Nat.mod_lt _ (by norm_num)
  have hT : t % 2 ^ 32 = t := Nat.mod_eq_of_lt ht
  have hdef : ∀ L, a.last_vote_epoch % 2 ^ 32 = L →
      a.ComputeVoteFcoinInterest env v t =
        if v = 0 then some 0
        else if L ≥ t then some 0
        else if env.isMainNet then
          if t ≤ env.FCOIN_VOTEMINE_EPOCH_FROM ∨ L ≥ env.FCOIN_VOTEMINE_EPOCH_TO then some 0
          else
            if (if t > env.FCOIN_VOTEMINE_EPOCH_TO then env.FCOIN_VOTEMINE_EPOCH_TO % 2 ^ 32
                else t) >
              (if L < env.FCOIN_VOTEMINE_EPOCH_FROM then env.FCOIN_VOTEMINE_EPOCH_FROM % 2 ^ 32
                else L) then
              some (env.fcoinInterestFormula v
                ((if t > env.FCOIN_VOTEMINE_EPOCH_TO then env.FCOIN_VOTEMINE_EPOCH_TO % 2 ^ 32
                  else t) -
                (if L < env.FCOIN_VOTEMINE_EPOCH_FROM then env.FCOIN_VOTEMINE_EPOCH_FROM % 2 ^ 32
                  else L)))
            else none
        else some (env.fcoinInterestFormula v (t - L)) := by
    intro L hLdef
    unfold CAccount.ComputeVoteFcoinInterest
    simp only [hLdef, hT]
  generalize hLdef : a.last_vote_epoch % 2 ^ 32 = L at hL ⊢
  have hc := hdef L hLdef
  clear hdef
  generalize a.ComputeVoteFcoinInterest env v t = c at hc ⊢
  have key : v ≠ 0 → L < t →
      max L env.FCOIN_VOTEMINE_EPOCH_FROM < min t env.FCOIN_VOTEMINE_EPOCH_TO →
      c = some (env.fcoinInterestFormula v
        (min t env.FCOIN_VOTEMINE_EPOCH_TO - max L env.FCOIN_VOTEMINE_EPOCH_FROM)) := by
    intro hv hlt hne
    have h1 : ¬ (t ≤ env.FCOIN_VOTEMINE_EPOCH_FROM ∨ L ≥ env.FCOIN_VOTEMINE_EPOCH_TO) := by
      intro h
      simp only [lt_min_iff, max_lt_iff] at hne
      omega
    simp only [lt_min_iff, max_lt_iff] at hne
    have hF : env.FCOIN_VOTEMINE_EPOCH_FROM % 2 ^ 32 = env.FCOIN_VOTEMINE_EPOCH_FROM :=
      Nat.mod_eq_of_lt (by omega)
    rw [if_neg hv, if_neg (Nat.not_le.mpr hlt), hmain, if_pos rfl, if_neg h1, hF] at hc
    subst hc
    by_cases hTO : t > env.FCOIN_VOTEMINE_EPOCH_TO
    · have hTOm : env.FCOIN_VOTEMINE_EPOCH_TO % 2 ^ 32 = env.FCOIN_VOTEMINE_EPOCH_TO :=
        Nat.mod_eq_of_lt (by omega)
      rw [if_pos hTO, hTOm]
      split_ifs <;> first
        | (congr 2 <;> simp only [Nat.min_def, Nat.max_def] <;> split_ifs <;> omega)
        | (exfalso; omega)
    · rw [if_neg hTO]
      split_ifs <;> first
        | (congr 2 <;> simp only [Nat.min_def, Nat.max_def] <;> split_ifs <;> omega)
        | (exfalso; omega)
  have zero : v ≠ 0 → L < t →
      min t env.FCOIN_VOTEMINE_EPOCH_TO ≤ max L env.FCOIN_VOTEMINE_EPOCH_FROM →
      c = some 0 := by
    intro hv hlt he
    have h1 : t ≤ env.FCOIN_VOTEMINE_EPOCH_FROM ∨ L ≥ env.FCOIN_VOTEMINE_EPOCH_TO := by
      simp only [min_le_iff, le_max_iff] at he
      omega
    rw [if_neg hv, if_neg (Nat.not_le.mpr hlt), hmain, if_pos rfl, if_pos h1] at hc
    exact hc
  refine ⟨?_, fun hv hlt => ⟨zero hv hlt, fun hne n hn => ?_⟩, ?_⟩
  · rintro (h | h)
    · rw [if_pos h] at hc; exact hc
    · by_cases hv : v = 0
      · rw [if_pos hv] at hc; exact hc
      · rw [if_neg hv, if_pos h] at hc; exact hc
  · rw [key hv hlt hne, hd _ _ n hn]
  · by_cases hv : v = 0
    · rw [if_pos hv] at hc; rw [hc]; simp
    by_cases hlt : L < t
    · by_cases hne : max L env.FCOIN_VOTEMINE_EPOCH_FROM < min t env.FCOIN_VOTEMINE_EPOCH_TO
      · rw [key hv hlt hne]; simp
      · rw [zero hv hlt (Nat.le_of_not_lt hne)]; simp
    · rw [if_neg hv, if_pos (Nat.le_of_not_lt hlt)] at hc; rw [hc]; simp

set_option maxRecDepth 100000 in
/-- C24 (witness): a year inside the window on 1000 units gives 1000; a vote that began
before the window is counted from the window's start. -/
theorem ComputeVoteFcoinInterest_main_net_witness :
    envMainNet.isMainNet = true ∧
    envMainNet.FCOIN_VOTEMINE_EPOCH_FROM < envMainNet.FCOIN_VOTEMINE_EPOCH_TO ∧
    31538000 < 2 ^ 32 ∧
    voter.ComputeVoteFcoinInterest envMainNet 1000 31538000 = some 1000 ∧
    ({ keyid := 1, last_vote_epoch := 10 } : CAccount).ComputeVoteFcoinInterest envMainNet
      1000 31537000 = some 1000 ∧
    voter.ComputeVoteFcoinInterest envMainNet 1000 31538000 ≠ none :=
  ⟨by decide, by decide, by decide, by decide, by decide,
    (ComputeVoteFcoinInterest_main_net envMainNet voter 1000 31538000 (by decide) (by decide)
      envMainNet_FormulaIsDouble (by decide)).2.2⟩

/-! ## Median prices -/

theorem PriceCoinPair.lt_irreflexive (a : PriceCoinPair) : ¬ PriceCoinPair.lt a a := by
  rintro (h | ⟨-, h⟩) <;> exact absurd h (lt_irrefl _)

theorem PriceCoinPair.lt_asymmetric {a b : PriceCoinPair} (h : PriceCoinPair.lt a b) :
    ¬ PriceCoinPair.lt b a := by
  rcases h with h | ⟨e, h⟩
  · rintro (h2 | ⟨e2, -⟩)
    · exact absurd h2 (lt_asymm h)
    · rw [e2] at h; exact absurd h (lt_irrefl _)
  · rintro (h2 | ⟨-, h2⟩)
    · rw [e] at h2; exact absurd h2 (lt_irrefl _)
    · exact absurd h2 (lt_asymm h)

theorem pricesAgree_iff (m : PriceMap) (c : PriceDetailMap) :
    pricesAgree m c = true ↔ m = c.map (fun e => (e.1, e.2.price)) := by
  induction m generalizing c with
  | nil => cases c <;> simp [pricesAgree]
  | cons x xs ih =>
    cases c with
    | nil => simp [pricesAgree]
    | cons y ys =>
      simp only [pricesAgree, List.map_cons, List.cons.injEq]
      by_cases h : x.1 ≠ y.1 ∨ x.2 ≠ y.2.price
      · rw [if_pos h]
        constructor
        · intro hc; cases hc
        · rintro ⟨e, -⟩
          rcases h with h | h
          · exact absurd (congrArg Prod.fst e) h
          · exact absurd (congrArg Prod.snd e) h
      · rw [if_neg h, ih]
        have h' : x.1 = y.1 ∧ x.2 = y.2.price := by
          constructor
          · by_contra hc; exact h (Or.inl hc)
          · by_contra hc; exact h (Or.inr hc)
        constructor
        · intro e; exact ⟨Prod.ext h'.1 h'.2, e⟩
        · intro e; exact e.2

theorem EqualToCalculatedPrices_eq (m : PriceMap) (c : PriceDetailMap) :
    EqualToCalculatedPrices m c = true ↔
      m.filter (fun item => decide (item.2 ≠ 0)) = c.map (fun e => (e.1, e.2.price)) := by
  unfold EqualToCalculatedPrices
  simp only
  split_ifs with h
  · constructor
    · intro hc; cases hc
    · intro e; rw [e, List.length_map] at h; exact absurd rfl h
  · exact pricesAgree_iff _ _

/-- Two key-sorted lists with the same elements are equal. -/
theorem KeySorted.eq_of_mem {β : Type} {a b : List (PriceCoinPair × β)} (ha : KeySorted a)
    (hb : KeySorted b) (h : ∀ x, x ∈ a ↔ x ∈ b) : a = b := by
  have nodup : ∀ {l : List (PriceCoinPair × β)}, KeySorted l → l.Nodup := by
    intro l hl
    unfold KeySorted at hl
    refine hl.imp ?_
    intro x y hxy e
    rw [e] at hxy
    exact PriceCoinPair.lt_irreflexive y.1 hxy
  have hperm : a.Perm b := (List.perm_ext_iff_of_nodup (nodup ha) (nodup hb)).2 h
  haveI : IsAntisymm (PriceCoinPair × β) (fun x y => PriceCoinPair.lt x.1 y.1) :=
    ⟨fun x y h1 h2 => absurd h2 (PriceCoinPair.lt_asymmetric h1)⟩
  exact List.eq_of_perm_of_sorted hperm ha hb

theorem WGRT_USD_lt_WICC_USD : PriceCoinPair.lt ("WGRT", "USD") ("WICC", "USD") :=
  Or.inl (String.lt_iff_toList_lt.mpr (by decide))

theorem examplePrices_sorted (p : Nat) :
    KeySorted ([(("WGRT", "USD"), 0), (("WICC", "USD"), p)] : PriceMap) := by
  unfold KeySorted
  simp only [List.pairwise_cons, List.mem_singleton, forall_eq, List.not_mem_nil,
    IsEmpty.forall_iff, implies_true, List.Pairwise.nil, and_true]
  exact WGRT_USD_lt_WICC_USD

theorem singleton_sorted {β : Type} (e : PriceCoinPair × β) : KeySorted [e] := by
  unfold KeySorted
  exact List.pairwise_singleton _ _

/-- C25. For maps in key order, `EqualToCalculatedPrices(calcPrices)` returns true if and
only if the entries of `median_prices` with a nonzero price and the entries of `calcPrices`
have the same keys and, key by key, the same price; and the price checks of `ExecuteTx`
let the transaction pass exactly when it returns true. -/
theorem EqualToCalculatedPrices_iff (median_prices : PriceMap) (calcPrices : PriceDetailMap)
    (hm : KeySorted median_prices) (hc : KeySorted calcPrices) :
    (EqualToCalculatedPrices median_prices calcPrices = true ↔
      ∀ k p, ((k, p) ∈ median_prices ∧ p ≠ 0) ↔ ∃ d, (k, d) ∈ calcPrices ∧ d.price = p) ∧
    (medianPriceChecks median_prices (some calcPrices) = .continues ↔
      EqualToCalculatedPrices median_prices calcPrices = true) := by
  refine ⟨?_, ?_⟩
  · rw [EqualToCalculatedPrices_eq]
    have hmem1 : ∀ k p, (k, p) ∈ median_prices.filter (fun item => decide (item.2 ≠ 0)) ↔
        ((k, p) ∈ median_prices ∧ p ≠ 0) := by
      intro k p; simp [List.mem_filter]
    have hmem2 : ∀ k p, (k, p) ∈ calcPrices.map (fun e => (e.1, e.2.price)) ↔
        ∃ d, (k, d) ∈ calcPrices ∧ d.price = p := by
      intro k p
      simp only [List.mem_map, Prod.mk.injEq]
      constructor
      · rintro ⟨⟨k2, d⟩, hmem, rfl, rfl⟩; exact ⟨d, hmem, rfl⟩
      · rintro ⟨d, hmem, rfl⟩; exact ⟨(k, d), hmem, rfl, rfl⟩
    constructor
    · intro e k p
      rw [← hmem1, e, hmem2]
    · intro h
      apply KeySorted.eq_of_mem
      · exact List.Pairwise.filter _ hm
      · unfold KeySorted
        rw [List.pairwise_map]
        exact hc
      · rintro ⟨k, p⟩
        rw [hmem1, hmem2]
        exact h k p
  · unfold medianPriceChecks
    simp only
    cases EqualToCalculatedPrices median_prices calcPrices <;> simp

/-- C25 (witness): the transaction carries a zero entry for `WGRT` and 25 for `WICC`; the
recomputed medians hold `WICC` at 25 only, and the transaction passes; against 26 it is
rejected. -/
theorem EqualToCalculatedPrices_iff_witness :
    KeySorted ([(("WGRT", "USD"), 0), (("WICC", "USD"), 25)] : PriceMap) ∧
    KeySorted ([(("WICC", "USD"), ⟨25, 7⟩)] : PriceDetailMap) ∧
    EqualToCalculatedPrices [(("WGRT", "USD"), 0), (("WICC", "USD"), 25)]
      [(("WICC", "USD"), ⟨25, 7⟩)] = true ∧
    medianPriceChecks [(("WGRT", "USD"), 0), (("WICC", "USD"), 25)]
      (some [(("WICC", "USD"), ⟨26, 7⟩)]) = .bad_median_price_points ∧
    (medianPriceChecks [(("WGRT", "USD"), 0), (("WICC", "USD"), 25)]
        (some [(("WICC", "USD"), ⟨25, 7⟩)]) = .continues ↔
      EqualToCalculatedPrices [(("WGRT", "USD"), 0), (("WICC", "USD"), 25)]
        [(("WICC", "USD"), ⟨25, 7⟩)] = true) :=
  ⟨examplePrices_sorted 25, singleton_sorted _, by decide, by decide,
    (EqualToCalculatedPrices_iff [(("WGRT", "USD"), 0), (("WICC", "USD"), 25)]
      [(("WICC", "USD"), ⟨25, 7⟩)] (examplePrices_sorted 25) (singleton_sorted _)).2⟩

/-! ## Ordering of the coin pairs -/

theorem boolLt_strictWeakOrder : StrictWeakOrder boolLt := by
  refine ⟨?_, ?_, ?_⟩
  · intro a; cases a <;> rfl
  · intro a b c; cases a <;> cases b <;> cases c <;> simp [boolLt]
  · intro a b c; cases a <;> cases b <;> cases c <;> simp [boolLt]

/-- The order by one field is a strict weak order when the field's own order is. -/
theorem OBJ_COMPARE_LT1_strictWeakOrder {α β : Type} {lt : β → β → Bool} (f : α → β)
    (h : StrictWeakOrder lt) : StrictWeakOrder (OBJ_COMPARE_LT1 lt f) := by
  have e : ∀ a b, OBJ_COMPARE_LT1 lt f a b = lt (f a) (f b) := by
    intro a b; unfold OBJ_COMPARE_LT1; cases lt (f a) (f b) <;> rfl
  refine ⟨?_, ?_, ?_⟩
  · intro a; rw [e]; exact h.irrefl _
  · intro a b c; rw [e, e, e]; exact h.trans _ _ _
  · intro a b c; rw [e, e, e, e, e, e]; exact h.incomp_trans _ _ _

theorem OBJ_COMPARE_LT1_MORE_true {α β : Type} (lt : β → β → Bool) (f : α → β) (a b : α)
    (more : Bool) :
    OBJ_COMPARE_LT1_MORE lt f a b more = true ↔
      lt (f a) (f b) = true ∨ (lt (f a) (f b) = false ∧ lt (f b) (f a) = false ∧ more = true) := by
  unfold OBJ_COMPARE_LT1_MORE
  cases lt (f a) (f b) <;> cases lt (f b) (f a) <;> cases more <;> simp

theorem OBJ_COMPARE_LT1_MORE_false {α β : Type} (lt : β → β → Bool) (f : α → β) (a b : α)
    (more : Bool) :
    OBJ_COMPARE_LT1_MORE lt f a b more = false ↔
      lt (f a) (f b) = false ∧ (lt (f b) (f a) = true ∨ more = false) := by
  unfold OBJ_COMPARE_LT1_MORE
  cases lt (f a) (f b) <;> cases lt (f b) (f a) <;> cases more <;> simp

theorem StrictWeakOrder.asymm {α : Type} {lt : α → α → Bool} (h : StrictWeakOrder lt)
    (x y : α) (hxy : lt x y = true) : lt y x = false := by
  cases hyx : lt y x
  · rfl
  · have := h.trans x y x hxy hyx
    rw [h.irrefl] at this; cases this

/-- An element below one of two incomparable elements is below the other. -/
theorem StrictWeakOrder.lt_of_lt_of_incomp {α : Type} {lt : α → α → Bool}
    (h : StrictWeakOrder lt) (x y z : α) (hxy : lt x y = true) (h1 : lt y z = false)
    (h2 : lt z y = false) : lt x z = true := by
  cases h5 : lt x z
  · exfalso
    cases h6 : lt z x
    · have i := h.incomp_trans y z x h1 h2 h6 h5
      rw [hxy] at i; cases i.2
    · have t := h.trans z x y h6 hxy
      rw [h2] at t; cases t
  · rfl

/-- An element above one of two incomparable elements is above the other. -/
theorem StrictWeakOrder.lt_of_incomp_of_lt {α : Type} {lt : α → α → Bool}
    (h : StrictWeakOrder lt) (x y z : α) (h1 : lt x y = false) (h2 : lt y x = false)
    (hyz : lt y z = true) : lt x z = true := by
  cases h5 : lt x z
  · exfalso
    cases h6 : lt z x
    · have i := h.incomp_trans z x y h6 h5 h1 h2
      rw [hyz] at i; cases i.2
    · have t := h.trans y z x hyz h6
      rw [h2] at t; cases t
  · rfl

/-- The order by one field, then by `more`, is a strict weak order when both are. -/
theorem OBJ_COMPARE_LT1_MORE_strictWeakOrder {α β : Type} {lt : β → β → Bool} (f : α → β)
    {more : α → α → Bool} (h : StrictWeakOrder lt) (hm : StrictWeakOrder more) :
    StrictWeakOrder (fun a b => OBJ_COMPARE_LT1_MORE lt f a b (more a b)) := by
  refine ⟨?_, ?_, ?_⟩
  · intro a
    rw [OBJ_COMPARE_LT1_MORE_false]
    exact ⟨h.irrefl _, Or.inr (hm.irrefl _)⟩
  · intro a b c hab hbc
    rw [OBJ_COMPARE_LT1_MORE_true] at hab hbc ⊢
    rcases hab with hab | ⟨a1, a2, a3⟩
    · rcases hbc with hbc | ⟨b1, b2, b3⟩
      · exact Or.inl (h.trans _ _ _ hab hbc)
      · exact Or.inl (h.lt_of_lt_of_incomp _ _ _ hab b1 b2)
    · rcases hbc with hbc | ⟨b1, b2, b3⟩
      · exact Or.inl (h.lt_of_incomp_of_lt _ _ _ a1 a2 hbc)
      · obtain ⟨i1, i2⟩ := h.incomp_trans _ _ _ a1 a2 b1 b2
        exact Or.inr ⟨i1, i2, hm.trans _ _ _ a3 b3⟩
  · intro a b c hab hba hbc hcb
    rw [OBJ_COMPARE_LT1_MORE_false] at hab hba hbc hcb
    obtain ⟨a1, a2⟩ := hab
    obtain ⟨a3, a4⟩ := hba
    obtain ⟨b1, b2⟩ := hbc
    obtain ⟨b3, b4⟩ := hcb
    rw [a3] at a2; rw [a1] at a4; rw [b3] at b2; rw [b1] at b4
    simp only [Bool.false_eq_true, false_or] at a2 a4 b2 b4
    obtain ⟨i1, i2⟩ := h.incomp_trans _ _ _ a1 a3 b1 b3
    obtain ⟨j1, j2⟩ := hm.incomp_trans _ _ _ a2 a4 b2 b4
    rw [OBJ_COMPARE_LT1_MORE_false, OBJ_COMPARE_LT1_MORE_false]
    exact ⟨⟨i1, Or.inr j1⟩, ⟨i2, Or.inr j2⟩⟩

/-- The expansion of `OBJ_COMPARE_LT4` is the lexicographic order of the four fields. -/
theorem CCdpCoinPairDetail.lt_iff_lexLt (ltCord : CTxCord → CTxCord → Bool)
    (ltPair : CCdpCoinPair → CCdpCoinPair → Bool) (a b : CCdpCoinPairDetail) :
    CCdpCoinPairDetail.lt ltCord ltPair a b = true ↔
      CCdpCoinPairDetail.lexLt ltCord ltPair a b := by
  obtain ⟨a1, a2, a3, a4, a5⟩ := a
  obtain ⟨b1, b2, b3, b4, b5⟩ := b
  unfold CCdpCoinPairDetail.lt CCdpCoinPairDetail.lexLt OBJ_COMPARE_LT1_MORE OBJ_COMPARE_LT1
    boolLt
  simp only
  cases a1 <;> cases b1 <;> cases a4 <;> cases b4 <;> cases ltCord a5 b5 <;>
    cases ltCord b5 a5 <;> cases ltPair a2 b2 <;> simp

/-- C27. `operator<` on `CCdpCoinPairDetail`, the expansion of `OBJ_COMPARE_LT4`, is the
lexicographic order on `(is_price_active, is_staked_perm, init_tx_cord, coin_pair)`: `a` is
less than `b` exactly when, at the first of the four fields in which the two differ, the
field of `a` is the lesser one. When the comparisons of `CTxCord` and of `CCdpCoinPair` are
strict weak orders, `operator<` is one too: it is irreflexive, asymmetric and transitive,
and its incomparability is transitive. It compares `is_price_active` first, so every
price-inactive pair is less than every price-active pair and none of the latter is less
than any of the former. -/
theorem CCdpCoinPairDetail.lt_strictWeakOrder (ltCord : CTxCord → CTxCord → Bool)
    (ltPair : CCdpCoinPair → CCdpCoinPair → Bool) (hCord : StrictWeakOrder ltCord)
    (hPair : StrictWeakOrder ltPair) :
    StrictWeakOrder (CCdpCoinPairDetail.lt ltCord ltPair) ∧
    (∀ a b, CCdpCoinPairDetail.lt ltCord ltPair a b = true →
      CCdpCoinPairDetail.lt ltCord ltPair b a = false) ∧
    (∀ a b : CCdpCoinPairDetail, a.is_price_active = false → b.is_price_active = true →
      CCdpCoinPairDetail.lt ltCord ltPair a b = true ∧
      CCdpCoinPairDetail.lt ltCord ltPair b a = false) ∧
    (∀ a b : CCdpCoinPairDetail,
      CCdpCoinPairDetail.lt ltCord ltPair a b = true ↔
        CCdpCoinPairDetail.lexLt ltCord ltPair a b) := by
  have e : CCdpCoinPairDetail.lt ltCord ltPair = fun a b =>
      OBJ_COMPARE_LT1_MORE boolLt (fun x : CCdpCoinPairDetail => x.is_price_active) a b
        (OBJ_COMPARE_LT1_MORE boolLt (fun x : CCdpCoinPairDetail => x.is_staked_perm) a b
          (OBJ_COMPARE_LT1_MORE ltCord (fun x : CCdpCoinPairDetail => x.init_tx_cord) a b
            (OBJ_COMPARE_LT1 ltPair (fun x : CCdpCoinPairDetail => x.coin_pair) a b))) := by
    funext a b; rfl
  have swo : StrictWeakOrder (CCdpCoinPairDetail.lt ltCord ltPair) := by
    rw [e]
    exact OBJ_COMPARE_LT1_MORE_strictWeakOrder _ boolLt_strictWeakOrder
      (OBJ_COMPARE_LT1_MORE_strictWeakOrder _ boolLt_strictWeakOrder
        (OBJ_COMPARE_LT1_MORE_strictWeakOrder _ hCord
          (OBJ_COMPARE_LT1_strictWeakOrder _ hPair)))
  refine ⟨swo, swo.asymm, ?_, CCdpCoinPairDetail.lt_iff_lexLt ltCord ltPair⟩
  intro a b ha hb
  have hab : CCdpCoinPairDetail.lt ltCord ltPair a b = true := by
    unfold CCdpCoinPairDetail.lt
    rw [OBJ_COMPARE_LT1_MORE_true]
    exact Or.inl (by simp [boolLt, ha, hb])
  exact ⟨hab, swo.asymm _ _ hab⟩

theorem exampleLtCord_strictWeakOrder : StrictWeakOrder exampleLtCord := by
  refine ⟨?_, ?_, ?_⟩
  · intro a; simp [exampleLtCord]
  · intro a b c; simp only [exampleLtCord, decide_eq_true_eq]; omega
  · intro a b c; simp only [exampleLtCord, decide_eq_false_iff_not]; omega

theorem exampleLtPair_strictWeakOrder : StrictWeakOrder exampleLtPair := by
  refine ⟨?_, ?_, ?_⟩
  · intro a; simp [exampleLtPair]
  · intro a b c; simp only [exampleLtPair, decide_eq_true_eq]; omega
  · intro a b c; simp only [exampleLtPair, decide_eq_false_iff_not]; omega

/-- C27 (witness): with coordinates ordered by height and index and coin pairs by the
lengths of their symbols, a price-inactive `WICC` pair is less than the price-active `WICC`
pair, and not the other way round. Among price-active pairs: the one without staking
permission comes before the one with it, although it was created later; of two with
permission the one created at height 0 comes before the one created at height 7; and two
pairs equal in the first three fields are ordered by the coin pair: `XT`/`WUSD` before
`WICC`/`WUSD`, and neither of `WICC`/`WUSD` and `WGRT`/`WUSD` before the other. -/
theorem CCdpCoinPairDetail.lt_strictWeakOrder_witness :
    StrictWeakOrder exampleLtCord ∧ StrictWeakOrder exampleLtPair ∧
    CCdpCoinPairDetail.lt exampleLtCord exampleLtPair
      { wiccWusd with is_price_active := false } wiccWusd = true ∧
    CCdpCoinPairDetail.lt exampleLtCord exampleLtPair
      wiccWusd { wiccWusd with is_price_active := false } = false ∧
    CCdpCoinPairDetail.lt exampleLtCord exampleLtPair wiccWusdNoPerm wiccWusd = true ∧
    CCdpCoinPairDetail.lt exampleLtCord exampleLtPair wiccWusd wiccWusdNoPerm = false ∧
    CCdpCoinPairDetail.lt exampleLtCord exampleLtPair wiccWusd wiccWusdLate = true ∧
    CCdpCoinPairDetail.lt exampleLtCord exampleLtPair wiccWusdLate wiccWusd = false ∧
    CCdpCoinPairDetail.lt exampleLtCord exampleLtPair wiccWusdLate wgrtWusd = false ∧
    CCdpCoinPairDetail.lt exampleLtCord exampleLtPair wgrtWusd wiccWusdLate = true ∧
    CCdpCoinPairDetail.lt exampleLtCord exampleLtPair xtWusd wiccWusd = true ∧
    CCdpCoinPairDetail.lt exampleLtCord exampleLtPair wiccWusd xtWusd = false ∧
    CCdpCoinPairDetail.lt exampleLtCord exampleLtPair wiccWusd wgrtWusd = false ∧
    CCdpCoinPairDetail.lt exampleLtCord exampleLtPair wgrtWusd wiccWusd = false ∧
    (CCdpCoinPairDetail.lt exampleLtCord exampleLtPair wiccWusdNoPerm wiccWusdLate = true ↔
      CCdpCoinPairDetail.lexLt exampleLtCord exampleLtPair wiccWusdNoPerm wiccWusdLate) ∧
    StrictWeakOrder (CCdpCoinPairDetail.lt exampleLtCord exampleLtPair) :=
  ⟨exampleLtCord_strictWeakOrder, exampleLtPair_strictWeakOrder, by decide, by decide,
    by decide, by decide, by decide, by decide, by decide, by decide, by decide, by decide,
    by decide, by decide,
    (CCdpCoinPairDetail.lt_strictWeakOrder exampleLtCord exampleLtPair
      exampleLtCord_strictWeakOrder exampleLtPair_strictWeakOrder).2.2.2 _ _,
    (CCdpCoinPairDetail.lt_strictWeakOrder exampleLtCord exampleLtPair
      exampleLtCord_strictWeakOrder exampleLtPair_strictWeakOrder).1⟩

/-! ## The list of CDPs for interest settlement -/

/-- C28 (the code at the failing input). With a cap of 2, two due CDPs under `WICC`/`WUSD`
and two under `WGRT`/`WUSD`: the first pair contributes CDP 0 and leaves `count` at 0; for
the second pair `count--` wraps to `2^32 - 1` and both its CDPs are added. The list has 3
entries, the counter ends at `2^32 - 2`, and `CheckTx` rejects a list of that size. -/
theorem GetSettledInterestCdps_exceeds_cap :
    GetSettledInterestCdpsOfPair (exampleSettleEnv 2 2) 100 wiccWusd [] 2 = (true, [0], 0) ∧
    GetSettledInterestCdps (exampleSettleEnv 2 2) 100 [wiccWusd, wgrtWusd] []
      = (true, [0, 1000000, 1000001], 4294967294) ∧
    checkCdpListSize (exampleSettleEnv 2 2) 3 = false := by
  decide

theorem sub32_one {c : Nat} (h1 : 1 ≤ c) (h2 : c < 2 ^ 32) : sub32 c 1 = c - 1 :=
  sub32_of_le h1 h2

/-- While the counter stays above the number of due CDPs, all of them are added. -/
theorem settleInterestLoop_all (env : SettleEnv) (height cycleDays : Nat)
    (l : List (Nat × Nat)) :
    ∀ (cdpList : List Nat) (count : Nat),
      (∀ e ∈ l, env.CdpNeedSettleInterest e.1 height cycleDays = true) →
      l.length < count → count < 2 ^ 32 →
      settleInterestLoop env height cycleDays l cdpList count
        = (cdpList ++ l.map (·.2), count - l.length) := by
  induction l with
  | nil => intro cdpList count _ _ _; simp [settleInterestLoop]
  | cons e rest ih =>
    intro cdpList count hneed hlen hc
    simp only [List.length_cons] at hlen
    have he := hneed e (List.mem_cons_self _ _)
    unfold settleInterestLoop
    rw [if_neg (by rw [he]; simp)]
    simp only [sub32_one (by omega : 1 ≤ count) hc]
    rw [if_neg (by omega)]
    rw [ih _ _ (fun x hx => hneed x (List.mem_cons_of_mem _ hx)) (by omega) (by omega)]
    simp only [List.map_cons, List.append_assoc, List.singleton_append, List.length_cons,
      Prod.mk.injEq, true_and]
    omega

/-- A counter that does not exceed the number of due CDPs ends at 0, one CDP short. -/
theorem settleInterestLoop_stop (env : SettleEnv) (height cycleDays : Nat)
    (l : List (Nat × Nat)) :
    ∀ (cdpList : List Nat) (count : Nat),
      (∀ e ∈ l, env.CdpNeedSettleInterest e.1 height cycleDays = true) →
      1 ≤ count → count ≤ l.length → count < 2 ^ 32 →
      settleInterestLoop env height cycleDays l cdpList count
        = (cdpList ++ (l.take (count - 1)).map (·.2), 0) := by
  induction l with
  | nil => intro cdpList count _ h1 h2 _; simp at h2; omega
  | cons e rest ih =>
    intro cdpList count hneed h1 hlen hc
    simp only [List.length_cons] at hlen
    have he := hneed e (List.mem_cons_self _ _)
    unfold settleInterestLoop
    rw [if_neg (by rw [he]; simp)]
    simp only [sub32_one h1 hc]
    by_cases h0 : count - 1 = 0
    · rw [if_pos h0, h0]; simp
    · rw [if_neg h0]
      rw [ih _ _ (fun x hx => hneed x (List.mem_cons_of_mem _ hx)) (by omega) (by omega)
        (by omega)]
      obtain ⟨k, hk⟩ : ∃ k, count - 1 = k + 1 := ⟨count - 2, by omega⟩
      rw [hk]
      simp only [Nat.add_sub_cancel, List.take_succ_cons, List.map_cons, List.append_assoc,
        List.singleton_append]

/-- For every value of the cap from 1 up, the same two pairs with as many due CDPs under
`WICC`/`WUSD` as the cap allows give a list of `cap + 1` entries, one more than `CheckTx`
accepts: the first pair leaves the counter at 0, and the second pair decrements it past
zero to `2^32 - 1`. -/
theorem GetSettledInterestCdps_exceeds_every_cap (cap : Nat) (h1 : 1 ≤ cap)
    (h2 : cap < 2 ^ 32) :
    GetSettledInterestCdps (exampleSettleEnv cap cap) 100 [wiccWusd, wgrtWusd] []
      = (true, List.range (cap - 1) ++ [1000000, 1000001], 4294967294) ∧
    (GetSettledInterestCdps (exampleSettleEnv cap cap) 100 [wiccWusd, wgrtWusd] []).2.1.length
      = cap + 1 ∧
    checkCdpListSize (exampleSettleEnv cap cap) (cap + 1) = false := by
  have hfirst : GetSettledInterestCdpsOfPair (exampleSettleEnv cap cap) 100 wiccWusd [] cap
      = (true, List.range (cap - 1), 0) := by
    have hl := settleInterestLoop_stop (exampleSettleEnv cap cap) 100 7
      ((List.range cap).map (fun i => (10, i))) [] cap (fun _ _ => rfl) h1 (by simp) h2
    simp only [GetSettledInterestCdpsOfPair, exampleSettleEnv, wiccWusd, if_true,
      Bool.false_eq_true, if_false]
    simp only [exampleSettleEnv] at hl
    rw [hl]
    simp only [List.nil_append, Prod.mk.injEq, true_and, and_true]
    rw [← List.map_take, List.map_map]
    have : ((fun x : Nat × Nat => x.2) ∘ fun i => (10, i)) = id := by funext i; rfl
    rw [this, List.map_id, List.take_range]
    congr 1
    omega
  have hsecond : ∀ l : List Nat,
      GetSettledInterestCdpsOfPair (exampleSettleEnv cap cap) 100 wgrtWusd l 0
        = (true, l ++ [1000000, 1000001], 4294967294) := by
    intro l
    have hne : (⟨"WGRT", "WUSD"⟩ : CCdpCoinPair) ≠ ⟨"WICC", "WUSD"⟩ := by decide
    simp only [GetSettledInterestCdpsOfPair, exampleSettleEnv, wgrtWusd, if_neg hne,
      Bool.false_eq_true, if_false, settleInterestLoop]
    have e1 : sub32 0 1 = 4294967295 := by decide
    have e2 : sub32 4294967295 1 = 4294967294 := by decide
    simp [e1, e2]
  have hmod : cap % 2 ^ 32 = cap := Nat.mod_eq_of_lt h2
  have hrun : GetSettledInterestCdps (exampleSettleEnv cap cap) 100 [wiccWusd, wgrtWusd] []
      = (true, List.range (cap - 1) ++ [1000000, 1000001], 4294967294) := by
    unfold GetSettledInterestCdps
    have hcap : (exampleSettleEnv cap cap).CDP_SETTLE_INTEREST_MAX_COUNT = cap := rfl
    rw [hcap, hmod]
    have a1 : wiccWusd.is_price_active = true := rfl
    have a2 : wgrtWusd.is_price_active = true := rfl
    simp only [settledInterestPairsLoop, a1, a2, Bool.true_eq_false, if_false, hfirst, hsecond]
  refine ⟨hrun, ?_, ?_⟩
  · rw [hrun]
    simp only [List.length_append, List.length_range, List.length_cons, List.length_nil]
    omega
  · unfold checkCdpListSize
    have hcap : (exampleSettleEnv cap cap).CDP_SETTLE_INTEREST_MAX_COUNT = cap := rfl
    rw [hcap, if_pos (Or.inr (by omega))]

theorem settleInterestLoop_cons (env : SettleEnv) (height cycleDays : Nat) (e : Nat × Nat)
    (rest : List (Nat × Nat)) (cdpList : List Nat) (count : Nat) :
    settleInterestLoop env height cycleDays (e :: rest) cdpList count =
      if env.CdpNeedSettleInterest e.1 height cycleDays = false then (cdpList, count)
      else if sub32 count 1 = 0 then (cdpList, sub32 count 1)
      else settleInterestLoop env height cycleDays rest (cdpList ++ [e.2]) (sub32 count 1) :=
  rfl

/-- The bound holds for a single pair: entered with the counter at the cap, the list grows
by fewer entries than the cap. -/
theorem settleInterestLoop_length (env : SettleEnv) (height cycleDays : Nat)
    (l : List (Nat × Nat)) :
    ∀ (cdpList : List Nat) (count : Nat), 1 ≤ count → count < 2 ^ 32 →
      (settleInterestLoop env height cycleDays l cdpList count).1.length + 1
        ≤ cdpList.length + count := by
  induction l with
  | nil =>
    intro cdpList count h1 _
    show cdpList.length + 1 ≤ cdpList.length + count
    omega
  | cons e rest ih =>
    intro cdpList count h1 hc
    rw [settleInterestLoop_cons, sub32_one h1 hc]
    by_cases ha : env.CdpNeedSettleInterest e.1 height cycleDays = false
    · rw [if_pos ha]
      show cdpList.length + 1 ≤ cdpList.length + count
      omega
    · rw [if_neg ha]
      by_cases hb : count - 1 = 0
      · rw [if_pos hb]
        show cdpList.length + 1 ≤ cdpList.length + count
        omega
      · rw [if_neg hb]
        have h3 := ih (cdpList ++ [e.2]) (count - 1) (by omega) (by omega)
        rw [List.length_append, List.length_singleton] at h3
        omega

/-! ## Penalty fees -/

/-- C26 (counterexample to the claim as worded). At R3 the reserve holds `2^64 - 2` free `WUSD`
and the penalty is 2: the credit wraps the free bucket to 0, the freeze of 1 then fails, and
the function returns false with nothing frozen and nothing left of the penalty. -/
theorem ProcessPenaltyFees_wrap_counterexample :
    (ProcessPenaltyFees .MAJOR_VER_R3 10 (some (reserveAccount (2 ^ 64 - 2))) true cdpA 2
      []).ok = false ∧
    ((ProcessPenaltyFees .MAJOR_VER_R3 10 (some (reserveAccount (2 ^ 64 - 2))) true cdpA 2
      []).fcoinAccount.map (fun a => (a.GetToken "WUSD").free_amount)) = some 0 ∧
    ((ProcessPenaltyFees .MAJOR_VER_R3 10 (some (reserveAccount (2 ^ 64 - 2))) true cdpA 2
      []).fcoinAccount.map (fun a => (a.GetToken "WUSD").frozen_amount)) = some 0 := by
  decide

theorem OperateBalance_FREEZE_null (this : CAccount) (sym : TokenSymbol) (v : Nat)
    (rt : ReceiptType) (rs : ReceiptList) :
    OperateBalance this sym .FREEZE v rt rs .null =
      if (this.GetToken sym).free_amount < v then ⟨false, this.touch sym, rs, .null⟩
      else
        ⟨true, this.SetToken sym
          { this.GetToken sym with
            free_amount := sub64 (this.GetToken sym).free_amount v
            frozen_amount := add64 (this.GetToken sym).frozen_amount v },
          rs ++ [⟨rt, .FREEZE, .keyid this.keyid, .null, sym, v⟩], .null⟩ := by
  simp only [OperateBalance, GetToken_touch, SetToken_touch]
  rw [if_neg (by simp)]

/-- C26 (amended). With penalty 0 `ProcessPenaltyFees` returns true and changes nothing.
With a non-zero penalty `p` (at fork version R3 or later, or `p` above
`CDP_SYSORDER_PENALTY_FEE_MIN`), a risk-reserve account that is found, and neither
`free + p` nor `frozen + (p - floor(p/2))` reaching `2^64`, it credits `p` to the account's
free stable balance and freezes `p - floor(p/2)` of it: free ends `floor(p/2)` higher and
frozen `p - floor(p/2)` higher, the two parts sum to `p` and differ by at most 1, the other
buckets are as before, the buy order is for `p - floor(p/2)`, and the flag returned is
whether the order was accepted. -/
theorem ProcessPenaltyFees_split (version : FeatureForkVersionEnum) (feeMin : Nat)
    (fcoinAccount : CAccount) (createActiveOrder : Bool) (cdp : CUserCDP) (p : Nat)
    (rs : ReceiptList)
    (hbuy : version.rank ≥ FeatureForkVersionEnum.MAJOR_VER_R3.rank ∨ p > feeMin)
    (hp : p ≠ 0)
    (hfree : (fcoinAccount.GetToken cdp.scoin_symbol).free_amount + p < 2 ^ 64)
    (hfrozen : (fcoinAccount.GetToken cdp.scoin_symbol).frozen_amount + (p - p / 2) < 2 ^ 64) :
    ProcessPenaltyFees version feeMin (some fcoinAccount) createActiveOrder cdp 0 rs
      = ⟨true, some fcoinAccount, rs, none⟩ ∧
    (∃ a, (ProcessPenaltyFees version feeMin (some fcoinAccount) createActiveOrder cdp p
        rs).fcoinAccount = some a ∧
      (a.GetToken cdp.scoin_symbol).free_amount
        = (fcoinAccount.GetToken cdp.scoin_symbol).free_amount + p / 2 ∧
      (a.GetToken cdp.scoin_symbol).frozen_amount
        = (fcoinAccount.GetToken cdp.scoin_symbol).frozen_amount + (p - p / 2) ∧
      (a.GetToken cdp.scoin_symbol).staked_amount
        = (fcoinAccount.GetToken cdp.scoin_symbol).staked_amount ∧
      (a.GetToken cdp.scoin_symbol).voted_amount
        = (fcoinAccount.GetToken cdp.scoin_symbol).voted_amount ∧
      (a.GetToken cdp.scoin_symbol).pledged_amount
        = (fcoinAccount.GetToken cdp.scoin_symbol).pledged_amount) ∧
    p / 2 + (p - p / 2) = p ∧ (p - p / 2) - p / 2 ≤ 1 ∧
    (ProcessPenaltyFees version feeMin (some fcoinAccount) createActiveOrder cdp p rs).ok
      = createActiveOrder ∧
    (createActiveOrder = true →
      (ProcessPenaltyFees version feeMin (some fcoinAccount) createActiveOrder cdp p rs).order
        = some ⟨cdp.scoin_symbol, SYMB.WGRT, p - p / 2, cdp.cdpid⟩) := by
  have hsub : sub64 p (p / 2) = p - p / 2 :=
    sub64_of_le (Nat.div_le_self _ _) (by unfold U64; omega)
  have hadd : add64 (fcoinAccount.GetToken cdp.scoin_symbol).free_amount p
      = (fcoinAccount.GetToken cdp.scoin_symbol).free_amount + p :=
    add64_of_lt (by unfold U64; omega)
  have hnb : ¬ (version.rank < FeatureForkVersionEnum.MAJOR_VER_R3.rank ∧ p ≤ feeMin) := by
    intro h; omega
  have hrun : ProcessPenaltyFees version feeMin (some fcoinAccount) createActiveOrder cdp p rs
      = if createActiveOrder = false then
          ⟨false, some ((fcoinAccount.SetToken cdp.scoin_symbol
            { fcoinAccount.GetToken cdp.scoin_symbol with
              free_amount := (fcoinAccount.GetToken cdp.scoin_symbol).free_amount + p }).SetToken
            cdp.scoin_symbol
            { fcoinAccount.GetToken cdp.scoin_symbol with
              free_amount := (fcoinAccount.GetToken cdp.scoin_symbol).free_amount + p / 2
              frozen_amount :=
                (fcoinAccount.GetToken cdp.scoin_symbol).frozen_amount + (p - p / 2) }),
            (rs ++ [⟨.CDP_PENALTY_TO_RESERVE, .ADD_FREE, .null, .keyid fcoinAccount.keyid,
              cdp.scoin_symbol, p⟩]) ++ [⟨.CDP_PENALTY_BUY_DEFLATE_FCOINS, .FREEZE,
              .keyid fcoinAccount.keyid, .null, cdp.scoin_symbol, p - p / 2⟩], none⟩
        else
          ⟨true, some ((fcoinAccount.SetToken cdp.scoin_symbol
            { fcoinAccount.GetToken cdp.scoin_symbol with
              free_amount := (fcoinAccount.GetToken cdp.scoin_symbol).free_amount + p }).SetToken
            cdp.scoin_symbol
            { fcoinAccount.GetToken cdp.scoin_symbol with
              free_amount := (fcoinAccount.GetToken cdp.scoin_symbol).free_amount + p / 2
              frozen_amount :=
                (fcoinAccount.GetToken cdp.scoin_symbol).frozen_amount + (p - p / 2) }),
            (rs ++ [⟨.CDP_PENALTY_TO_RESERVE, .ADD_FREE, .null, .keyid fcoinAccount.keyid,
              cdp.scoin_symbol, p⟩]) ++ [⟨.CDP_PENALTY_BUY_DEFLATE_FCOINS, .FREEZE,
              .keyid fcoinAccount.keyid, .null, cdp.scoin_symbol, p - p / 2⟩],
            some ⟨cdp.scoin_symbol, SYMB.WGRT, p - p / 2, cdp.cdpid⟩⟩ := by
    unfold ProcessPenaltyFees
    rw [if_neg hp]
    simp only [OperateBalance_ADD_FREE_null, OperateBalance_FREEZE_null, hsub, hadd,
      GetToken_SetToken_same, keyid_SetToken]
    have hge : ¬ (fcoinAccount.GetToken cdp.scoin_symbol).free_amount + p < p - p / 2 := by
      omega
    have hs2 : sub64 ((fcoinAccount.GetToken cdp.scoin_symbol).free_amount + p) (p - p / 2)
        = (fcoinAccount.GetToken cdp.scoin_symbol).free_amount + p / 2 := by
      rw [sub64_of_le (by omega) (by unfold U64; omega)]; omega
    have ha2 : add64 (fcoinAccount.GetToken cdp.scoin_symbol).frozen_amount (p - p / 2)
        = (fcoinAccount.GetToken cdp.scoin_symbol).frozen_amount + (p - p / 2) :=
      add64_of_lt (by unfold U64; omega)
    simp only [Bool.true_eq_false, if_false, if_neg hnb, if_neg hge, hs2, ha2]
  refine ⟨?_, ?_, by omega, by omega, ?_, ?_⟩
  · unfold ProcessPenaltyFees; rw [if_pos rfl]
  · rw [hrun]
    cases createActiveOrder <;>
      exact ⟨_, rfl, by simp, by simp, by simp, by simp, by simp⟩
  · rw [hrun]; cases createActiveOrder <;> rfl
  · intro hc; rw [hrun, hc]; rfl

/-- C26 (witness): at R3 a penalty of 7 on a reserve of 100 free `WUSD` leaves 103 free and
4 frozen. -/
theorem ProcessPenaltyFees_split_witness :
    (FeatureForkVersionEnum.MAJOR_VER_R3.rank ≥ FeatureForkVersionEnum.MAJOR_VER_R3.rank ∨
      7 > 10) ∧ (7 : Nat) ≠ 0 ∧
    ((reserveAccount 100).GetToken cdpA.scoin_symbol).free_amount + 7 < 2 ^ 64 ∧
    ((reserveAccount 100).GetToken cdpA.scoin_symbol).frozen_amount + (7 - 7 / 2) < 2 ^ 64 ∧
    ((ProcessPenaltyFees .MAJOR_VER_R3 10 (some (reserveAccount 100)) true cdpA 7
      []).fcoinAccount.map (fun a => (a.GetToken "WUSD").free_amount)) = some 103 ∧
    ((ProcessPenaltyFees .MAJOR_VER_R3 10 (some (reserveAccount 100)) true cdpA 7
      []).fcoinAccount.map (fun a => (a.GetToken "WUSD").frozen_amount)) = some 4 ∧
    (ProcessPenaltyFees .MAJOR_VER_R3 10 (some (reserveAccount 100)) true cdpA 7 []).ok
      = true :=
  ⟨by decide, by decide, by decide, by decide, by decide, by decide,
    (ProcessPenaltyFees_split .MAJOR_VER_R3 10 (reserveAccount 100) true cdpA 7 []
      (by decide) (by decide) (by decide) (by decide)).2.2.2.2.1⟩

/-! ## Relative error of `double` arithmetic -/

theorem roundFactor_pos : 0 < roundFactor := by unfold roundFactor; norm_num

theorem roundFactor_le_one : roundFactor ≤ 1 := by unfold roundFactor; norm_num

theorem roundFactor_pow_pos (k : Nat) : 0 < roundFactor ^ k := pow_pos roundFactor_pos k

theorem roundFactor_pow_le_one (k : Nat) : roundFactor ^ k ≤ 1 :=
  pow_le_one₀ roundFactor_pos.le roundFactor_le_one

/-- Bernoulli: `(1 - 2^-53)^k ≥ 1 - k * 2^-53`. -/
theorem roundFactor_pow_ge (k : Nat) : 1 - (k : ℚ) / 2 ^ 53 ≤ roundFactor ^ k := by
  have h := one_add_mul_le_pow (show (-2 : ℚ) ≤ -(1 / 2 ^ 53) by norm_num) k
  have e : (1 : ℚ) + -(1 / 2 ^ 53) = roundFactor := by unfold roundFactor; ring
  rw [e] at h
  calc 1 - (k : ℚ) / 2 ^ 53 = 1 + (k : ℚ) * -(1 / 2 ^ 53) := by ring
    _ ≤ roundFactor ^ k := h

theorem approx_refl (v : ℚ) : Approx 0 v v := by simp [Approx]

theorem approx_nonneg_right {k : Nat} {x v : ℚ} (h : Approx k x v) (hx : 0 ≤ x) : 0 ≤ v :=
  le_trans (mul_nonneg hx (roundFactor_pow_pos k).le) h.2

theorem approx_nonneg_left {k : Nat} {x v : ℚ} (h : Approx k x v) (hv : 0 ≤ v) : 0 ≤ x :=
  le_trans (mul_nonneg hv (roundFactor_pow_pos k).le) h.1

theorem approx_pos_right {k : Nat} {x v : ℚ} (h : Approx k x v) (hx : 0 < x) : 0 < v :=
  lt_of_lt_of_le (mul_pos hx (roundFactor_pow_pos k)) h.2

theorem approx_mono {k k' : Nat} {x v : ℚ} (h : Approx k x v) (hx : 0 ≤ x) (hk : k ≤ k') :
    Approx k' x v := by
  have hv := approx_nonneg_right h hx
  have hp : roundFactor ^ k' ≤ roundFactor ^ k :=
    pow_le_pow_of_le_one roundFactor_pos.le roundFactor_le_one hk
  exact ⟨le_trans (mul_le_mul_of_nonneg_left hp hv) h.1,
    le_trans (mul_le_mul_of_nonneg_left hp hx) h.2⟩

theorem approx_trans {i j : Nat} {x y v : ℚ} (h1 : Approx i x y) (h2 : Approx j y v) :
    Approx (i + j) x v := by
  constructor
  · calc v * roundFactor ^ (i + j) = v * roundFactor ^ j * roundFactor ^ i := by
          rw [pow_add]; ring
      _ ≤ y * roundFactor ^ i := mul_le_mul_of_nonneg_right h2.1 (roundFactor_pow_pos i).le
      _ ≤ x := h1.1
  · calc x * roundFactor ^ (i + j) = x * roundFactor ^ i * roundFactor ^ j := by
          rw [pow_add]; ring
      _ ≤ y * roundFactor ^ j := mul_le_mul_of_nonneg_right h1.2 (roundFactor_pow_pos j).le
      _ ≤ v := h2.2

theorem approx_mul {i j : Nat} {x y vx vy : ℚ} (hx : Approx i x vx) (hy : Approx j y vy)
    (x0 : 0 ≤ x) (y0 : 0 ≤ y) : Approx (i + j) (x * y) (vx * vy) := by
  have vx0 := approx_nonneg_right hx x0
  have vy0 := approx_nonneg_right hy y0
  constructor
  · calc vx * vy * roundFactor ^ (i + j)
        = (vx * roundFactor ^ i) * (vy * roundFactor ^ j) := by rw [pow_add]; ring
      _ ≤ x * y := mul_le_mul hx.1 hy.1 (mul_nonneg vy0 (roundFactor_pow_pos j).le) x0
  · calc x * y * roundFactor ^ (i + j)
        = (x * roundFactor ^ i) * (y * roundFactor ^ j) := by rw [pow_add]; ring
      _ ≤ vx * vy := mul_le_mul hx.2 hy.2 (mul_nonneg y0 (roundFactor_pow_pos j).le) vx0

theorem approx_div {i j : Nat} {x y vx vy : ℚ} (hx : Approx i x vx) (hy : Approx j y vy)
    (x0 : 0 ≤ x) (y0 : 0 < y) : Approx (i + j) (x / y) (vx / vy) := by
  have vx0 := approx_nonneg_right hx x0
  have vy0 := approx_pos_right hy y0
  have pi := roundFactor_pow_pos i
  have pj := roundFactor_pow_pos j
  constructor
  · rw [le_div_iff₀ y0]
    calc vx / vy * roundFactor ^ (i + j) * y
        = (vx * roundFactor ^ i) * ((y * roundFactor ^ j) / vy) := by
          rw [pow_add]; field_simp; ring
      _ ≤ (vx * roundFactor ^ i) * 1 := by
          apply mul_le_mul_of_nonneg_left _ (mul_nonneg vx0 pi.le)
          rw [div_le_one vy0]; exact hy.2
      _ = vx * roundFactor ^ i := mul_one _
      _ ≤ x := hx.1
  · rw [le_div_iff₀ vy0]
    calc x / y * roundFactor ^ (i + j) * vy
        = (x * roundFactor ^ i) * ((vy * roundFactor ^ j) / y) := by
          rw [pow_add]; field_simp; ring
      _ ≤ (x * roundFactor ^ i) * 1 := by
          apply mul_le_mul_of_nonneg_left _ (mul_nonneg x0 pi.le)
          rw [div_le_one y0]; exact hy.1
      _ = x * roundFactor ^ i := mul_one _
      _ ≤ vx := hx.2

/-- Rounding to the nearest integer moves a fraction by at most one half. -/
theorem roundHalfEven_err (n : Nat) {d : Nat} (hd : d ≠ 0) :
    (n : ℚ) / d - 1 / 2 ≤ roundHalfEven n d ∧ (roundHalfEven n d : ℚ) ≤ (n : ℚ) / d + 1 / 2 := by
  have hdq : (0 : ℚ) < d := by exact_mod_cast Nat.pos_of_ne_zero hd
  have hdiv : (n : ℚ) = (d : ℚ) * (n / d : ℕ) + (n % d : ℕ) := by
    exact_mod_cast (Nat.div_add_mod n d).symm
  have hfrac : (n : ℚ) / d = (n / d : ℕ) + ((n % d : ℕ) : ℚ) / d := by
    rw [hdiv]; field_simp; ring
  have hr0 : (0 : ℚ) ≤ ((n % d : ℕ) : ℚ) / d := by positivity
  have hr1 : ((n % d : ℕ) : ℚ) / d < 1 := by
    rw [div_lt_one hdq]; exact_mod_cast Nat.mod_lt n (Nat.pos_of_ne_zero hd)
  unfold roundHalfEven
  split_ifs with h1 h2 h3
  · have : ((n % d : ℕ) : ℚ) / d < 1 / 2 := by
      rw [div_lt_iff₀ hdq]
      have : ((2 * (n % d) : ℕ) : ℚ) < d := by exact_mod_cast h1
      push_cast at this; linarith
    rw [hfrac]; constructor <;> linarith
  · have : (1 : ℚ) / 2 < ((n % d : ℕ) : ℚ) / d := by
      rw [lt_div_iff₀ hdq]
      have : ((d : ℕ) : ℚ) < (2 * (n % d) : ℕ) := by exact_mod_cast h2
      push_cast at this; linarith
    rw [hfrac]; push_cast; constructor <;> linarith
  · have e : 2 * (n % d) = d := by omega
    have : ((n % d : ℕ) : ℚ) / d = 1 / 2 := by
      rw [div_eq_iff hdq.ne']
      have : ((2 * (n % d) : ℕ) : ℚ) = d := by exact_mod_cast e
      push_cast at this; linarith
    rw [hfrac]; constructor <;> linarith
  · have e : 2 * (n % d) = d := by omega
    have : ((n % d : ℕ) : ℚ) / d = 1 / 2 := by
      rw [div_eq_iff hdq.ne']
      have : ((2 * (n % d) : ℕ) : ℚ) = d := by exact_mod_cast e
      push_cast at this; linarith
    rw [hfrac]; push_cast; constructor <;> linarith

/-- The relative error of one rounding is at most `2^-53`. -/
theorem roundToDouble_approx (a : Nat) {b : Nat} (hb : b ≠ 0) :
    Approx 1 (roundToDouble a b).val ((a : ℚ) / b) := by
  by_cases ha : a = 0
  · subst ha; rw [roundToDouble_zero]; simp [Approx]
  have hv := roundToDouble_val (b := b) ha
  have hs := scaled_val (a := a) hb
  obtain ⟨hlo, _⟩ := scaled_bounds ha hb
  obtain ⟨e1, e2⟩ := roundHalfEven_err (scaledNum a b) (scaledDen_ne (a := a) hb)
  set m : ℚ := (roundHalfEven (scaledNum a b) (scaledDen a b) : ℚ) with hm
  set s : ℚ := (scaledNum a b : ℚ) / scaledDen a b with hsdef
  have hp : (0 : ℚ) < 2 ^ (binExp a b - 52) := by positivity
  have hab : (a : ℚ) / b = s * 2 ^ (binExp a b - 52) := by
    rw [hs, mul_assoc, ← zpow_add₀ (by norm_num : (2 : ℚ) ≠ 0)]
    simp
  rw [hv, hab]
  unfold Approx roundFactor
  rw [pow_one]
  have h52 : (2 : ℚ) ^ 52 ≤ s := hlo
  constructor
  · have : s * (1 - 1 / 2 ^ 53) ≤ m := by
      have : s / 2 ^ 53 ≥ 1 / 2 := by
        rw [ge_iff_le, le_div_iff₀ (by positivity)]; linarith
      have e : s * (1 - 1 / 2 ^ 53) = s - s / 2 ^ 53 := by ring
      rw [e]; linarith
    calc s * 2 ^ (binExp a b - 52) * (1 - 1 / 2 ^ 53)
        = s * (1 - 1 / 2 ^ 53) * 2 ^ (binExp a b - 52) := by ring
      _ ≤ m * 2 ^ (binExp a b - 52) := mul_le_mul_of_nonneg_right this hp.le
  · have : m * (1 - 1 / 2 ^ 53) ≤ s := by
      have e : m * (1 - 1 / 2 ^ 53) = m - m / 2 ^ 53 := by ring
      rw [e]
      have hmb := (mantissa_bounds ha hb).1
      have hmq : (2 : ℚ) ^ 52 ≤ m := by rw [hm]; exact_mod_cast hmb
      have : m / 2 ^ 53 ≥ 1 / 2 := by
        rw [ge_iff_le, le_div_iff₀ (by positivity)]; linarith
      linarith
    calc m * 2 ^ (binExp a b - 52) * (1 - 1 / 2 ^ 53)
        = m * (1 - 1 / 2 ^ 53) * 2 ^ (binExp a b - 52) := by ring
      _ ≤ s * 2 ^ (binExp a b - 52) := mul_le_mul_of_nonneg_right this hp.le

theorem Double.ofNat_approx (n : Nat) : Approx 1 (Double.ofNat n).val n := by
  have h := roundToDouble_approx n one_ne_zero
  simpa [Double.ofNat] using h

theorem Double.mul_val_arg (x y : Double) :
    ((x.num * y.num : ℕ) : ℚ) / ((2 ^ (x.scale + y.scale) : ℕ) : ℚ) = x.val * y.val := by
  unfold Double.val; push_cast; rw [pow_add]; field_simp

/-- A product of two `double`s that approximate `vx` and `vy` approximates `vx * vy`, with
one more rounding. -/
theorem Double.mul_approx {i j : Nat} {x y : Double} {vx vy : ℚ} (hx : Approx i x.val vx)
    (hy : Approx j y.val vy) : Approx (1 + (i + j)) (x.mul y).val (vx * vy) := by
  have h := roundToDouble_approx (x.num * y.num)
    (show 2 ^ (x.scale + y.scale) ≠ 0 by positivity)
  rw [Double.mul_val_arg] at h
  exact approx_trans h (approx_mul hx hy (Double.val_nonneg x) (Double.val_nonneg y))

/-- A quotient of two `double`s that approximate `vx` and `vy` approximates `vx / vy`, with
one more rounding. -/
theorem Double.div_approx {i j : Nat} {x y d : Double} {vx vy : ℚ} (hd : x.div y = some d)
    (hx : Approx i x.val vx) (hy : Approx j y.val vy) :
    Approx (1 + (i + j)) d.val (vx / vy) := by
  unfold Double.div at hd
  by_cases hy0 : y.num = 0
  · rw [if_pos hy0] at hd; simp at hd
  rw [if_neg hy0, Option.some.injEq] at hd
  subst hd
  have h := roundToDouble_approx (x.num * 2 ^ y.scale)
    (show y.num * 2 ^ x.scale ≠ 0 from Nat.mul_ne_zero hy0 (by positivity))
  rw [Double.div_val_arg] at h
  exact approx_trans h (approx_div hx hy (Double.val_nonneg x) (Double.val_pos hy0))

/-- Truncation to `uint64_t`: the result is the integer part of the value. -/
theorem Double.toUInt64_bounds {x : Double} {r : Nat} (h : x.toUInt64 = some r) :
    (r : ℚ) ≤ x.val ∧ x.val < r + 1 := by
  unfold Double.toUInt64 at h
  split_ifs at h with hlt
  rw [Option.some.injEq] at h
  subst h
  have hp : (0 : ℚ) < 2 ^ x.scale := by positivity
  unfold Double.val
  constructor
  · rw [le_div_iff₀ hp]
    have := Nat.div_mul_le_self x.num (2 ^ x.scale)
    exact_mod_cast this
  · rw [div_lt_iff₀ hp]
    have := Nat.lt_div_mul_add (a := x.num) (b := 2 ^ x.scale) (by positivity)
    have h2 : x.num < (x.num / 2 ^ x.scale + 1) * 2 ^ x.scale := by
      rw [Nat.add_mul, Nat.one_mul]; exact this
    exact_mod_cast h2

/-- The ratio returned by `CalcCollateralRatio` for a nonzero debt is, up to nine roundings,
at most the exact ratio `asset * price / PRICE_BOOST / scoin * RATIO_BOOST`. -/
theorem CalcCollateralRatio_le_exact (env : CdpEnv) (a s p r : Nat) (hs : s ≠ 0)
    (hr : CalcCollateralRatio env a s p = some r) :
    (r : ℚ) * roundFactor ^ 9 ≤
      (a : ℚ) * p / env.PRICE_BOOST / s * env.RATIO_BOOST := by
  unfold CalcCollateralRatio at hr
  rw [if_neg hs] at hr
  split at hr
  · exact absurd hr (by simp)
  · rename_i x hx
    split at hr
    · exact absurd hr (by simp)
    · rename_i y hy
      have a1 := Double.mul_approx (Double.ofNat_approx a) (Double.ofNat_approx p)
      have a2 := Double.div_approx hx a1 (Double.ofNat_approx env.PRICE_BOOST)
      have a3 := Double.div_approx hy a2 (Double.ofNat_approx s)
      have a4 := Double.mul_approx a3 (Double.ofNat_approx env.RATIO_BOOST)
      have hb := (Double.toUInt64_bounds hr).1
      have a5 := approx_mono a4 (Double.val_nonneg _) (show 1 + (1 + (1 + (1 + (1 + 1) + 1) + 1) + 1) ≤ 9 by norm_num)
      calc (r : ℚ) * roundFactor ^ 9
          ≤ (y.mul (Double.ofNat env.RATIO_BOOST)).val * roundFactor ^ 9 :=
            mul_le_mul_of_nonneg_right hb (roundFactor_pow_pos 9).le
        _ ≤ _ := a5.2

/-! ## Manual liquidation: split of the collateral and partial liquidation -/

/-- Whenever the tier selection produces totals, the liquidator's and the owner's collateral
add up to the staked collateral. -/
theorem liquidateTiers_split (env : CdpEnv) (staked owed price ratio start nonReturn discount
    force : Nat) (t : LiquidateTotals) (hs : staked < U64)
    (ht : liquidateTiers env staked owed price ratio start nonReturn discount force =
      some (.totals t)) :
    t.totalBcoinsToReturnLiquidator + t.totalBcoinsToCdpOwner = staked := by
  unfold liquidateTiers at ht
  split_ifs at ht with h1 h2 h3
  · exact absurd ht (by simp)
  · split at ht
    · exact absurd ht (by simp)
    · split at ht
      · exact absurd ht (by simp)
      · split at ht
        · exact absurd ht (by simp)
        · split at ht
          · exact absurd ht (by simp)
          · rename_i liq hliq
            split_ifs at ht with h4
            · exact absurd ht (by simp)
            · split at ht
              · exact absurd ht (by simp)
              · split at ht
                · exact absurd ht (by simp)
                · simp only [Option.some.injEq, TierOutcome.totals.injEq] at ht
                  subst ht
                  simp only [sub64, U64] at *
                  omega
  · split at ht
    · exact absurd ht (by simp)
    · split at ht
      · exact absurd ht (by simp)
      · split at ht
        · exact absurd ht (by simp)
        · simp only [Option.some.injEq, TierOutcome.totals.injEq] at ht
          subst ht
          simp
  · simp only [Option.some.injEq, TierOutcome.totals.injEq] at ht
    subst ht
    simp

set_option maxRecDepth 100000 in
/-- C29 (the code at the failing input). With a non-return ratio of `10^17` (boosted), a
starting ratio of `2 * 10^17`, a price of 0.30 and a CDP of 9066666666666667 staked units
against 272 owed, a liquidator pays `3 * 10^15` stable units, more than the debt. The CDP's
ratio is above the non-return ratio, in `double` (`100000000000000016`) and exactly
(`100000000000000003`), and not above the starting ratio, so the first tier is taken; the
liquidator's collateral computed in `double` exceeds the staked collateral and the
assertion of line 669, which states that it does not, fails. -/
theorem liquidateAmounts_first_tier_assert :
    cdpSkewed.GetCollateralRatio exampleCdpEnv 30000000 = some 100000000000000016 ∧
    cdpSkewed.total_staked_bcoins * 30000000 * exampleCdpEnv.RATIO_BOOST /
      (exampleCdpEnv.PRICE_BOOST * cdpSkewed.total_owed_scoins) = 100000000000000003 ∧
    liquidateTiers exampleCdpEnv cdpSkewed.total_staked_bcoins cdpSkewed.total_owed_scoins
      30000000 100000000000000016 200000000000000000 100000000000000000 9700 10400 =
        some .assertFailed ∧
    liquidateAmounts exampleCdpEnv cdpSkewed 30000000 200000000000000000
      100000000000000000 9700 10400 3000000000000000 = some (.assertFailed 669) := by
  refine ⟨by decide, by decide, by decide, by decide⟩

set_option maxRecDepth 100000 in
/-- The assertion of line 745 at default thresholds (150 %, 113 %, 97 %, 104 %): at price
1.85 a CDP of `5 * 10^15` units staked against `2^53 + 4` owed has ratio 102.69 % and is in
the last tier, where the required payment is the debt; a payment of one unit less has
`liquidateRate = 1.0` in `double` and the assertion fails. -/
theorem liquidateAmounts_rate_assertion :
    liquidateAmounts exampleCdpEnv cdpLarge 185000000 15000 11300 9700 10400
      9007199254740995 = some (.assertFailed 745) := by
  decide

/-- First tier: a CDP whose ratio, as `CalcCollateralRatio` computes it, is above a
non-return ratio below `2^48` has at least the collateral that the `double` formula of
line 667 gives to the liquidator. -/
theorem firstTier_bcoins_le (env : CdpEnv) (a s p r nr liq : Nat) (ov pr b : Double)
    (hr : CalcCollateralRatio env a s p = some r) (hgt : r > nr) (hnr : nr < 2 ^ 48)
    (h1 : ((Double.ofNat s).mul (Double.ofNat nr)).div (Double.ofNat env.RATIO_BOOST) = some ov)
    (h2 : (Double.ofNat p).div (Double.ofNat env.PRICE_BOOST) = some pr)
    (h3 : ov.div pr = some b) (h4 : b.toUInt64 = some liq) : liq ≤ a := by
  have a1 := Double.div_approx h1 (Double.mul_approx (Double.ofNat_approx s)
    (Double.ofNat_approx nr)) (Double.ofNat_approx env.RATIO_BOOST)
  have a2 := Double.div_approx h2 (Double.ofNat_approx p) (Double.ofNat_approx env.PRICE_BOOST)
  have a3 := approx_mono (Double.div_approx h3 a1 a2) (Double.val_nonneg _)
    (show 1 + (1 + (1 + (1 + 1) + 1) + (1 + (1 + 1))) ≤ 9 by norm_num)
  have hb := (Double.toUInt64_bounds h4).1
  have q9 := roundFactor_pow_pos 9
  -- b * q^9 ≤ s * nr / RB / (p / PB)
  have hliq : (liq : ℚ) * roundFactor ^ 9 ≤
      (s : ℚ) * nr / env.RATIO_BOOST / ((p : ℚ) / env.PRICE_BOOST) :=
    le_trans (mul_le_mul_of_nonneg_right hb q9.le) a3.2
  by_cases hs : s = 0
  · subst hs
    have : (liq : ℚ) * roundFactor ^ 9 ≤ 0 := by simpa using hliq
    have h0 : (liq : ℚ) ≤ 0 := by
      by_contra hc
      push_neg at hc
      have := mul_pos hc q9
      linarith
    have : liq = 0 := by
      have : (liq : ℚ) = 0 := le_antisymm h0 (by positivity)
      exact_mod_cast this
    omega
  have hrat := CalcCollateralRatio_le_exact env a s p r hs hr
  have hr1 : ((nr : ℚ) + 1) ≤ r := by exact_mod_cast hgt
  set E : ℚ := (a : ℚ) * p / env.PRICE_BOOST / s * env.RATIO_BOOST with hE
  have hEpos : 0 < E := by
    have : 0 < (r : ℚ) * roundFactor ^ 9 :=
      mul_pos (lt_of_lt_of_le (by positivity) hr1) q9
    linarith
  -- every factor of E is positive
  have hsq : (0 : ℚ) < s := by exact_mod_cast Nat.pos_of_ne_zero hs
  have hp : (p : ℚ) ≠ 0 := by
    intro h; rw [hE, h] at hEpos; simp at hEpos
  have hPB : (env.PRICE_BOOST : ℚ) ≠ 0 := by
    intro h; rw [hE, h] at hEpos; simp at hEpos
  have hRB : (env.RATIO_BOOST : ℚ) ≠ 0 := by
    intro h; rw [hE, h] at hEpos; simp at hEpos
  have hpq : (0 : ℚ) < p := lt_of_le_of_ne (by positivity) (Ne.symm hp)
  have hPBq : (0 : ℚ) < env.PRICE_BOOST := lt_of_le_of_ne (by positivity) (Ne.symm hPB)
  have hRBq : (0 : ℚ) < env.RATIO_BOOST := lt_of_le_of_ne (by positivity) (Ne.symm hRB)
  set K : ℚ := (s : ℚ) * env.PRICE_BOOST / (env.RATIO_BOOST * p) with hK
  have hKpos : 0 < K := by positivity
  have e1 : (s : ℚ) * nr / env.RATIO_BOOST / ((p : ℚ) / env.PRICE_BOOST) = K * nr := by
    rw [hK]; field_simp; ring
  have e2 : (a : ℚ) = E * K := by
    rw [hE, hK]; field_simp; ring
  rw [e1] at hliq
  -- (nr + 1) * q^9 ≤ E
  have h5 : ((nr : ℚ) + 1) * roundFactor ^ 9 ≤ E :=
    le_trans (mul_le_mul_of_nonneg_right hr1 q9.le) hrat
  -- nr ≤ (nr + 1) * q^18
  have hq18 := roundFactor_pow_ge 18
  have hnrq : (nr : ℚ) + 1 ≤ 2 ^ 48 := by exact_mod_cast hnr
  have h6 : (nr : ℚ) ≤ ((nr : ℚ) + 1) * roundFactor ^ 18 := by
    have h7 : ((nr : ℚ) + 1) * (1 - ((18 : ℕ) : ℚ) / 2 ^ 53) ≤ ((nr : ℚ) + 1) * roundFactor ^ 18 :=
      mul_le_mul_of_nonneg_left hq18 (by positivity)
    have h8 : (nr : ℚ) ≤ ((nr : ℚ) + 1) * (1 - ((18 : ℕ) : ℚ) / 2 ^ 53) := by
      have : ((nr : ℚ) + 1) * (((18 : ℕ) : ℚ) / 2 ^ 53) ≤ 1 := by
        calc ((nr : ℚ) + 1) * (((18 : ℕ) : ℚ) / 2 ^ 53)
            ≤ 2 ^ 48 * (((18 : ℕ) : ℚ) / 2 ^ 53) :=
              mul_le_mul_of_nonneg_right hnrq (by positivity)
          _ ≤ 1 := by norm_num
      linarith
    linarith
  -- liq * q^9 ≤ K * nr ≤ K * (nr + 1) * q^18 ≤ E * K * q^9 = a * q^9
  have h9 : (liq : ℚ) * roundFactor ^ 9 ≤ (a : ℚ) * roundFactor ^ 9 := by
    calc (liq : ℚ) * roundFactor ^ 9 ≤ K * nr := hliq
      _ ≤ K * (((nr : ℚ) + 1) * roundFactor ^ 18) := mul_le_mul_of_nonneg_left h6 hKpos.le
      _ = K * (((nr : ℚ) + 1) * roundFactor ^ 9) * roundFactor ^ 9 := by
          rw [show (18 : ℕ) = 9 + 9 from rfl, pow_add]; ring
      _ ≤ K * E * roundFactor ^ 9 :=
          mul_le_mul_of_nonneg_right (mul_le_mul_of_nonneg_left h5 hKpos.le) q9.le
      _ = (a : ℚ) * roundFactor ^ 9 := by rw [e2]; ring
  have h10 : (liq : ℚ) ≤ a := le_of_mul_le_mul_right h9 q9
  exact_mod_cast h10

/-- The assertion of line 669 holds for every non-return ratio below `2^48`. -/
theorem liquidateCdpTiers_assertion (env : CdpEnv) (cdp : CUserCDP) (price start nonReturn
    discount force : Nat) (hnr : nonReturn < 2 ^ 48) :
    liquidateCdpTiers env cdp price start nonReturn discount force ≠ some .assertFailed := by
  unfold liquidateCdpTiers CUserCDP.GetCollateralRatio
  split
  · simp
  · rename_i r hr
    unfold liquidateTiers
    split_ifs with h1 h2 h3
    · simp
    · split
      · simp
      · rename_i ov hov
        split
        · simp
        · rename_i pr hpr
          split
          · simp
          · rename_i b hb
            split
            · simp
            · rename_i liq hliq
              have hle := firstTier_bcoins_le env _ _ _ _ _ _ ov pr b hr h2 hnr hov hpr hb hliq
              rw [if_neg (by omega)]
              split
              · simp
              · split <;> simp
    · split
      · simp
      · split
        · simp
        · split <;> simp
    · simp

theorem OperateBalance_UNPLEDGE_null (this : CAccount) (sym : TokenSymbol) (v : Nat)
    (rt : ReceiptType) (rs : ReceiptList) :
    OperateBalance this sym .UNPLEDGE v rt rs .null =
      if (this.GetToken sym).pledged_amount < v then ⟨false, this.touch sym, rs, .null⟩
      else
        ⟨true, this.SetToken sym
          { this.GetToken sym with
            free_amount := add64 (this.GetToken sym).free_amount v
            pledged_amount := sub64 (this.GetToken sym).pledged_amount v },
          rs ++ [⟨rt, .UNPLEDGE, .keyid this.keyid, .null, sym, v⟩], .null⟩ := by
  simp only [OperateBalance, GetToken_touch, SetToken_touch]
  rw [if_neg (by simp)]

theorem OperateBalance_SUB_FREE_null (this : CAccount) (sym : TokenSymbol) (v : Nat)
    (rt : ReceiptType) (rs : ReceiptList) :
    OperateBalance this sym .SUB_FREE v rt rs .null =
      if (this.GetToken sym).free_amount < v then ⟨false, this.touch sym, rs, .null⟩
      else
        ⟨true, this.SetToken sym
          { this.GetToken sym with
            free_amount := sub64 (this.GetToken sym).free_amount v },
          rs ++ [⟨rt, .SUB_FREE, .keyid this.keyid, .null, sym, v⟩], .null⟩ := by
  simp only [OperateBalance, GetToken_touch, SetToken_touch]
  rw [if_neg (by simp)]

/-- When the owner's three calls of a full liquidation succeed, the pledged bucket has lost
the liquidator's and the owner's collateral. -/
theorem fullLiquidateOwner_pledged (owner : CAccount) (sym : TokenSymbol)
    (t : LiquidateTotals) (rs : ReceiptList)
    (hw : (owner.GetToken sym).pledged_amount < U64)
    (hok : (fullLiquidateOwner owner sym t rs).ok = true) :
    ((fullLiquidateOwner owner sym t rs).this.GetToken sym).pledged_amount +
        (t.totalBcoinsToReturnLiquidator + t.totalBcoinsToCdpOwner) =
      (owner.GetToken sym).pledged_amount := by
  unfold fullLiquidateOwner at hok ⊢
  simp only [OperateBalance_UNPLEDGE_null, OperateBalance_SUB_FREE_null] at hok ⊢
  by_cases h1 : (owner.GetToken sym).pledged_amount < t.totalBcoinsToReturnLiquidator
  · simp [h1] at hok
  simp only [if_neg h1, Bool.not_true, Bool.false_eq_true, if_false,
    GetToken_SetToken_same] at hok ⊢
  by_cases h2 : add64 (owner.GetToken sym).free_amount t.totalBcoinsToReturnLiquidator <
      t.totalBcoinsToReturnLiquidator
  · simp [h2] at hok
  simp only [if_neg h2, Bool.not_true, Bool.false_eq_true, if_false,
    GetToken_SetToken_same] at hok ⊢
  by_cases h3 : sub64 (owner.GetToken sym).pledged_amount t.totalBcoinsToReturnLiquidator <
      t.totalBcoinsToCdpOwner
  · simp [h3] at hok
  simp only [if_neg h3, GetToken_SetToken_same]
  rw [sub64_of_le (not_lt.mp h1) hw] at h3 ⊢
  rw [sub64_of_le (not_lt.mp h3) (by omega)]
  omega

/-- A full liquidation is the tier selection producing totals that the payment covers. -/
theorem liquidateAmounts_full (env : CdpEnv) (cdp : CUserCDP) (price start nonReturn discount
    force paid : Nat) (t : LiquidateTotals)
    (h : liquidateAmounts env cdp price start nonReturn discount force paid = some (.full t)) :
    ∃ ratio, liquidateTiers env cdp.total_staked_bcoins cdp.total_owed_scoins price ratio start
      nonReturn discount force = some (.totals t) := by
  unfold liquidateAmounts at h
  split at h
  · exact absurd h (by simp)
  · exact absurd h (by simp)
  · exact absurd h (by simp)
  · rename_i t0 ht0
    split_ifs at h
    · simp only [Option.some.injEq, LiquidateOutcome.full.injEq] at h
      subst h
      unfold liquidateCdpTiers at ht0
      split at ht0
      · exact absurd ht0 (by simp)
      · rename_i ratio _
        exact ⟨ratio, ht0⟩
    · split at h
      · exact absurd h (by simp)
      · exact absurd h (by simp)
      · exact absurd h (by simp)

/-- The assertion of line 669 is the only one of the tier selection. -/
theorem liquidateAmounts_assertion (env : CdpEnv) (cdp : CUserCDP) (price start nonReturn
    discount force paid : Nat)
    (h : liquidateAmounts env cdp price start nonReturn discount force paid =
      some (.assertFailed 669)) :
    liquidateCdpTiers env cdp price start nonReturn discount force = some .assertFailed := by
  unfold liquidateAmounts at h
  split at h
  · exact absurd h (by simp)
  · exact absurd h (by simp)
  · assumption
  · split_ifs at h
    · exact absurd h (by simp)
    · split at h
      · exact absurd h (by simp)
      · rename_i line hl
        simp only [Option.some.injEq, LiquidateOutcome.assertFailed.injEq] at h
        subst h
        exfalso
        unfold liquidatePart at hl
        split at hl
        · exact absurd hl (by simp)
        · split_ifs at hl
          · split at hl
            · exact absurd hl (by simp)
            · split at hl
              · exact absurd hl (by simp)
              · split at hl
                · exact absurd hl (by simp)
                · simp only at hl
                  split_ifs at hl <;> exact absurd hl (by simp)
          · exact absurd hl (by simp)
      · exact absurd h (by simp)

/-- Whatever the price, the thresholds and the payment, with the CDP's ratio computed as
`CalcCollateralRatio` does: for a non-return ratio parameter below `2^48` (a
ratio of `2.8 * 10^10` at `RATIO_BOOST = 10^4`) the assertion of line 669 does not fail;
and in a full liquidation, in every tier, the liquidator's collateral is at most
`total_staked_bcoins`, the liquidator's and the owner's collateral add up to
`total_staked_bcoins`, and when the owner's three balance calls succeed the owner's pledged
bucket has decreased by exactly `total_staked_bcoins`. -/
theorem liquidateAmounts_full_split (env : CdpEnv) (cdp : CUserCDP) (price start nonReturn
    discount force paid : Nat) (owner : CAccount) (receipts : ReceiptList)
    (hs : cdp.total_staked_bcoins < U64)
    (hp : (owner.GetToken cdp.bcoin_symbol).pledged_amount < U64) :
    (nonReturn < 2 ^ 48 →
      liquidateAmounts env cdp price start nonReturn discount force paid ≠
        some (.assertFailed 669)) ∧
    ∀ t, liquidateAmounts env cdp price start nonReturn discount force paid = some (.full t) →
      t.totalBcoinsToReturnLiquidator ≤ cdp.total_staked_bcoins ∧
      t.totalBcoinsToReturnLiquidator + t.totalBcoinsToCdpOwner = cdp.total_staked_bcoins ∧
      ((fullLiquidateOwner owner cdp.bcoin_symbol t receipts).ok = true →
        ((fullLiquidateOwner owner cdp.bcoin_symbol t receipts).this.GetToken
            cdp.bcoin_symbol).pledged_amount + cdp.total_staked_bcoins =
          (owner.GetToken cdp.bcoin_symbol).pledged_amount) := by
  refine ⟨fun hnr h => liquidateCdpTiers_assertion env cdp price start nonReturn discount force
    hnr (liquidateAmounts_assertion env cdp price start nonReturn discount force paid h), ?_⟩
  intro t ht
  obtain ⟨ratio, hr⟩ := liquidateAmounts_full env cdp price start nonReturn discount force paid
    t ht
  have hsum := liquidateTiers_split env _ _ price ratio start nonReturn discount force t hs hr
  refine ⟨by omega, hsum, fun hok => ?_⟩
  have := fullLiquidateOwner_pledged owner cdp.bcoin_symbol t receipts hp hok
  omega

set_option maxRecDepth 100000 in
/-- At default thresholds 150 %, 113 %, 97 %, 104 %, price 1.00, a CDP of 1400 staked
against 1000 owed (ratio 140 %, first tier) and a payment of 1096: the liquidator gets 1130,
the owner 270, and the owner's pledged bucket goes from 1400 to 0. -/
theorem liquidateAmounts_full_split_witness :
    liquidateAmounts exampleCdpEnv cdpFirstTier 100000000 15000 11300 9700 10400 1096 =
        some (.full ⟨1130, 1096, 96, 270⟩) ∧
    (fullLiquidateOwner pledger "WICC" ⟨1130, 1096, 96, 270⟩ []).ok = true ∧
    ((fullLiquidateOwner pledger "WICC" ⟨1130, 1096, 96, 270⟩ []).this.GetToken
        "WICC").pledged_amount = 0 ∧
    ((11300 < 2 ^ 48 →
        liquidateAmounts exampleCdpEnv cdpFirstTier 100000000 15000 11300 9700 10400 1096 ≠
          some (.assertFailed 669)) ∧
      ∀ t, liquidateAmounts exampleCdpEnv cdpFirstTier 100000000 15000 11300 9700 10400 1096 =
          some (.full t) →
        t.totalBcoinsToReturnLiquidator ≤ cdpFirstTier.total_staked_bcoins ∧
        t.totalBcoinsToReturnLiquidator + t.totalBcoinsToCdpOwner =
          cdpFirstTier.total_staked_bcoins ∧
        ((fullLiquidateOwner pledger cdpFirstTier.bcoin_symbol t []).ok = true →
          ((fullLiquidateOwner pledger cdpFirstTier.bcoin_symbol t []).this.GetToken
              cdpFirstTier.bcoin_symbol).pledged_amount + cdpFirstTier.total_staked_bcoins =
            (pledger.GetToken cdpFirstTier.bcoin_symbol).pledged_amount)) :=
  ⟨by decide, by decide, by decide,
    liquidateAmounts_full_split exampleCdpEnv cdpFirstTier 100000000 15000 11300 9700 10400
      1096 pledger [] (by decide) (by decide)⟩

/-! ## Manual liquidation: the unsigned subtractions -/

/-- For a ratio `f < 2^48`, eighteen roundings cost less than the step from `f` to `f + 1`. -/
theorem ratio_step_absorbs (f : Nat) (hf : f < 2 ^ 48) :
    (f : ℚ) ≤ ((f : ℚ) + 1) * roundFactor ^ 18 := by
  have hq18 := roundFactor_pow_ge 18
  have hfq : (f : ℚ) + 1 ≤ 2 ^ 48 := by exact_mod_cast hf
  have h7 : ((f : ℚ) + 1) * (1 - ((18 : ℕ) : ℚ) / 2 ^ 53) ≤ ((f : ℚ) + 1) * roundFactor ^ 18 :=
    mul_le_mul_of_nonneg_left hq18 (by positivity)
  have : ((f : ℚ) + 1) * (((18 : ℕ) : ℚ) / 2 ^ 53) ≤ 1 := by
    calc ((f : ℚ) + 1) * (((18 : ℕ) : ℚ) / 2 ^ 53)
        ≤ 2 ^ 48 * (((18 : ℕ) : ℚ) / 2 ^ 53) :=
          mul_le_mul_of_nonneg_right hfq (by positivity)
      _ ≤ 1 := by norm_num
  linarith

theorem FullLiqState.operate_keeps_erased (s : FullLiqState) (c : Call) :
    (s.operate c).2.erased = s.erased := rfl

theorem FullLiqState.processPenaltyFees_erased (env : FullLiqEnv) (cdp : CUserCDP) (p : Nat)
    (s : FullLiqState) : (s.processPenaltyFees env cdp p).2.erased = s.erased := rfl

/-- The full-liquidation branch returns true only after `EraseCDP` has erased the CDP, and
erases nothing when it returns false. -/
theorem fullLiquidation_erased (env : FullLiqEnv) (cdp : CUserCDP) (t : LiquidateTotals)
    (s : FullLiqState) :
    ((fullLiquidation env cdp t s).1 = true →
      env.eraseCDP = true ∧ (fullLiquidation env cdp t s).2.erased = s.erased ++ [cdp]) ∧
    ((fullLiquidation env cdp t s).1 = false →
      (fullLiquidation env cdp t s).2.erased = s.erased) := by
  generalize hr : fullLiquidation env cdp t s = r
  unfold fullLiquidation at hr
  simp only at hr
  split_ifs at hr with h1 h2 h3 h4 h5 h6 h7 <;> subst hr <;>
    simp [FullLiqState.operate_keeps_erased, FullLiqState.processPenaltyFees_erased] <;>
    first
      | rfl
      | (cases he : env.eraseCDP <;> simp_all)

theorem FullLiqState.operate_null (s : FullLiqState) (i : Nat) (sym : TokenSymbol)
    (op : BalanceOpType) (v : Nat) (rt : ReceiptType) :
    s.operate ⟨i, none, sym, op, v, rt⟩ =
      ((OperateBalance (s.ledger.accounts i) sym op v rt s.ledger.receipts .null).ok,
        { s with
          ledger :=
            { accounts := fun j =>
                if j = i then
                  (OperateBalance (s.ledger.accounts i) sym op v rt s.ledger.receipts .null).this
                else s.ledger.accounts j
              receipts :=
                (OperateBalance (s.ledger.accounts i) sym op v rt s.ledger.receipts
                  .null).receipts } }) := by
  have hp : (OperateBalance (s.ledger.accounts i) sym op v rt s.ledger.receipts .null).peer =
      .null := by
    unfold OperateBalance
    cases op <;> simp <;> split_ifs <;> rfl
  unfold FullLiqState.operate Ledger.apply Ledger.peerRef
  simp only [hp]

/-- A call without a peer leaves the other account objects as they were. -/
theorem FullLiqState.operate_other (s : FullLiqState) (i : Nat) (sym : TokenSymbol)
    (op : BalanceOpType) (v : Nat) (rt : ReceiptType) (j : Nat) (h : j ≠ i) :
    (s.operate ⟨i, none, sym, op, v, rt⟩).2.ledger.accounts j = s.ledger.accounts j := by
  rw [FullLiqState.operate_null]
  simp only [if_neg h]

theorem FullLiqState.operate_SUB_FREE (s : FullLiqState) (i : Nat) (sym : TokenSymbol)
    (v : Nat) (rt : ReceiptType)
    (h : v ≤ ((s.ledger.accounts i).GetToken sym).free_amount) :
    (s.operate ⟨i, none, sym, .SUB_FREE, v, rt⟩).1 = true ∧
    ((s.operate ⟨i, none, sym, .SUB_FREE, v, rt⟩).2.ledger.accounts i).GetToken sym =
      { (s.ledger.accounts i).GetToken sym with
        free_amount := sub64 ((s.ledger.accounts i).GetToken sym).free_amount v } := by
  rw [FullLiqState.operate_null, OperateBalance_SUB_FREE_null, if_neg (Nat.not_lt.mpr h)]
  simp

theorem FullLiqState.operate_ADD_FREE (s : FullLiqState) (i : Nat) (sym : TokenSymbol)
    (v : Nat) (rt : ReceiptType) :
    (s.operate ⟨i, none, sym, .ADD_FREE, v, rt⟩).1 = true := by
  rw [FullLiqState.operate_null, OperateBalance_ADD_FREE_null]

theorem FullLiqState.operate_UNPLEDGE (s : FullLiqState) (i : Nat) (sym : TokenSymbol)
    (v : Nat) (rt : ReceiptType)
    (h : v ≤ ((s.ledger.accounts i).GetToken sym).pledged_amount) :
    (s.operate ⟨i, none, sym, .UNPLEDGE, v, rt⟩).1 = true ∧
    ((s.operate ⟨i, none, sym, .UNPLEDGE, v, rt⟩).2.ledger.accounts i).GetToken sym =
      { (s.ledger.accounts i).GetToken sym with
        free_amount := add64 ((s.ledger.accounts i).GetToken sym).free_amount v
        pledged_amount := sub64 ((s.ledger.accounts i).GetToken sym).pledged_amount v } := by
  rw [FullLiqState.operate_null, OperateBalance_UNPLEDGE_null, if_neg (Nat.not_lt.mpr h)]
  simp

/-- `ProcessPenaltyFees` succeeds on a reserve account whose free balance does not wrap,
when the buy order is accepted. -/
theorem ProcessPenaltyFees_ok (version : FeatureForkVersionEnum) (feeMin : Nat)
    (a : CAccount) (cdp : CUserCDP) (p : Nat) (rs : ReceiptList)
    (h : (a.GetToken cdp.scoin_symbol).free_amount + p < U64) :
    (ProcessPenaltyFees version feeMin (some a) true cdp p rs).ok = true := by
  unfold ProcessPenaltyFees
  by_cases hp : p = 0
  · rw [if_pos hp]
  rw [if_neg hp]
  simp only [OperateBalance_ADD_FREE_null, OperateBalance_FREEZE_null, GetToken_SetToken_same,
    Bool.true_eq_false, if_false]
  have hle : sub64 p (p / 2) ≤ add64 (a.GetToken cdp.scoin_symbol).free_amount p := by
    rw [add64_of_lt h, sub64_of_le (Nat.div_le_self p 2) (by omega)]; omega
  split_ifs <;> first | rfl | contradiction | (exfalso; omega)

/-- With three distinct account objects, the full-liquidation branch succeeds when the
liquidator's free stable coins cover the required payment, the owner's pledged collateral
covers the liquidator's and the owner's part, no credit reaches `2^64`, the buy order is
accepted and `EraseCDP` succeeds. -/
theorem fullLiquidation_succeeds (env : FullLiqEnv) (cdp : CUserCDP) (t : LiquidateTotals)
    (s : FullLiqState) (f : Nat) (hf : env.fcoinAccount = some f)
    (hto : env.txAccount ≠ env.cdpOwnerAccount) (hft : f ≠ env.txAccount)
    (hfo : f ≠ env.cdpOwnerAccount)
    (hpay : t.totalScoinsToLiquidate ≤
      ((s.ledger.accounts env.txAccount).GetToken cdp.scoin_symbol).free_amount)
    (hpledged : t.totalBcoinsToReturnLiquidator + t.totalBcoinsToCdpOwner ≤
      ((s.ledger.accounts env.cdpOwnerAccount).GetToken cdp.bcoin_symbol).pledged_amount)
    (hp64 : ((s.ledger.accounts env.cdpOwnerAccount).GetToken cdp.bcoin_symbol).pledged_amount
      < U64)
    (hfree : ((s.ledger.accounts env.cdpOwnerAccount).GetToken cdp.bcoin_symbol).free_amount +
      t.totalBcoinsToReturnLiquidator < U64)
    (hres : ((s.ledger.accounts f).GetToken cdp.scoin_symbol).free_amount +
      t.totalScoinsToReturnSysFund < U64)
    (horder : env.createActiveOrder = true) (herase : env.eraseCDP = true) :
    (fullLiquidation env cdp t s).1 = true := by
  have hot : env.cdpOwnerAccount ≠ env.txAccount := fun h => hto h.symm
  unfold fullLiquidation
  lift_lets
  intro r1 r2 r3 r4 r5 r6 _
  -- the liquidator's two calls
  have ok1 : r1.1 = true := (FullLiqState.operate_SUB_FREE s _ _ _ _ hpay).1
  have ok2 : r2.1 = true := FullLiqState.operate_ADD_FREE r1.2 _ _ _ _
  have own2 : r2.2.ledger.accounts env.cdpOwnerAccount = s.ledger.accounts env.cdpOwnerAccount := by
    show (r1.2.operate _).2.ledger.accounts _ = _
    rw [FullLiqState.operate_other _ _ _ _ _ _ _ hot]
    exact FullLiqState.operate_other _ _ _ _ _ _ _ hot
  have res2 : r2.2.ledger.accounts f = s.ledger.accounts f := by
    show (r1.2.operate _).2.ledger.accounts _ = _
    rw [FullLiqState.operate_other _ _ _ _ _ _ _ hft]
    exact FullLiqState.operate_other _ _ _ _ _ _ _ hft
  -- the owner's three calls
  have h3 := FullLiqState.operate_UNPLEDGE r2.2 env.cdpOwnerAccount cdp.bcoin_symbol
    t.totalBcoinsToReturnLiquidator .CDP_ASSET_TO_LIQUIDATOR (by rw [own2]; omega)
  have ok3 : r3.1 = true := h3.1
  have tok3 : (r3.2.ledger.accounts env.cdpOwnerAccount).GetToken cdp.bcoin_symbol = _ := h3.2
  rw [own2] at tok3
  have h4 := FullLiqState.operate_SUB_FREE r3.2 env.cdpOwnerAccount cdp.bcoin_symbol
    t.totalBcoinsToReturnLiquidator .CDP_ASSET_TO_LIQUIDATOR (by
      rw [tok3]; simp only; rw [add64_of_lt hfree]; omega)
  have ok4 : r4.1 = true := h4.1
  have tok4 : (r4.2.ledger.accounts env.cdpOwnerAccount).GetToken cdp.bcoin_symbol = _ := h4.2
  rw [tok3] at tok4
  have h5 := FullLiqState.operate_UNPLEDGE r4.2 env.cdpOwnerAccount cdp.bcoin_symbol
    t.totalBcoinsToCdpOwner .CDP_LIQUIDATED_ASSET_TO_OWNER (by
      rw [tok4]; simp only; rw [sub64_of_le (by omega) hp64]; omega)
  have ok5 : r5.1 = true := h5.1
  have res5 : r5.2.ledger.accounts f = s.ledger.accounts f := by
    show (r4.2.operate _).2.ledger.accounts _ = _
    rw [FullLiqState.operate_other _ _ _ _ _ _ _ hfo]
    show (r3.2.operate _).2.ledger.accounts _ = _
    rw [FullLiqState.operate_other _ _ _ _ _ _ _ hfo]
    show (r2.2.operate _).2.ledger.accounts _ = _
    rw [FullLiqState.operate_other _ _ _ _ _ _ _ hfo]
    exact res2
  -- the penalty
  have ok6 : r6.1 = true := by
    show (ProcessPenaltyFees _ _ _ _ _ _ _).ok = true
    rw [hf, horder]
    simp only [Option.map_some']
    apply ProcessPenaltyFees_ok
    rw [res5]; exact hres
  simp only [ok1, ok2, ok3, ok4, ok5, ok6, herase, Bool.true_eq_false, if_false]

/-- C6 (amended). In the tier selection of `CCDPLiquidateTx::ExecuteTx`, whenever it yields
totals for a CDP with 64-bit collateral: if `non_return < ratio <= start`, the liquidator
receives the collateral worth `non_return x debt`, that is
`uint64(owed * (double)non_return / RATIO_BOOST / ((double)price / PRICE_BOOST))`, which is
at most the collateral, and the owner receives the remainder; if
`force < ratio <= non_return`, the liquidator receives the whole collateral and the owner
nothing. The full-liquidation branch is taken exactly when the amount paid is at least the
required `totalScoinsToLiquidate`; it returns true only after `EraseCDP` has erased the CDP,
and erases nothing when it returns false; and it does return true, with the CDP erased,
when the liquidator, the owner and the risk reserve are three accounts, the liquidator's
free stable coins cover the payment (the check of line 615), the owner's pledged
collateral covers the CDP's, no credit reaches `2^64`, the buy order of the penalty is
accepted and `EraseCDP` succeeds. -/
theorem liquidateTiers_bands (env : CdpEnv) (staked owed price ratio start nonReturn discount
    force paid : Nat) (t : LiquidateTotals) (hstaked : staked < U64)
    (ht : liquidateTiers env staked owed price ratio start nonReturn discount force =
      some (.totals t)) :
    (nonReturn < ratio → ratio ≤ start →
      ∃ owedValue unitPrice bcoins,
        ((Double.ofNat owed).mul (Double.ofNat nonReturn)).div (Double.ofNat env.RATIO_BOOST) =
          some owedValue ∧
        (Double.ofNat price).div (Double.ofNat env.PRICE_BOOST) = some unitPrice ∧
        owedValue.div unitPrice = some bcoins ∧
        bcoins.toUInt64 = some t.totalBcoinsToReturnLiquidator ∧
        t.totalBcoinsToReturnLiquidator ≤ staked ∧
        t.totalBcoinsToCdpOwner = staked - t.totalBcoinsToReturnLiquidator) ∧
    (force < ratio → ratio ≤ nonReturn →
      t.totalBcoinsToReturnLiquidator = staked ∧ t.totalBcoinsToCdpOwner = 0) ∧
    (isFullLiquidation paid t = true ↔ t.totalScoinsToLiquidate ≤ paid) ∧
    (∀ (fenv : FullLiqEnv) (cdp : CUserCDP) (s : FullLiqState),
      (t.totalScoinsToLiquidate ≤ paid →
        liquidateBranch fenv cdp t paid s = some (fullLiquidation fenv cdp t s)) ∧
      (paid < t.totalScoinsToLiquidate → liquidateBranch fenv cdp t paid s = none) ∧
      ((fullLiquidation fenv cdp t s).1 = true →
        fenv.eraseCDP = true ∧
        (fullLiquidation fenv cdp t s).2.erased = s.erased ++ [cdp]) ∧
      ((fullLiquidation fenv cdp t s).1 = false →
        (fullLiquidation fenv cdp t s).2.erased = s.erased) ∧
      (∀ f, fenv.fcoinAccount = some f → fenv.txAccount ≠ fenv.cdpOwnerAccount →
        f ≠ fenv.txAccount → f ≠ fenv.cdpOwnerAccount →
        t.totalScoinsToLiquidate ≤ paid →
        paid ≤ ((s.ledger.accounts fenv.txAccount).GetToken cdp.scoin_symbol).free_amount →
        staked ≤
          ((s.ledger.accounts fenv.cdpOwnerAccount).GetToken cdp.bcoin_symbol).pledged_amount →
        ((s.ledger.accounts fenv.cdpOwnerAccount).GetToken cdp.bcoin_symbol).pledged_amount
          < U64 →
        ((s.ledger.accounts fenv.cdpOwnerAccount).GetToken cdp.bcoin_symbol).free_amount +
          staked < U64 →
        ((s.ledger.accounts f).GetToken cdp.scoin_symbol).free_amount +
          t.totalScoinsToReturnSysFund < U64 →
        fenv.createActiveOrder = true → fenv.eraseCDP = true →
        ∃ s2, liquidateBranch fenv cdp t paid s = some (true, s2) ∧
          s2.erased = s.erased ++ [cdp])) := by
  refine ⟨?_, ?_, ?_, ?_⟩
  · intro h1 h2
    unfold liquidateTiers at ht
    rw [if_neg (by omega), if_pos (by omega)] at ht
    rcases hA : ((Double.ofNat owed).mul (Double.ofNat nonReturn)).div
        (Double.ofNat env.RATIO_BOOST) with _ | owedValue
    · rw [hA] at ht; simp at ht
    rcases hB : (Double.ofNat price).div (Double.ofNat env.PRICE_BOOST) with _ | unitPrice
    · rw [hA, hB] at ht; simp at ht
    rcases hC : owedValue.div unitPrice with _ | bcoins
    · rw [hA, hB] at ht; simp only at ht; rw [hC] at ht; simp at ht
    rcases hD : bcoins.toUInt64 with _ | n
    · rw [hA, hB] at ht; simp only at ht; rw [hC] at ht; simp only at ht
      rw [hD] at ht; simp at ht
    rw [hA, hB] at ht; simp only at ht; rw [hC] at ht; simp only at ht
    rw [hD] at ht; simp only at ht
    by_cases hlt : staked < n
    · rw [if_pos hlt] at ht; simp at ht
    rw [if_neg hlt] at ht
    rcases hE : (owedValue.mul (Double.ofNat discount)).div (Double.ofNat env.RATIO_BOOST)
      with _ | scoins
    · rw [hE] at ht; simp at ht
    rw [hE] at ht; simp only at ht
    rcases hF : scoins.toUInt64 with _ | m
    · rw [hF] at ht; simp at ht
    rw [hF] at ht
    simp only [Option.some.injEq, TierOutcome.totals.injEq] at ht
    subst ht
    exact ⟨owedValue, unitPrice, bcoins, rfl, rfl, hC, hD, by simp only; omega,
      sub64_of_le (by omega) hstaked⟩
  · intro h1 h2
    unfold liquidateTiers at ht
    by_cases h0 : ratio > start
    · rw [if_pos h0] at ht; simp at ht
    rw [if_neg h0, if_neg (by omega), if_pos h1] at ht
    rcases hB : (Double.ofNat price).div (Double.ofNat env.PRICE_BOOST) with _ | unitPrice
    · rw [hB] at ht; simp at ht
    rw [hB] at ht; simp only at ht
    rcases hE : (((Double.ofNat staked).mul unitPrice).mul (Double.ofNat discount)).div
        (Double.ofNat env.RATIO_BOOST) with _ | scoins
    · rw [hE] at ht; simp at ht
    rw [hE] at ht; simp only at ht
    rcases hF : scoins.toUInt64 with _ | m
    · rw [hF] at ht; simp at ht
    rw [hF] at ht
    simp only [Option.some.injEq, TierOutcome.totals.injEq] at ht
    subst ht
    exact ⟨rfl, rfl⟩
  · unfold isFullLiquidation
    simp

  · intro fenv cdp s
    have hbranch : t.totalScoinsToLiquidate ≤ paid →
        liquidateBranch fenv cdp t paid s = some (fullLiquidation fenv cdp t s) := by
      intro h
      unfold liquidateBranch isFullLiquidation
      rw [if_pos (by simpa using h)]
    have hsum := liquidateTiers_split env staked owed price ratio start nonReturn discount
      force t hstaked ht
    refine ⟨hbranch, ?_, (fullLiquidation_erased fenv cdp t s).1,
      (fullLiquidation_erased fenv cdp t s).2, ?_⟩
    · intro h
      unfold liquidateBranch isFullLiquidation
      rw [if_neg (by simpa using h)]
    · intro f hf hto hft hfo hpaid hfree hpl hp64 hofree hres horder herase
      have hok := fullLiquidation_succeeds fenv cdp t s f hf hto hft hfo
        (le_trans hpaid hfree) (by omega) hp64 (by omega) hres horder herase
      refine ⟨(fullLiquidation fenv cdp t s).2, ?_, ?_⟩
      · rw [hbranch hpaid, ← hok]
      · exact ((fullLiquidation_erased fenv cdp t s).1 hok).2

set_option maxRecDepth 100000 in
/-- Witness for C6: the 110 % scenario (collateral 1100, debt 1000; liquidator 1100, owner
0) through the second band, where a payment of the required 1067 by a liquidator holding
2000 ends with the CDP erased; and a 140 % CDP (collateral 1400, debt 1000) through the
first: liquidator 1300, owner 100, and a payment of the required 1261 takes the
full-liquidation branch, which erases the CDP. -/
theorem liquidateTiers_bands_witness :
    (1100 < U64 ∧
      liquidateTiers exampleCdpEnv 1100 1000 100000000 11000 15000 13000 9700 10400 =
        some (.totals ⟨1100, 1067, 67, 0⟩) ∧
      ((⟨1100, 1067, 67, 0⟩ : LiquidateTotals).totalBcoinsToReturnLiquidator = 1100 ∧
        (⟨1100, 1067, 67, 0⟩ : LiquidateTotals).totalBcoinsToCdpOwner = 0)) ∧
    (liquidateBranch exampleFullLiqEnv cdpSecondTier ⟨1100, 1067, 67, 0⟩ 1067
        exampleFullLiqState).map (fun r => (r.1, r.2.erased)) =
      some (true, [cdpSecondTier]) ∧
    liquidateTiers exampleCdpEnv 1400 1000 100000000 14000 15000 13000 9700 10400 =
      some (.totals ⟨1300, 1261, 261, 100⟩) ∧
    (isFullLiquidation 1261 ⟨1300, 1261, 261, 100⟩ = true ↔ 1261 ≤ 1261) ∧
    (∃ s2, liquidateBranch exampleFullLiqEnv cdpFirstTier ⟨1300, 1261, 261, 100⟩ 1261
        exampleFullLiqState = some (true, s2) ∧
      s2.erased = exampleFullLiqState.erased ++ [cdpFirstTier]) :=
  ⟨⟨by decide, by decide,
    (liquidateTiers_bands exampleCdpEnv 1100 1000 100000000 11000 15000 13000 9700 10400 1067
      ⟨1100, 1067, 67, 0⟩ (by decide) (by decide)).2.1 (by decide) (by decide)⟩,
    by decide, by decide,
    (liquidateTiers_bands exampleCdpEnv 1400 1000 100000000 14000 15000 13000 9700 10400 1261
      ⟨1300, 1261, 261, 100⟩ (by decide) (by decide)).2.2.1,
    ((liquidateTiers_bands exampleCdpEnv 1400 1000 100000000 14000 15000 13000 9700 10400 1261
      ⟨1300, 1261, 261, 100⟩ (by decide) (by decide)).2.2.2 exampleFullLiqEnv cdpFirstTier
      exampleFullLiqState).2.2.2.2 2 rfl (by decide) (by decide) (by decide) (by decide)
      (by decide) (by decide) (by decide) (by decide) (by decide) rfl rfl⟩

/-! ## First-time CDP creation: the ratio check -/

/-- The exact ratio `asset * price / PRICE_BOOST / scoin * RATIO_BOOST` is, up to nine
roundings, below the successor of the ratio returned by `CalcCollateralRatio`. -/
theorem CalcCollateralRatio_exact_lt (env : CdpEnv) (a s p r : Nat) (hs : s ≠ 0)
    (hr : CalcCollateralRatio env a s p = some r) :
    (a : ℚ) * p / env.PRICE_BOOST / s * env.RATIO_BOOST * roundFactor ^ 9 < (r : ℚ) + 1 := by
  unfold CalcCollateralRatio at hr
  rw [if_neg hs] at hr
  split at hr
  · exact absurd hr (by simp)
  · rename_i x hx
    split at hr
    · exact absurd hr (by simp)
    · rename_i y hy
      have a1 := Double.mul_approx (Double.ofNat_approx a) (Double.ofNat_approx p)
      have a2 := Double.div_approx hx a1 (Double.ofNat_approx env.PRICE_BOOST)
      have a3 := Double.div_approx hy a2 (Double.ofNat_approx s)
      have a4 := Double.mul_approx a3 (Double.ofNat_approx env.RATIO_BOOST)
      have hb := (Double.toUInt64_bounds hr).2
      have a5 := approx_mono a4 (Double.val_nonneg _)
        (show 1 + (1 + (1 + (1 + (1 + 1) + 1) + 1) + 1) ≤ 9 by norm_num)
      exact lt_of_le_of_lt a5.1 hb

/-- The truncated exact ratio, in integer arithmetic, brackets the exact ratio. -/
theorem exactRatio_bounds (a s p PB RB : Nat) (hs : s ≠ 0) (hPB : PB ≠ 0) :
    ((a * p * RB / (PB * s) : Nat) : ℚ) ≤ (a : ℚ) * p / PB / s * RB ∧
    (a : ℚ) * p / PB / s * RB < ((a * p * RB / (PB * s) : Nat) : ℚ) + 1 := by
  have hn : 0 < PB * s := Nat.mul_pos (Nat.pos_of_ne_zero hPB) (Nat.pos_of_ne_zero hs)
  have hnq : (0 : ℚ) < ((PB * s : Nat) : ℚ) := by exact_mod_cast hn
  have hPBq : (PB : ℚ) ≠ 0 := by exact_mod_cast hPB
  have hsq : (s : ℚ) ≠ 0 := by exact_mod_cast hs
  have e : (a : ℚ) * p / PB / s * RB = ((a * p * RB : Nat) : ℚ) / ((PB * s : Nat) : ℚ) := by
    push_cast
    field_simp
  rw [e]
  constructor
  · exact Nat.cast_div_le
  · rw [div_lt_iff₀ hnq]
    have h := Nat.lt_mul_div_succ (a * p * RB) hn
    have h2 : ((a * p * RB : Nat) : ℚ) < (((PB * s) * (a * p * RB / (PB * s) + 1) : Nat) : ℚ) := by
      exact_mod_cast h
    calc ((a * p * RB : Nat) : ℚ) < (((PB * s) * (a * p * RB / (PB * s) + 1) : Nat) : ℚ) := h2
      _ = (((a * p * RB / (PB * s) : Nat) : ℚ) + 1) * ((PB * s : Nat) : ℚ) := by
        push_cast; ring

set_option maxRecDepth 100000 in
/-- C10 (counterexample to the claim as worded). Staking 57 units at price 1.00 and minting
25: the exact ratio `57 * 1.00 / 25 * 10^4` is 22800, so its truncation is not below a
starting ratio of 22800; `CalcCollateralRatio` computes `57.0 / 25 * 10000` in `double` and
returns 22799, and the stake is rejected. -/
theorem firstTimeCdpChecks_trunc_counterexample :
    57 * 100000000 * exampleCdpEnv.RATIO_BOOST / (exampleCdpEnv.PRICE_BOOST * 25) = 22800 ∧
    57 * 100000000 * exampleCdpEnv.RATIO_BOOST % (exampleCdpEnv.PRICE_BOOST * 25) = 0 ∧
    CalcCollateralRatio exampleCdpEnv 57 25 100000000 = some 22799 ∧
    firstTimeCdpChecks exampleCdpEnv 57 25 false 100000000 22800 =
      some .CDP_collateral_ratio_toosmall := by
  refine ⟨by decide, by decide, by decide, by decide⟩

set_option maxRecDepth 100000 in
/-- C10 (amended). In first-time CDP creation the outcome is the reject
`CDP-collateral-ratio-toosmall` exactly when the earlier checks pass (nonzero amounts, no
CDP of this user on the pair) and `CalcCollateralRatio(assetAmount, scoins_to_mint, price)`,
the expression `assetAmount * price / PRICE_BOOST / scoins_to_mint * RATIO_BOOST` evaluated
in `double` and truncated, is below the starting collateral ratio. That value is the exact
quotient up to nine roundings of relative size `2^-53` before the truncation, and for exact
ratios below `2^48 - 1` it differs from the truncated exact quotient by at most one.
Staking 1,000 WICC at price 1.00 with a 200 % starting ratio: minting 400 WUSD gives ratio
25000 (250 %) and passes the check; minting 600 WUSD gives 16666 (166 %) and is
rejected. -/
theorem firstTimeCdpChecks_ratio :
    (∀ (env : CdpEnv) (assetAmount scoins_to_mint : Nat) (userHaveCdp : Bool)
        (price startingRatio : Nat),
      firstTimeCdpChecks env assetAmount scoins_to_mint userHaveCdp price startingRatio =
          some .CDP_collateral_ratio_toosmall ↔
        (assetAmount ≠ 0 ∧ scoins_to_mint ≠ 0 ∧ userHaveCdp = false ∧
          ∃ r, CalcCollateralRatio env assetAmount scoins_to_mint price = some r ∧
            r < startingRatio)) ∧
    (∀ (env : CdpEnv) (assetAmount scoins_to_mint price r : Nat),
      scoins_to_mint ≠ 0 →
      CalcCollateralRatio env assetAmount scoins_to_mint price = some r →
      (r : ℚ) * roundFactor ^ 9 ≤
          (assetAmount : ℚ) * price / env.PRICE_BOOST / scoins_to_mint * env.RATIO_BOOST ∧
      (assetAmount : ℚ) * price / env.PRICE_BOOST / scoins_to_mint * env.RATIO_BOOST *
          roundFactor ^ 9 < (r : ℚ) + 1 ∧
      (env.PRICE_BOOST ≠ 0 →
        assetAmount * price * env.RATIO_BOOST / (env.PRICE_BOOST * scoins_to_mint) + 1
          < 2 ^ 48 →
        r ≤ assetAmount * price * env.RATIO_BOOST / (env.PRICE_BOOST * scoins_to_mint) + 1 ∧
        assetAmount * price * env.RATIO_BOOST / (env.PRICE_BOOST * scoins_to_mint) ≤ r + 1)) ∧
    CalcCollateralRatio exampleCdpEnv 100000000000 40000000000 100000000 = some 25000 ∧
    firstTimeCdpChecks exampleCdpEnv 100000000000 40000000000 false 100000000 20000 =
      some .continues ∧
    CalcCollateralRatio exampleCdpEnv 100000000000 60000000000 100000000 = some 16666 ∧
    firstTimeCdpChecks exampleCdpEnv 100000000000 60000000000 false 100000000 20000 =
      some .CDP_collateral_ratio_toosmall := by
  refine ⟨?_, ?_, by decide, by decide, by decide, by decide⟩
  · intro env a s u p start
    unfold firstTimeCdpChecks
    by_cases h0 : a = 0 ∨ s = 0
    · rw [if_pos h0]
      constructor
      · intro h; simp at h
      · rintro ⟨h1, h2, -⟩; rcases h0 with h | h
        · exact absurd h h1
        · exact absurd h h2
    rw [if_neg h0]
    have h0' : a ≠ 0 ∧ s ≠ 0 := by
      constructor
      · intro h; exact h0 (Or.inl h)
      · intro h; exact h0 (Or.inr h)
    cases u
    · simp only [Bool.false_eq_true, if_false]
      cases hr : CalcCollateralRatio env a s p with
      | none =>
        simp only
        constructor
        · intro h; simp at h
        · rintro ⟨-, -, -, r, h, -⟩; simp at h
      | some r =>
        simp only
        by_cases hlt : r < start
        · rw [if_pos hlt]
          exact ⟨fun _ => ⟨h0'.1, h0'.2, trivial, r, rfl, hlt⟩, fun _ => rfl⟩
        · rw [if_neg hlt]
          constructor
          · intro h; simp at h
          · rintro ⟨-, -, -, r', h, hlt'⟩
            rw [Option.some.injEq] at h
            subst h
            exact absurd hlt' hlt
    · simp only [if_true]
      constructor
      · intro h; simp at h
      · rintro ⟨-, -, h, -⟩; simp at h
  · intro env a s p r hs hr
    have hlo := CalcCollateralRatio_le_exact env a s p r hs hr
    have hhi := CalcCollateralRatio_exact_lt env a s p r hs hr
    refine ⟨hlo, hhi, fun hPB hb => ?_⟩
    obtain ⟨e1, e2⟩ := exactRatio_bounds a s p env.PRICE_BOOST env.RATIO_BOOST hs hPB
    generalize (a : ℚ) * p / env.PRICE_BOOST / s * env.RATIO_BOOST = E at hlo hhi e1 e2
    generalize a * p * env.RATIO_BOOST / (env.PRICE_BOOST * s) = T at hb e1 e2 ⊢
    have q9 : roundFactor ^ 18 ≤ roundFactor ^ 9 :=
      pow_le_pow_of_le_one roundFactor_pos.le roundFactor_le_one (by norm_num)
    have q9pos := roundFactor_pow_pos 9
    constructor
    · by_contra hc
      have hr2 : T + 2 ≤ r := by omega
      have hr2q : ((T : ℚ) + 1) + 1 ≤ (r : ℚ) := by exact_mod_cast hr2
      have h1 := ratio_step_absorbs (T + 1) (by omega)
      push_cast at h1
      have h2 : ((T : ℚ) + 1 + 1) * roundFactor ^ 18 ≤ (r : ℚ) * roundFactor ^ 9 :=
        mul_le_mul hr2q q9 (roundFactor_pow_pos 18).le (by positivity)
      linarith
    · by_contra hc
      have hr2 : r + 2 ≤ T := by omega
      have hr2q : ((r : ℚ) + 1) + 1 ≤ (T : ℚ) := by exact_mod_cast hr2
      have h1 := ratio_step_absorbs (r + 1) (by omega)
      push_cast at h1
      have h2 : ((r : ℚ) + 1 + 1) * roundFactor ^ 18 ≤ (T : ℚ) * roundFactor ^ 9 :=
        mul_le_mul hr2q q9 (roundFactor_pow_pos 18).le (by positivity)
      have h3 : (T : ℚ) * roundFactor ^ 9 ≤ E * roundFactor ^ 9 :=
        mul_le_mul_of_nonneg_right e1 q9pos.le
      linarith

set_option maxRecDepth 100000 in
/-- C10 (witness): for 57 units at price 1.00 minting 25, the returned 22799 is within the
rounding bounds of the exact ratio, and one below its truncation 22800. -/
theorem firstTimeCdpChecks_ratio_witness :
    (25 : Nat) ≠ 0 ∧
    CalcCollateralRatio exampleCdpEnv 57 25 100000000 = some 22799 ∧
    57 * 100000000 * exampleCdpEnv.RATIO_BOOST / (exampleCdpEnv.PRICE_BOOST * 25) + 1
      < 2 ^ 48 ∧
    (22799 ≤ 57 * 100000000 * exampleCdpEnv.RATIO_BOOST / (exampleCdpEnv.PRICE_BOOST * 25) + 1 ∧
      57 * 100000000 * exampleCdpEnv.RATIO_BOOST / (exampleCdpEnv.PRICE_BOOST * 25)
        ≤ 22799 + 1) :=
  ⟨by decide, by decide, by decide,
    (firstTimeCdpChecks_ratio.2.1 exampleCdpEnv 57 25 100000000 22799 (by decide)
      (by decide)).2.2 (by decide) (by decide)⟩

end DBC
